import Mathlib

/-!
# crud: tag-driven statement builders and row scanning

A shallow embedding of `modify.go` (`Update`, `Insert`, `Upsert`), `vars.go`
(the process-wide switches) and `scan.go` (`Scan`, `ScanAll`).

Conventions of the embedding.

* A Go `error` result is an `Option Error`; `none` is the nil error.
* A run-time panic of the `reflect` package is the `Except.error` branch of
  `Except Panic _`; a normal return is `Except.ok`.
* `sqlToGoFields` is not part of the sources at hand. Its result is a Go map,
  and every loop over it is a `range` loop; the embedding takes the resolver as
  a parameter whose result lists the entries in the order the loop visits them.
* `db.Exec` is the injected execution interface: a function from the statement
  text and the bind values to a result or an error. Every call is recorded in
  the `calls` trace of the run, console output in `printed`.
-/

namespace Crud

/-- Go `error` values. -/
abbrev Error := String

/-- The message of a run-time panic. -/
abbrev Panic := String

/-- Static field types, as far as `reflect.Kind` and the type assertions of the
sources tell them apart. -/
inductive GoType where
  | int8
  | int16
  | int32
  | int64
  | int
  | uint
  | float32
  | float64
  | bool
  | string
  | time
  | ptr (elem : GoType)
  | named (name : String)
  deriving DecidableEq, Repr

/-- Values held by struct fields and passed as bind values. A float is kept as
its bit pattern; `nil` is a nil pointer, `ptr v` a pointer to a cell holding `v`. -/
inductive Value where
  | int (n : Int)
  | float (bits : Nat)
  | bool (b : Bool)
  | str (s : String)
  | time (sec : Int) (nsec : Nat)
  | nil
  | ptr (pointee : Value)
  deriving DecidableEq, Repr

/-- Kinds on which `reflect.Value.Int` does not panic. -/
def GoType.isSignedInt : GoType → Bool
  | .int8 | .int16 | .int32 | .int64 | .int => true
  | _ => false

/-- One field of a struct value. -/
structure Field where
  name : String
  ty : GoType
  val : Value
  deriving DecidableEq, Repr

/-- A struct value: its type's name (the identity of its `reflect.Type`) and its fields. -/
structure Record where
  typeName : String
  fields : List Field
  deriving DecidableEq, Repr

/-- Field descriptor of the metadata: `meta.GoName`, `meta.ReadOnly`, `meta.Unix`. -/
structure FieldMeta where
  GoName : String
  ReadOnly : Bool
  Unix : Bool
  deriving DecidableEq, Repr

/-- The entries of the map returned by `sqlToGoFields`, in the order a `range`
loop visits them: column name and descriptor. -/
abbrev FieldMap := List (String × FieldMeta)

/-- The absent `sqlToGoFields`, as a parameter: from a struct type to its field
map or an error. -/
abbrev Resolver := String → Except Error FieldMap

/-- Go `val.FieldByName(goName)`: the first field of that name, if any. -/
def Record.fieldByName (val : Record) (goName : String) : Option Field :=
  val.fields.find? (fun f => f.name = goName)

/-- Go `val.FieldByName(goName).Interface()`; panics on the zero `reflect.Value`
that `FieldByName` returns for a name the struct does not have. -/
def Record.fieldInterface (val : Record) (goName : String) : Except Panic Value :=
  match val.fieldByName goName with
  | some f => .ok f.val
  | none => .error "reflect: call of reflect.Value.Interface on zero Value"

/-- Go `val.FieldByName(goName).Int()`; panics unless the field has a signed
integer kind. -/
def Record.fieldInt (val : Record) (goName : String) : Except Panic Int :=
  match val.fieldByName goName with
  | some f =>
    match f.ty.isSignedInt, f.val with
    | true, .int n => .ok n
    | _, _ => .error "reflect: call of reflect.Value.Int on non-int Value"
  | none => .error "reflect: call of reflect.Value.Int on zero Value"

/-- The result handle of `db.Exec`: what `res.LastInsertId()` returns. -/
structure SqlResult where
  lastInsertId : Int
  lastInsertIdErr : Option Error
  deriving DecidableEq, Repr

/-- The execution interface `DbIsh`. -/
structure DbIsh where
  exec : String → List Value → Except Error SqlResult

/-- The variables of `vars.go`. -/
structure Config where
  EnableUpsert : Bool
  NoLastInsertId : Bool
  PlaceholderFormat : Nat → String

/-- The initial values of `vars.go`: both switches off, every placeholder `?`. -/
def Config.default : Config :=
  { EnableUpsert := false, NoLastInsertId := false, PlaceholderFormat := fun _ => "?" }

/-- What a call did and returned: the return value, the `db.Exec` calls in
order, and the text written to the console. -/
structure Run (α : Type) where
  ret : α
  calls : List (String × List Value)
  printed : List String
  deriving DecidableEq, Repr

/-- The time coercion shared by the three builders (modify.go 44-49, 96-101,
160-165): a `time.Time`, or a non-nil `*time.Time`, under a descriptor with
`Unix` set becomes its Unix seconds; anything else is bound as it is. -/
def bindValue (desc : FieldMeta) (fieldVal : Value) : Value :=
  match fieldVal with
  | .time sec _ => if desc.Unix then .int sec else fieldVal
  | .ptr (.time sec _) => if desc.Unix then .int sec else fieldVal
  | _ => fieldVal

/-- Go `strings.Join(xs, ", ")`. -/
def joinComma (xs : List String) : String :=
  ", ".intercalate xs

/-! ## Update (modify.go 18-65) -/

/-- The locals of `Update` that its loop changes. -/
structure UpdateAcc where
  sqlFields : List String
  newValues : List Value
  id : Int
  deriving DecidableEq, Repr

/-- One iteration of the loop of `Update` (modify.go 31-54). -/
def updateStep (sqlIdFieldName : String) (val : Record) (acc : UpdateAcc)
    (e : String × FieldMeta) : Except Panic UpdateAcc :=
  if e.2.ReadOnly then
    .ok acc
  else if e.1 = sqlIdFieldName then
    match val.fieldInt e.2.GoName with
    | .ok n => .ok { acc with id := n }
    | .error p => .error p
  else
    match val.fieldInterface e.2.GoName with
    | .ok fieldVal =>
      .ok { acc with
            sqlFields := acc.sqlFields ++ [e.1 ++ " = ?"]
            newValues := acc.newValues ++ [bindValue e.2 fieldVal] }
    | .error p => .error p

/-- The loop of `Update` over the field map. -/
def updateLoop (sqlIdFieldName : String) (val : Record) :
    FieldMap → UpdateAcc → Except Panic UpdateAcc
  | [], acc => .ok acc
  | e :: rest, acc =>
    match updateStep sqlIdFieldName val acc e with
    | .ok acc1 => updateLoop sqlIdFieldName val rest acc1
    | .error p => .error p

/-- The text `Update` builds at modify.go 62. -/
def updateQuery (table : String) (sqlFields : List String) (sqlIdFieldName : String) : String :=
  "UPDATE " ++ table ++ " SET " ++ joinComma sqlFields ++ " WHERE " ++ sqlIdFieldName ++ " = ?"

/-- The error of modify.go 57. -/
def idMissing (sqlIdFieldName : String) : Error :=
  sqlIdFieldName ++ " is 0 or not set, cannot update"

/-- Go `Update(db, table, sqlIdFieldName, arg)`, `val` being the struct `arg`
refers to. -/
def Update (sqlToGoFields : Resolver) (db : DbIsh) (table sqlIdFieldName : String)
    (val : Record) : Except Panic (Run (Option Error)) :=
  match sqlToGoFields val.typeName with
  | .error er => .ok { ret := some er, calls := [], printed := [] }
  | .ok fieldMap =>
    match updateLoop sqlIdFieldName val fieldMap { sqlFields := [], newValues := [], id := 0 } with
    | .error p => .error p
    | .ok acc =>
      if acc.id = 0 then
        .ok { ret := some (idMissing sqlIdFieldName), calls := [], printed := [] }
      else
        let newValues := acc.newValues ++ [Value.int acc.id]
        let q := updateQuery table acc.sqlFields sqlIdFieldName
        match db.exec q newValues with
        | .ok _ => .ok { ret := none, calls := [(q, newValues)], printed := [] }
        | .error er => .ok { ret := some er, calls := [(q, newValues)], printed := [] }

/-! ## Insert (modify.go 70-123) -/

/-- The locals of `Insert` and `Upsert` that their loops change
(`sqlUpsertFields` is used by `Upsert` only). -/
structure InsertAcc where
  sqlFields : List String
  newValues : List Value
  placeholders : List String
  placeholderN : Nat
  sqlUpsertFields : List String
  deriving DecidableEq, Repr

/-- One iteration of the loop of `Insert` (modify.go 84-107). -/
def insertStep (cfg : Config) (sqlIdFieldName : String) (val : Record) (acc : InsertAcc)
    (e : String × FieldMeta) : Except Panic InsertAcc :=
  if e.2.ReadOnly then
    .ok acc
  else if e.1 = sqlIdFieldName then
    .ok acc
  else
    match val.fieldInterface e.2.GoName with
    | .ok fieldVal =>
      .ok { acc with
            sqlFields := acc.sqlFields ++ [e.1]
            newValues := acc.newValues ++ [bindValue e.2 fieldVal]
            placeholders := acc.placeholders ++ [cfg.PlaceholderFormat acc.placeholderN]
            placeholderN := acc.placeholderN + 1 }
    | .error p => .error p

/-- The loop of `Insert` over the field map. -/
def insertLoop (cfg : Config) (sqlIdFieldName : String) (val : Record) :
    FieldMap → InsertAcc → Except Panic InsertAcc
  | [], acc => .ok acc
  | e :: rest, acc =>
    match insertStep cfg sqlIdFieldName val acc e with
    | .ok acc1 => insertLoop cfg sqlIdFieldName val rest acc1
    | .error p => .error p

/-- The text `Insert` builds at modify.go 109. -/
def insertQuery (table : String) (sqlFields placeholders : List String) : String :=
  "INSERT INTO " ++ table ++ " (" ++ joinComma sqlFields ++ ") VALUES (" ++
    joinComma placeholders ++ ")"

/-- The start of both insert loops: empty lists, `placeholderN := 1`. -/
def InsertAcc.init : InsertAcc :=
  { sqlFields := [], newValues := [], placeholders := [], placeholderN := 1,
    sqlUpsertFields := [] }

/-- Go `Insert(db, table, sqlIdFieldName, arg)`. -/
def Insert (cfg : Config) (sqlToGoFields : Resolver) (db : DbIsh)
    (table sqlIdFieldName : String) (val : Record) :
    Except Panic (Run (Int × Option Error)) :=
  match sqlToGoFields val.typeName with
  | .error er => .ok { ret := (0, some er), calls := [], printed := [] }
  | .ok fieldMap =>
    match insertLoop cfg sqlIdFieldName val fieldMap InsertAcc.init with
    | .error p => .error p
    | .ok acc =>
      let q := insertQuery table acc.sqlFields acc.placeholders
      match db.exec q acc.newValues with
      | .error er => .ok { ret := (0, some er), calls := [(q, acc.newValues)], printed := [q] }
      | .ok res =>
        if res.lastInsertIdErr.isSome && cfg.NoLastInsertId then
          .ok { ret := (0, none), calls := [(q, acc.newValues)], printed := [] }
        else
          .ok { ret := (res.lastInsertId, none), calls := [(q, acc.newValues)], printed := [] }

/-! ## Upsert (modify.go 128-190) -/

/-- One iteration of the loop of `Upsert` (modify.go 148-173). -/
def upsertStep (cfg : Config) (sqlIdFieldName : String) (val : Record) (acc : InsertAcc)
    (e : String × FieldMeta) : Except Panic InsertAcc :=
  if e.2.ReadOnly then
    .ok acc
  else if e.1 = sqlIdFieldName then
    .ok acc
  else
    match val.fieldInterface e.2.GoName with
    | .ok fieldVal =>
      .ok { sqlFields := acc.sqlFields ++ [e.1]
            newValues := acc.newValues ++ [bindValue e.2 fieldVal]
            placeholders := acc.placeholders ++ [cfg.PlaceholderFormat acc.placeholderN]
            placeholderN := acc.placeholderN + 1
            sqlUpsertFields := acc.sqlUpsertFields ++ [e.1 ++ " = ?"] }
    | .error p => .error p

/-- The loop of `Upsert` over the field map. -/
def upsertLoop (cfg : Config) (sqlIdFieldName : String) (val : Record) :
    FieldMap → InsertAcc → Except Panic InsertAcc
  | [], acc => .ok acc
  | e :: rest, acc =>
    match upsertStep cfg sqlIdFieldName val acc e with
    | .ok acc1 => upsertLoop cfg sqlIdFieldName val rest acc1
    | .error p => .error p

/-- The text `Upsert` builds at modify.go 175. -/
def upsertQuery (table : String) (sqlFields placeholders sqlUpsertFields : List String) :
    String :=
  "INSERT INTO " ++ table ++ " (" ++ joinComma sqlFields ++ ") VALUES (" ++
    joinComma placeholders ++ ") ON DUPLICATE KEY UPDATE " ++ joinComma sqlUpsertFields

/-- Go `Upsert(db, table, sqlIdFieldName, arg)`. -/
def Upsert (cfg : Config) (sqlToGoFields : Resolver) (db : DbIsh)
    (table sqlIdFieldName : String) (val : Record) :
    Except Panic (Run (Int × Option Error)) :=
  if !cfg.EnableUpsert then
    Insert cfg sqlToGoFields db table sqlIdFieldName val
  else
    match sqlToGoFields val.typeName with
    | .error er => .ok { ret := (0, some er), calls := [], printed := [] }
    | .ok fieldMap =>
      match upsertLoop cfg sqlIdFieldName val fieldMap InsertAcc.init with
      | .error p => .error p
      | .ok acc =>
        let q := upsertQuery table acc.sqlFields acc.placeholders acc.sqlUpsertFields
        let newValues := acc.newValues ++ acc.newValues
        match db.exec q newValues with
        | .error er => .ok { ret := (0, some er), calls := [(q, newValues)], printed := [] }
        | .ok res =>
          if res.lastInsertIdErr.isSome && cfg.NoLastInsertId then
            .ok { ret := (0, none), calls := [(q, newValues)], printed := [] }
          else
            .ok { ret := (res.lastInsertId, res.lastInsertIdErr),
                  calls := [(q, newValues)], printed := [] }

/-! ## Scan (scan.go 25-166)

`scan.go` ranges over the same field map and uses the entry's Go field name.
Record arguments are pointers: an argument is a string or the address of a
struct in a heap of structs, so the same struct may be passed twice. -/

/-- A column value as the driver hands it to `rows.Scan`. -/
inductive SqlValue where
  | null
  | int (n : Int)
  | float (bits : Nat)
  | bool (b : Bool)
  | str (s : String)
  | time (sec : Int) (nsec : Nat)
  deriving DecidableEq, Repr

/-- The four nullable holders of `database/sql`, each with its `Valid` member. -/
inductive Holder where
  | nullInt64 (int64 : Int) (valid : Bool)
  | nullFloat64 (float64 : Nat) (valid : Bool)
  | nullBool (bool : Bool) (valid : Bool)
  | nullString (string : String) (valid : Bool)
  deriving DecidableEq, Repr

/-- The `Valid` member of a holder. -/
def Holder.valid : Holder → Bool
  | .nullInt64 _ v => v
  | .nullFloat64 _ v => v
  | .nullBool _ v => v
  | .nullString _ v => v

/-- A field of a struct in the heap: the key type of the four remap tables. -/
abbrev FieldRef := Nat × String

/-- What `Scan` hands to `rows.Scan` for one column: the address of a field,
one of the holders allocated by this call, or a throwaway `new(interface{})`. -/
inductive Target where
  | field (addr : Nat) (goName : String)
  | holder (h : Nat)
  | discard
  deriving DecidableEq, Repr

/-- An argument of `Scan`: a string, or a pointer to a struct. -/
inductive Arg where
  | str (s : String)
  | ref (addr : Nat)
  deriving DecidableEq, Repr

/-- The library behaviour `Scan` relies on and the sources do not contain:
`convertAssign` of `database/sql` into a field of a given type and into the
value member of each holder (for a non-nil source), and the Go conversion
`float32(x)` on bit patterns. -/
structure SqlLib where
  assignField : GoType → SqlValue → Except Error Value
  assignInt64 : SqlValue → Except Error Int
  assignFloat64 : SqlValue → Except Error Nat
  assignBool : SqlValue → Except Error Bool
  assignString : SqlValue → Except Error String
  toFloat32 : Nat → Nat

/-- The cursor `*sql.Rows`: the result of `Columns`, the row the last `Next`
positioned on, the rows still to come, and whether it has been closed. -/
structure Rows where
  columns : Except Error (List String)
  current : Option (List SqlValue)
  pending : List (List SqlValue)
  closed : Bool

/-- Go map assignment `m[k] = v`: an earlier entry for `k` is replaced. -/
def mapSet {α β : Type} [DecidableEq α] (k : α) (v : β) (m : List (α × β)) : List (α × β) :=
  (k, v) :: m.filter (fun p => decide (p.1 ≠ k))

/-- Go map lookup `m[k]` with the comma-ok form. -/
def mapGet {α β : Type} [DecidableEq α] (k : α) : List (α × β) → Option β
  | [] => none
  | p :: rest => if p.1 = k then some p.2 else mapGet k rest

/-- The locals of `Scan` that its argument loop changes, with the holders
allocated so far (`new(sql.NullInt64)` and the like, addressed by position). -/
structure ScanAcc where
  pfx : String
  writeBackMap : List (String × Target)
  intRemap : List (FieldRef × Nat)
  floatRemap : List (FieldRef × Nat)
  boolRemap : List (FieldRef × Nat)
  stringRemap : List (FieldRef × Nat)
  holders : List Holder
  deriving DecidableEq, Repr

/-- The state before the argument loop (scan.go 26-33). -/
def ScanAcc.init : ScanAcc :=
  { pfx := "", writeBackMap := [], intRemap := [], floatRemap := [], boolRemap := [],
    stringRemap := [], holders := [] }

/-- The holder family of a field type, by the `switch` of scan.go 53-88. -/
inductive NullKind where
  | int
  | float
  | bool
  | string
  deriving DecidableEq, Repr

/-- The branch of scan.go 53-88 a field type takes: a pointer to an
8/16/32/64-bit integer, a 32/64-bit float, a boolean or a string gets a holder;
every other type, pointer or not, falls through to the direct registration. -/
def GoType.nullKind : GoType → Option NullKind
  | .ptr .int8 => some .int
  | .ptr .int16 => some .int
  | .ptr .int32 => some .int
  | .ptr .int64 => some .int
  | .ptr .float32 => some .float
  | .ptr .float64 => some .float
  | .ptr .bool => some .bool
  | .ptr .string => some .string
  | _ => none

/-- One iteration of the inner loop of `Scan` (scan.go 49-93) for the struct
`val` at address `addr`. -/
def scanField (addr : Nat) (val : Record) (acc : ScanAcc) (e : String × FieldMeta) :
    Except Panic ScanAcc :=
  match val.fieldByName e.2.GoName with
  | none => .error "reflect: call of reflect.Value.Type on zero Value"
  | some field =>
    match field.ty.nullKind with
    | some .int =>
      .ok { acc with
            holders := acc.holders ++ [Holder.nullInt64 0 false]
            writeBackMap := mapSet e.1 (Target.holder acc.holders.length) acc.writeBackMap
            intRemap := mapSet (addr, e.2.GoName) acc.holders.length acc.intRemap }
    | some .float =>
      .ok { acc with
            holders := acc.holders ++ [Holder.nullFloat64 0 false]
            writeBackMap := mapSet e.1 (Target.holder acc.holders.length) acc.writeBackMap
            floatRemap := mapSet (addr, e.2.GoName) acc.holders.length acc.floatRemap }
    | some .bool =>
      .ok { acc with
            holders := acc.holders ++ [Holder.nullBool false false]
            writeBackMap := mapSet e.1 (Target.holder acc.holders.length) acc.writeBackMap
            boolRemap := mapSet (addr, e.2.GoName) acc.holders.length acc.boolRemap }
    | some .string =>
      .ok { acc with
            holders := acc.holders ++ [Holder.nullString "" false]
            writeBackMap := mapSet e.1 (Target.holder acc.holders.length) acc.writeBackMap
            stringRemap := mapSet (addr, e.2.GoName) acc.holders.length acc.stringRemap }
    | none =>
      .ok { acc with
            writeBackMap :=
              mapSet (acc.pfx ++ e.1) (Target.field addr e.2.GoName) acc.writeBackMap }

/-- The inner loop of `Scan` over the field map of one struct argument. -/
def scanFields (addr : Nat) (val : Record) : FieldMap → ScanAcc → Except Panic ScanAcc
  | [], acc => .ok acc
  | e :: rest, acc =>
    match scanField addr val acc e with
    | .ok acc1 => scanFields addr val rest acc1
    | .error p => .error p

/-- The argument loop of `Scan` (scan.go 35-96). The outer `Except` is a panic,
the inner one the resolver error returned at scan.go 46. -/
def scanArgs (sqlToGoFields : Resolver) (heap : List Record) :
    List Arg → ScanAcc → Except Panic (Except Error ScanAcc)
  | [], acc => .ok (.ok acc)
  | .str s :: rest, acc => scanArgs sqlToGoFields heap rest { acc with pfx := s }
  | .ref addr :: rest, acc =>
    match heap[addr]? with
    | none => .error "reflect: call of reflect.Value.Type on zero Value"
    | some val =>
      match sqlToGoFields val.typeName with
      | .error er => .ok (.error er)
      | .ok fieldMap =>
        match scanFields addr val fieldMap acc with
        | .error p => .error p
        | .ok acc1 => scanArgs sqlToGoFields heap rest { acc1 with pfx := "" }

/-- The slice `writeBack` of scan.go 103-112. -/
def writeBackTargets (writeBackMap : List (String × Target)) (cols : List String) :
    List Target :=
  cols.map (fun col =>
    match mapGet col writeBackMap with
    | some target => target
    | none => Target.discard)

/-- Set the value of the first field named `goName`. -/
def setFieldVal (goName : String) (v : Value) : List Field → List Field
  | [] => []
  | f :: fs =>
    if f.name = goName then { f with val := v } :: fs else f :: setFieldVal goName v fs

/-- Store `v` in field `goName` of the struct at `addr`. -/
def heapSet (heap : List Record) (addr : Nat) (goName : String) (v : Value) : List Record :=
  match heap[addr]? with
  | some r => heap.set addr { r with fields := setFieldVal goName v r.fields }
  | none => heap

/-- The field `goName` of the struct at `addr`. -/
def heapField (heap : List Record) (addr : Nat) (goName : String) : Option Field :=
  match heap[addr]? with
  | some r => r.fieldByName goName
  | none => none

/-- Go `field.Type()` for the field `goName` of the struct at `addr`. -/
def heapFieldType (heap : List Record) (addr : Nat) (goName : String) : Option GoType :=
  match heapField heap addr goName with
  | some f => some f.ty
  | none => none

/-- The `Scan` method of a holder: a nil source clears it, any other source is
converted into the value member with `Valid` set. -/
def Holder.scan (lib : SqlLib) (h : Holder) (src : SqlValue) : Except Error Holder :=
  match h, src with
  | .nullInt64 _ _, .null => .ok (.nullInt64 0 false)
  | .nullInt64 _ _, v => (lib.assignInt64 v).map (fun n => .nullInt64 n true)
  | .nullFloat64 _ _, .null => .ok (.nullFloat64 0 false)
  | .nullFloat64 _ _, v => (lib.assignFloat64 v).map (fun x => .nullFloat64 x true)
  | .nullBool _ _, .null => .ok (.nullBool false false)
  | .nullBool _ _, v => (lib.assignBool v).map (fun b => .nullBool b true)
  | .nullString _ _, .null => .ok (.nullString "" false)
  | .nullString _ _, v => (lib.assignString v).map (fun t => .nullString t true)

/-- The memory `rows.Scan` writes through the targets. -/
structure Mem where
  heap : List Record
  holders : List Holder
  deriving DecidableEq, Repr

/-- The assignment `rows.Scan` makes for one column. -/
def assignTarget (lib : SqlLib) (t : Target) (src : SqlValue) (mem : Mem) : Except Error Mem :=
  match t with
  | .discard => .ok mem
  | .holder h =>
    match mem.holders[h]? with
    | none => .ok mem
    | some old =>
      match old.scan lib src with
      | .ok new => .ok { mem with holders := mem.holders.set h new }
      | .error er => .error er
  | .field addr goName =>
    match heapField mem.heap addr goName with
    | none => .ok mem
    | some f =>
      match lib.assignField f.ty src with
      | .ok v => .ok { mem with heap := heapSet mem.heap addr goName v }
      | .error er => .error er

/-- The column loop of `rows.Scan`: assignments in column order, stopping at the
first failure with the earlier assignments kept. -/
def assignColumns (lib : SqlLib) : List Target → List SqlValue → Mem → Option Error × Mem
  | t :: ts, src :: srcs, mem =>
    match assignTarget lib t src mem with
    | .ok mem1 => assignColumns lib ts srcs mem1
    | .error er => (some er, mem)
  | _, _, mem => (none, mem)

/-- Go `rows.Scan(dest...)` of `database/sql`. -/
def Rows.scan (lib : SqlLib) (rows : Rows) (dest : List Target) (mem : Mem) :
    Option Error × Mem :=
  if rows.closed then (some "sql: Rows are closed", mem)
  else
    match rows.current with
    | none => (some "sql: Scan called without calling Next", mem)
    | some row =>
      if dest.length ≠ row.length then
        (some "sql: wrong number of destination arguments in Scan", mem)
      else assignColumns lib dest row mem

/-- Go `rows.Columns()` of `database/sql`. -/
def Rows.getColumns (rows : Rows) : Except Error (List String) :=
  if rows.closed then .error "sql: Rows are closed" else rows.columns

/-- Go conversions `int8(v)`, `int16(v)`, `int32(v)` of a 64-bit integer: the low
`bits` bits, read as a signed number. -/
def wrapInt (bits : Nat) (v : Int) : Int :=
  (v + 2 ^ (bits - 1)) % 2 ^ bits - 2 ^ (bits - 1)

/-- The loop over `intRemap` (scan.go 119-138). -/
def remapInts (holders : List Holder) : List (FieldRef × Nat) → List Record → List Record
  | [], heap => heap
  | (fr, h) :: rest, heap =>
    match holders[h]? with
    | some (.nullInt64 n true) =>
      match heapFieldType heap fr.1 fr.2 with
      | some (.ptr .int8) =>
        remapInts holders rest (heapSet heap fr.1 fr.2 (.ptr (.int (wrapInt 8 n))))
      | some (.ptr .int16) =>
        remapInts holders rest (heapSet heap fr.1 fr.2 (.ptr (.int (wrapInt 16 n))))
      | some (.ptr .int32) =>
        remapInts holders rest (heapSet heap fr.1 fr.2 (.ptr (.int (wrapInt 32 n))))
      | some (.ptr .int64) =>
        remapInts holders rest (heapSet heap fr.1 fr.2 (.ptr (.int n)))
      | _ => remapInts holders rest heap
    | _ => remapInts holders rest heap

/-- The loop over `floatRemap` (scan.go 140-151). -/
def remapFloats (lib : SqlLib) (holders : List Holder) :
    List (FieldRef × Nat) → List Record → List Record
  | [], heap => heap
  | (fr, h) :: rest, heap =>
    match holders[h]? with
    | some (.nullFloat64 x true) =>
      match heapFieldType heap fr.1 fr.2 with
      | some (.ptr .float32) =>
        remapFloats lib holders rest (heapSet heap fr.1 fr.2 (.ptr (.float (lib.toFloat32 x))))
      | some (.ptr .float64) =>
        remapFloats lib holders rest (heapSet heap fr.1 fr.2 (.ptr (.float x)))
      | _ => remapFloats lib holders rest heap
    | _ => remapFloats lib holders rest heap

/-- The loop over `boolRemap` (scan.go 153-157). -/
def remapBools (holders : List Holder) : List (FieldRef × Nat) → List Record → List Record
  | [], heap => heap
  | (fr, h) :: rest, heap =>
    match holders[h]? with
    | some (.nullBool b true) => remapBools holders rest (heapSet heap fr.1 fr.2 (.ptr (.bool b)))
    | _ => remapBools holders rest heap

/-- The loop over `stringRemap` (scan.go 159-163). -/
def remapStrings (holders : List Holder) : List (FieldRef × Nat) → List Record → List Record
  | [], heap => heap
  | (fr, h) :: rest, heap =>
    match holders[h]? with
    | some (.nullString t true) =>
      remapStrings holders rest (heapSet heap fr.1 fr.2 (.ptr (.str t)))
    | _ => remapStrings holders rest heap

/-- What a call of `Scan` returned and left behind: the error, the heap of
structs, and the column lists written to the console at scan.go 115. -/
structure ScanRun where
  ret : Option Error
  heap : List Record
  printed : List (List String)
  deriving DecidableEq, Repr

/-- Go `Scan(rows, args...)` on a heap of structs. -/
def Scan (lib : SqlLib) (sqlToGoFields : Resolver) (rows : Rows) (args : List Arg)
    (heap : List Record) : Except Panic ScanRun :=
  match scanArgs sqlToGoFields heap args ScanAcc.init with
  | .error p => .error p
  | .ok (.error er) => .ok { ret := some er, heap := heap, printed := [] }
  | .ok (.ok acc) =>
    match rows.getColumns with
    | .error er => .ok { ret := some er, heap := heap, printed := [] }
    | .ok cols =>
      let writeBack := writeBackTargets acc.writeBackMap cols
      match rows.scan lib writeBack { heap := heap, holders := acc.holders } with
      | (some er, mem) => .ok { ret := some er, heap := mem.heap, printed := [cols] }
      | (none, mem) =>
        let heap1 := remapInts mem.holders acc.intRemap mem.heap
        let heap2 := remapFloats lib mem.holders acc.floatRemap heap1
        let heap3 := remapBools mem.holders acc.boolRemap heap2
        let heap4 := remapStrings mem.holders acc.stringRemap heap3
        .ok { ret := none, heap := heap4, printed := [] }

/-! ## Specification vocabulary and example data -/

/-- The entries the builders bind: not read-only, and not the id column. -/
def settable (fieldMap : FieldMap) (sqlIdFieldName : String) : FieldMap :=
  fieldMap.filter (fun e => !e.2.ReadOnly && decide (e.1 ≠ sqlIdFieldName))

/-- The value bound for an entry: the value of the field it names, after the
time coercion. -/
def boundValue (val : Record) (e : String × FieldMeta) : Value :=
  match val.fieldByName e.2.GoName with
  | some f => bindValue e.2 f.val
  | none => .nil

/-- Every entry the builders bind names a field the struct has (the data
model's invariant that a field accessor resolves on every instance). -/
def Resolves (val : Record) (fieldMap : FieldMap) (sqlIdFieldName : String) : Prop :=
  ∀ e ∈ settable fieldMap sqlIdFieldName, (val.fieldByName e.2.GoName).isSome = true

instance (val : Record) (fieldMap : FieldMap) (sqlIdFieldName : String) :
    Decidable (Resolves val fieldMap sqlIdFieldName) := by
  unfold Resolves
  infer_instance

/-- The error part of what `db.Exec` returns. -/
def execError (r : Except Error SqlResult) : Option Error :=
  match r with
  | .ok _ => none
  | .error er => some er

/-- Metadata of the example type
`{Id int64 "id,readonly"; Name string "name"; Age *int32 "age"}`. -/
def personFields : FieldMap :=
  [("id", { GoName := "Id", ReadOnly := true, Unix := false }),
   ("name", { GoName := "Name", ReadOnly := false, Unix := false }),
   ("age", { GoName := "Age", ReadOnly := false, Unix := false })]

/-- The same type with the id column writable. -/
def memberFields : FieldMap :=
  [("id", { GoName := "Id", ReadOnly := false, Unix := false }),
   ("name", { GoName := "Name", ReadOnly := false, Unix := false }),
   ("age", { GoName := "Age", ReadOnly := false, Unix := false })]

/-- A resolver that knows the two example types. -/
def exampleResolver : Resolver := fun ty =>
  if ty = "Person" then .ok personFields
  else if ty = "Member" then .ok memberFields
  else .error "crud: not a tagged struct"

/-- A value of an example type. -/
def person (typeName : String) (id : Int) (name : String) (age : Value) : Record :=
  { typeName := typeName
    fields := [⟨"Id", .int64, .int id⟩, ⟨"Name", .string, .str name⟩,
               ⟨"Age", .ptr .int32, age⟩] }

/-- A database that accepts every statement and reports generated id 41. -/
def acceptingDb : DbIsh :=
  ⟨fun _ _ => .ok { lastInsertId := 41, lastInsertIdErr := none }⟩

/-- A database that accepts every statement but cannot report a generated id. -/
def noIdDb : DbIsh :=
  ⟨fun _ _ => .ok { lastInsertId := 0, lastInsertIdErr := some "LastInsertId is not supported" }⟩

/-- A fragment of the library behaviour, enough to run the examples: a source of
the destination's own kind is stored as it is, nil is stored in a pointer as a
nil pointer, and everything else is refused. -/
def basicLib : SqlLib :=
  { assignField := fun ty src =>
      match ty, src with
      | .int64, .int n => .ok (.int n)
      | .string, .str t => .ok (.str t)
      | .bool, .bool b => .ok (.bool b)
      | .float64, .float x => .ok (.float x)
      | .ptr _, .null => .ok .nil
      | _, _ => .error "sql: unsupported Scan"
    assignInt64 := fun src =>
      match src with
      | .int n => .ok n
      | _ => .error "sql: converting to int64 failed"
    assignFloat64 := fun src =>
      match src with
      | .float x => .ok x
      | _ => .error "sql: converting to float64 failed"
    assignBool := fun src =>
      match src with
      | .bool b => .ok b
      | _ => .error "sql: converting to bool failed"
    assignString := fun src =>
      match src with
      | .str t => .ok t
      | _ => .error "sql: converting to string failed"
    toFloat32 := fun x => x }

/-- Two distinct struct types, `Left` and `Right`, that both map column `x` to
an `int64` field `X`. -/
def sharedColumnResolver : Resolver := fun ty =>
  if ty = "Left" ∨ ty = "Right" then
    .ok [("x", { GoName := "X", ReadOnly := false, Unix := false })]
  else .error "crud: not a tagged struct"

/-- A value of `Left` or `Right`. -/
def sharedColumnRecord (typeName : String) (x : Int) : Record :=
  { typeName := typeName, fields := [⟨"X", .int64, .int x⟩] }

/-- A cursor positioned on one row. -/
def oneRow (cols : List String) (row : List SqlValue) : Rows :=
  { columns := .ok cols, current := some row, pending := [], closed := false }

/-- Column `c` is a column the metadata of a struct argument maps to the field
`fr`: some argument is a pointer to the struct at `fr.1`, and the field map of
that struct's type has an entry for `c` whose Go field name is `fr.2`. -/
def ColumnOf (sqlToGoFields : Resolver) (heap : List Record) (args : List Arg)
    (fr : FieldRef) (c : String) : Prop :=
  Arg.ref fr.1 ∈ args ∧
  ∃ r fm desc, heap[fr.1]? = some r ∧ sqlToGoFields r.typeName = .ok fm ∧
    (c, desc) ∈ fm ∧ desc.GoName = fr.2

/-- Holder `h` is not valid: `Valid` is false, or no such holder exists. -/
def HolderInvalid (holders : List Holder) (h : Nat) : Prop :=
  ∀ hd, holders[h]? = some hd → hd.valid = false

/-- All entries of the four remap tables. -/
def ScanAcc.allRemap (acc : ScanAcc) : List (FieldRef × Nat) :=
  acc.intRemap ++ acc.floatRemap ++ acc.boolRemap ++ acc.stringRemap

/-- Invariant of the argument loop of `Scan`, relative to a relation `origin`
between fields and column keys and to one field `(a, g)` of holder type: holder
numbers in the tables are allocated; a holder that is both the remap entry of a
field and the write-back target of a key was registered for that field under
that key; every holder is still invalid; the address of `(a, g)` is no target. -/
structure RegInv (origin : FieldRef → String → Prop) (a : Nat) (g : String)
    (acc : ScanAcc) : Prop where
  remap_lt : ∀ p ∈ acc.allRemap, p.2 < acc.holders.length
  wbm_lt : ∀ k h, (k, Target.holder h) ∈ acc.writeBackMap → h < acc.holders.length
  paired : ∀ fr h k, (fr, h) ∈ acc.allRemap → (k, Target.holder h) ∈ acc.writeBackMap →
    origin fr k
  invalid : ∀ hd ∈ acc.holders, hd.valid = false
  no_direct : ∀ k, (k, Target.field a g) ∉ acc.writeBackMap

/-- The time a field value holds, directly or through a non-nil pointer, as
Unix seconds. -/
def heldTime : Value → Option Int
  | .time sec _ => some sec
  | .ptr (.time sec _) => some sec
  | _ => none

/-- The bound value as the specification words it: the Unix seconds of the held
time when the descriptor has the unix-time flag and the field holds a time, the
field's own value in every other case. -/
def specBind (unix : Bool) (fieldVal : Value) : Value :=
  match unix, heldTime fieldVal with
  | true, some sec => .int sec
  | _, _ => fieldVal

/-- Metadata of a type with a time column under the unix-time flag, a time
column without it and an optional time column under it. -/
def eventFields : FieldMap :=
  [("id", { GoName := "Id", ReadOnly := false, Unix := false }),
   ("created", { GoName := "Created", ReadOnly := false, Unix := true }),
   ("seen", { GoName := "Seen", ReadOnly := false, Unix := false }),
   ("closed", { GoName := "Closed", ReadOnly := false, Unix := true })]

/-- The resolver of the type `Event`. -/
def eventResolver : Resolver := fun ty =>
  if ty = "Event" then .ok eventFields else .error "crud: not a tagged struct"

/-- A value of `Event`. -/
def event (id : Int) (created seen closed : Value) : Record :=
  { typeName := "Event"
    fields := [⟨"Id", .int64, .int id⟩, ⟨"Created", .time, created⟩, ⟨"Seen", .time, seen⟩,
               ⟨"Closed", .ptr .time, closed⟩] }

/-! ## ScanAll (scan.go 190-216) -/

/-- A struct type as `reflect.New` needs it: its name and the names and types of
its fields. -/
structure StructType where
  typeName : String
  fields : List (String × GoType)
  deriving DecidableEq, Repr

/-- The zero value of a field type (for a type of another kind, `nil` stands for
whatever its zero value is). -/
def zeroValue : GoType → Value
  | .int8 => .int 0
  | .int16 => .int 0
  | .int32 => .int 0
  | .int64 => .int 0
  | .int => .int 0
  | .uint => .int 0
  | .float32 => .float 0
  | .float64 => .float 0
  | .bool => .bool false
  | .string => .str ""
  | .time => .time (-62135596800) 0
  | .ptr _ => .nil
  | .named _ => .nil

/-- Go `reflect.New(elemType)`: a fresh zero-valued struct. -/
def StructType.zero (t : StructType) : Record :=
  { typeName := t.typeName, fields := t.fields.map (fun p => ⟨p.1, p.2, zeroValue p.2⟩) }

/-- Kinds of slice element other than `reflect.Struct`. -/
inductive OtherKind where
  | bool
  | int
  | uint
  | float
  | string
  | ptr
  | slice
  | map
  | iface
  deriving DecidableEq, Repr

/-- The second argument of `ScanAll`: not a pointer at all, a nil pointer, a
pointer to something that is no slice, a pointer to a slice whose elements are
no structs, or a pointer to a slice of structs. -/
inductive SliceArg where
  | nonPointer (v : Value)
  | nilPointer
  | toNonSlice (v : Value)
  | toSlice (elemKind : OtherKind) (items : List Value)
  | toStructSlice (elemType : StructType) (items : List Record)
  deriving DecidableEq, Repr

/-- Go `rows.Next()` of `database/sql`: on an open cursor with a row left it
positions the cursor on that row; otherwise it reports false, and at the end of
the rows it closes the cursor. -/
def Rows.next (rows : Rows) : Bool × Rows :=
  if rows.closed then (false, rows)
  else
    match rows.pending with
    | [] => (false, { rows with current := none, closed := true })
    | row :: rest => (true, { rows with current := some row, pending := rest })

/-- Go `rows.Close()` of `database/sql`. -/
def Rows.close (rows : Rows) : Rows :=
  { rows with closed := true }

/-- What a call of `ScanAll` returned and left behind: a panic or the returned
error, the destination, the cursor, and the console output of its `Scan` calls. -/
structure ScanAllRun where
  ret : Except Panic (Option Error)
  dest : SliceArg
  rows : Rows
  printed : List (List String)

/-- The error of scan.go 196. -/
def notASlice : Error := "Argument to crud.ScanAll is not a slice"

/-- The error of scan.go 202. -/
def notStructs : Error := "Argument to crud.ScanAll must be a slice of structs"

/-- The loop of `ScanAll` (scan.go 205-213) on an open cursor, by recursion on
the rows still to come: each `rows.Next()` positions the cursor on the next row,
`Scan` fills a fresh zero-valued struct, and the struct is appended; after the
last row `Next` closes the cursor. -/
def scanAllRows (lib : SqlLib) (sqlToGoFields : Resolver) (elemType : StructType)
    (columns : Except Error (List String)) :
    List (List SqlValue) → List Record → ScanAllRun
  | [], items =>
    { ret := .ok none, dest := .toStructSlice elemType items,
      rows := { columns := columns, current := none, pending := [], closed := true },
      printed := [] }
  | row :: rest, items =>
    let rows1 : Rows := { columns := columns, current := some row, pending := rest,
                          closed := false }
    match Scan lib sqlToGoFields rows1 [Arg.ref 0] [elemType.zero] with
    | .error p =>
      { ret := .error p, dest := .toStructSlice elemType items, rows := rows1, printed := [] }
    | .ok run =>
      match run.ret with
      | some er =>
        { ret := .ok (some er), dest := .toStructSlice elemType items, rows := rows1,
          printed := run.printed }
      | none =>
        scanAllRows lib sqlToGoFields elemType columns rest
          (items ++ [run.heap.head?.getD elemType.zero])

/-- The body of `ScanAll`, before the deferred `rows.Close()` runs. -/
def scanAllBody (lib : SqlLib) (sqlToGoFields : Resolver) (rows : Rows)
    (slicePtr : SliceArg) : ScanAllRun :=
  match slicePtr with
  | .nonPointer _ =>
    { ret := .error "reflect: call of reflect.Value.Elem on a non-pointer Value",
      dest := slicePtr, rows := rows, printed := [] }
  | .nilPointer => { ret := .ok (some notASlice), dest := slicePtr, rows := rows, printed := [] }
  | .toNonSlice _ => { ret := .ok (some notASlice), dest := slicePtr, rows := rows, printed := [] }
  | .toSlice _ _ => { ret := .ok (some notStructs), dest := slicePtr, rows := rows, printed := [] }
  | .toStructSlice elemType items =>
    if rows.closed then { ret := .ok none, dest := slicePtr, rows := rows, printed := [] }
    else scanAllRows lib sqlToGoFields elemType rows.columns rows.pending items

/-- Go `ScanAll(rows, slicePtr)`: the body, then the deferred `rows.Close()`. -/
def ScanAll (lib : SqlLib) (sqlToGoFields : Resolver) (rows : Rows) (slicePtr : SliceArg) :
    ScanAllRun :=
  let run := scanAllBody lib sqlToGoFields rows slicePtr
  { run with rows := run.rows.close }

/-- The rows a cursor still yields: none when it is closed. -/
def Rows.remaining (rows : Rows) : List (List SqlValue) :=
  if rows.closed then [] else rows.pending

/-- `Scan` of one row, under the given column list, into a fresh zero-valued
struct of type `elemType`, with no prefix. -/
def scanOne (lib : SqlLib) (sqlToGoFields : Resolver) (elemType : StructType)
    (columns : Except Error (List String)) (row : List SqlValue) : Except Panic ScanRun :=
  Scan lib sqlToGoFields
    { columns := columns, current := some row, pending := [], closed := false }
    [Arg.ref 0] [elemType.zero]

/-- The row scans successfully: `Scan` returns, with a nil error. -/
def ScansOk (lib : SqlLib) (sqlToGoFields : Resolver) (elemType : StructType)
    (columns : Except Error (List String)) (row : List SqlValue) : Prop :=
  ∃ run, scanOne lib sqlToGoFields elemType columns row = .ok run ∧ run.ret = none

/-- The struct `Scan` leaves behind for one row. -/
def scannedElem (lib : SqlLib) (sqlToGoFields : Resolver) (elemType : StructType)
    (columns : Except Error (List String)) (row : List SqlValue) : Record :=
  match scanOne lib sqlToGoFields elemType columns row with
  | .ok run => run.heap.head?.getD elemType.zero
  | .error _ => elemType.zero

/-- The struct type of the example record. -/
def personType : StructType :=
  { typeName := "Person", fields := [("Id", .int64), ("Name", .string), ("Age", .ptr .int32)] }

/-- An open cursor over the given rows, not yet advanced. -/
def cursor (cols : List String) (rows : List (List SqlValue)) : Rows :=
  { columns := .ok cols, current := none, pending := rows, closed := false }

/-- The prefix the specification gives a struct argument: the string argument
placed immediately before it, the empty string when the argument before it is
no string or there is none. -/
def precedingPrefix (before : List Arg) : String :=
  match before.getLast? with
  | some (.str s) => s
  | _ => ""

/-- The active prefix after the argument loop has gone through `args`,
starting from the active prefix `p`. -/
def pfxAfter (p : String) : List Arg → String
  | [] => p
  | .str s :: rest => pfxAfter s rest
  | .ref _ :: rest => pfxAfter "" rest

/-- The state of `Scan` after its argument loop over one pointer to a struct of
the example type. -/
def personAcc : ScanAcc :=
  { pfx := ""
    writeBackMap := [("age", Target.holder 0), ("name", Target.field 0 "Name"),
                     ("id", Target.field 0 "Id")]
    intRemap := [((0, "Age"), 0)]
    floatRemap := []
    boolRemap := []
    stringRemap := []
    holders := [Holder.nullInt64 0 false] }

/-- The remap table of a holder family. -/
def ScanAcc.remapOf (acc : ScanAcc) : NullKind → List (FieldRef × Nat)
  | .int => acc.intRemap
  | .float => acc.floatRemap
  | .bool => acc.boolRemap
  | .string => acc.stringRemap

/-- The holder `Scan` allocates for a family: `new(sql.NullInt64)` and the like. -/
def Holder.fresh : NullKind → Holder
  | .int => .nullInt64 0 false
  | .float => .nullFloat64 0 false
  | .bool => .nullBool false false
  | .string => .nullString "" false

/-- The family of a holder. -/
def Holder.kind : Holder → NullKind
  | .nullInt64 _ _ => .int
  | .nullFloat64 _ _ => .float
  | .nullBool _ _ => .bool
  | .nullString _ _ => .string

/-- The entry `e` of the field map of the struct `val` at address `a` is
registered in `acc`, with no prefix: its column maps to the address of its
field, or to a fresh holder that is also the remap entry of its field. -/
def Registered (a : Nat) (val : Record) (acc : ScanAcc) (e : String × FieldMeta) : Prop :=
  ∃ f, val.fieldByName e.2.GoName = some f ∧
    match f.ty.nullKind with
    | none => mapGet e.1 acc.writeBackMap = some (Target.field a e.2.GoName)
    | some k =>
      ∃ h, mapGet e.1 acc.writeBackMap = some (Target.holder h) ∧
        mapGet (a, e.2.GoName) (acc.remapOf k) = some h ∧
        acc.holders[h]? = some (Holder.fresh k)

/-- Invariant of the inner loop of `Scan` over the field map of the one struct
`val` at address `a`, with no prefix, after the entries `done`. -/
structure OneInv (a : Nat) (val : Record) (done : FieldMap) (acc : ScanAcc) : Prop where
  reg : ∀ e ∈ done, Registered a val acc e
  keys : ∀ k t, mapGet k acc.writeBackMap = some t → ∃ e ∈ done, e.1 = k
  remap_origin : ∀ k fr h, (fr, h) ∈ acc.remapOf k →
    ∃ e ∈ done, ∃ f, fr = (a, e.2.GoName) ∧ val.fieldByName e.2.GoName = some f ∧
      f.ty.nullKind = some k
  remap_nodup : ∀ k, ((acc.remapOf k).map Prod.fst).Nodup
  wbm_lt : ∀ k h, mapGet k acc.writeBackMap = some (Target.holder h) → h < acc.holders.length
  holder_inj : ∀ k1 k2 h, mapGet k1 acc.writeBackMap = some (Target.holder h) →
    mapGet k2 acc.writeBackMap = some (Target.holder h) → k1 = k2
  fresh : ∀ (h : Nat) (hd : Holder), acc.holders[h]? = some hd → ∃ k, hd = Holder.fresh k

/-- The type name of a struct and the names and types of its fields. -/
def Record.shape (r : Record) : String × List (String × GoType) :=
  (r.typeName, r.fields.map (fun f => (f.name, f.ty)))

/-- The types in a memory: the shape of every struct and the family of every
holder. Assignments never change them. -/
def Mem.shape (mem : Mem) : List (String × List (String × GoType)) × List NullKind :=
  (mem.heap.map Record.shape, mem.holders.map Holder.kind)

/-- The assignment `rows.Scan` makes for one column succeeds. -/
def CanAssign (lib : SqlLib) (mem : Mem) (t : Target) (src : SqlValue) : Prop :=
  ∃ mem1, assignTarget lib t src mem = .ok mem1

/-- What the loop over `intRemap` stores in a field of type pointer to an
8/16/32/64-bit integer for the holder value `n`. -/
def storedInt (ty : GoType) (n : Int) : Value :=
  match ty with
  | .ptr .int8 => .ptr (.int (wrapInt 8 n))
  | .ptr .int16 => .ptr (.int (wrapInt 16 n))
  | .ptr .int32 => .ptr (.int (wrapInt 32 n))
  | _ => .ptr (.int n)

/-- What the loop over `floatRemap` stores in a field of type pointer to a
32/64-bit float for the holder value `x`. -/
def storedFloat (lib : SqlLib) (ty : GoType) (x : Nat) : Value :=
  match ty with
  | .ptr .float32 => .ptr (.float (lib.toFloat32 x))
  | _ => .ptr (.float x)

/-- What the four write-back loops leave in a field of a holder family whose
holder ended up as `hd`: a new pointer for a valid holder, the old value for an
invalid one. -/
def storedValue (lib : SqlLib) (ty : GoType) (hd : Holder) (old : Value) : Value :=
  match hd with
  | .nullInt64 n true => storedInt ty n
  | .nullFloat64 x true => storedFloat lib ty x
  | .nullBool b true => .ptr (.bool b)
  | .nullString t true => .ptr (.str t)
  | _ => old

/-- The four write-back loops of scan.go 119-163, in their order. -/
def remapAll (lib : SqlLib) (holders : List Holder) (acc : ScanAcc) (heap : List Record) :
    List Record :=
  remapStrings holders acc.stringRemap
    (remapBools holders acc.boolRemap
      (remapFloats lib holders acc.floatRemap (remapInts holders acc.intRemap heap)))

/-- The value `Scan` leaves in the field `f` when the one result column mapped
to it holds `src`: the converted value for a field that takes no holder, and
for a field of a holder family what the write-back loops make of its holder. -/
def fieldAfter (lib : SqlLib) (f : Field) (src : SqlValue) : Value :=
  match f.ty.nullKind with
  | none =>
    match lib.assignField f.ty src with
    | .ok v => v
    | .error _ => f.val
  | some k =>
    match (Holder.fresh k).scan lib src with
    | .ok hd => storedValue lib f.ty hd f.val
    | .error _ => f.val

/-- The library converts `src` for a field of type `ty`. -/
def Converts (lib : SqlLib) (ty : GoType) (src : SqlValue) : Prop :=
  match ty.nullKind with
  | none => ∃ v, lib.assignField ty src = .ok v
  | some k => ∃ hd, (Holder.fresh k).scan lib src = .ok hd

/-- The column value that holds a field value: the value itself for a scalar,
the value pointed to for a non-nil pointer, SQL null for a nil pointer. -/
def toSql : Value → SqlValue
  | .int n => .int n
  | .float x => .float x
  | .bool b => .bool b
  | .str s => .str s
  | .time sec nsec => .time sec nsec
  | .nil => .null
  | .ptr v => toSql v

/-- The integer `n` lies in the range of the optional integer type `ty`
(for `*int64` nothing is asked: the 64-bit holder cannot hold more). -/
def FitsWidth (ty : GoType) (n : Int) : Prop :=
  match ty with
  | .ptr .int8 => -2 ^ 7 ≤ n ∧ n < 2 ^ 7
  | .ptr .int16 => -2 ^ 15 ≤ n ∧ n < 2 ^ 15
  | .ptr .int32 => -2 ^ 31 ≤ n ∧ n < 2 ^ 31
  | _ => True

/-- The field can make the round trip through a row: a field that takes no
holder holds a value the library stores back unchanged from its column value;
an optional integer, float, boolean or string field is non-nil, the library
reads its pointee into the holder unchanged, an integer fits the declared width
and a float is unchanged by the narrowing to the declared width. -/
def RoundTrips (lib : SqlLib) (f : Field) : Prop :=
  match f.ty.nullKind with
  | none => lib.assignField f.ty (toSql f.val) = .ok f.val
  | some .int => ∃ n, f.val = .ptr (.int n) ∧ lib.assignInt64 (.int n) = .ok n ∧
      FitsWidth f.ty n
  | some .float => ∃ x, f.val = .ptr (.float x) ∧ lib.assignFloat64 (.float x) = .ok x ∧
      storedFloat lib f.ty x = .ptr (.float x)
  | some .bool => ∃ b, f.val = .ptr (.bool b) ∧ lib.assignBool (.bool b) = .ok b
  | some .string => ∃ s, f.val = .ptr (.str s) ∧ lib.assignString (.str s) = .ok s

/-- The zero-valued struct of the type of `r`. -/
def zeroOf (r : Record) : Record :=
  StructType.zero { typeName := r.typeName, fields := r.fields.map (fun f => (f.name, f.ty)) }

/-- The column value of the entry `e` in a row written from the struct `r`. -/
def columnValue (r : Record) (e : String × FieldMeta) : SqlValue :=
  match r.fieldByName e.2.GoName with
  | some f => toSql f.val
  | none => .null

/-- The resolver of the example types as another `range` loop over the same
maps may visit them: the same entries, in the opposite order. -/
def exampleResolverRev : Resolver := fun ty =>
  (exampleResolver ty).map List.reverse

/-- Metadata of the example type `{N *int "n"}`: an optional field whose
element kind is `reflect.Int`. -/
def tallyFields : FieldMap :=
  [("n", { GoName := "N", ReadOnly := false, Unix := false })]

/-- A resolver that knows the type `Tally`. -/
def tallyResolver : Resolver := fun ty =>
  if ty = "Tally" then .ok tallyFields else .error "crud: not a tagged struct"

/-- A value of `Tally`. -/
def tally (n : Value) : Record :=
  { typeName := "Tally", fields := [⟨"N", .ptr .int, n⟩] }

/-! ## Theorems -/

theorem settable_cons (e : String × FieldMeta) (rest : FieldMap) (idc : String) :
    settable (e :: rest) idc =
      if (!e.2.ReadOnly && decide (e.1 ≠ idc)) = true then e :: settable rest idc
      else settable rest idc := by
  simp only [settable, List.filter_cons]

theorem resolves_tail {val : Record} {e : String × FieldMeta} {rest : FieldMap} {idc : String}
    (h : Resolves val (e :: rest) idc) : Resolves val rest idc := by
  intro x hx
  apply h x
  rw [settable_cons]
  split
  · exact List.mem_cons_of_mem _ hx
  · exact hx

theorem resolves_head {val : Record} {e : String × FieldMeta} {rest : FieldMap} {idc : String}
    (h : Resolves val (e :: rest) idc) (hro : ¬ e.2.ReadOnly = true) (hid : ¬ e.1 = idc) :
    (val.fieldByName e.2.GoName).isSome = true := by
  apply h e
  rw [settable_cons]
  simp [hro, hid]

theorem mem_settable {fm : FieldMap} {idc : String} {e : String × FieldMeta} :
    e ∈ settable fm idc ↔ e ∈ fm ∧ e.2.ReadOnly = false ∧ e.1 ≠ idc := by
  simp [settable, List.mem_filter]

/-- What the loop of `Insert` computes when every bound entry resolves. -/
theorem insertLoop_eq (cfg : Config) (idc : String) (val : Record) (fm : FieldMap)
    (acc : InsertAcc) (h : Resolves val fm idc) :
    insertLoop cfg idc val fm acc = .ok
      { sqlFields := acc.sqlFields ++ (settable fm idc).map Prod.fst
        newValues := acc.newValues ++ (settable fm idc).map (boundValue val)
        placeholders := acc.placeholders ++
          (List.range (settable fm idc).length).map
            (fun i => cfg.PlaceholderFormat (acc.placeholderN + i))
        placeholderN := acc.placeholderN + (settable fm idc).length
        sqlUpsertFields := acc.sqlUpsertFields } := by
  induction fm generalizing acc with
  | nil => simp [insertLoop, settable]
  | cons e rest ih =>
    have hrest := resolves_tail h
    rw [insertLoop, insertStep]
    by_cases hro : e.2.ReadOnly = true
    · simp only [hro, if_true]
      rw [ih _ hrest]
      simp [settable_cons, hro]
    · by_cases hid : e.1 = idc
      · simp only [hro, hid, if_true, Bool.false_eq_true, if_false]
        rw [ih _ hrest]
        simp [settable_cons, hid]
      · have hsome := resolves_head h hro hid
        cases hf : val.fieldByName e.2.GoName with
        | none => simp [hf] at hsome
        | some f =>
          simp only [hro, hid, if_false, Record.fieldInterface, hf, Bool.false_eq_true]
          rw [ih _ hrest]
          simp [settable_cons, hro, hid, boundValue, hf, List.range_succ_eq_map,
            Nat.add_assoc, Nat.add_comm 1]

/-- What the loop of `Upsert` computes when every bound entry resolves. -/
theorem upsertLoop_eq (cfg : Config) (idc : String) (val : Record) (fm : FieldMap)
    (acc : InsertAcc) (h : Resolves val fm idc) :
    upsertLoop cfg idc val fm acc = .ok
      { sqlFields := acc.sqlFields ++ (settable fm idc).map Prod.fst
        newValues := acc.newValues ++ (settable fm idc).map (boundValue val)
        placeholders := acc.placeholders ++
          (List.range (settable fm idc).length).map
            (fun i => cfg.PlaceholderFormat (acc.placeholderN + i))
        placeholderN := acc.placeholderN + (settable fm idc).length
        sqlUpsertFields := acc.sqlUpsertFields ++
          (settable fm idc).map (fun e => e.1 ++ " = ?") } := by
  induction fm generalizing acc with
  | nil => simp [upsertLoop, settable]
  | cons e rest ih =>
    have hrest := resolves_tail h
    rw [upsertLoop, upsertStep]
    by_cases hro : e.2.ReadOnly = true
    · simp only [hro, if_true]
      rw [ih _ hrest]
      simp [settable_cons, hro]
    · by_cases hid : e.1 = idc
      · simp only [hro, hid, if_true, Bool.false_eq_true, if_false]
        rw [ih _ hrest]
        simp [settable_cons, hid]
      · have hsome := resolves_head h hro hid
        cases hf : val.fieldByName e.2.GoName with
        | none => simp [hf] at hsome
        | some f =>
          simp only [hro, hid, if_false, Record.fieldInterface, hf, Bool.false_eq_true]
          rw [ih _ hrest]
          simp [settable_cons, hro, hid, boundValue, hf, List.range_succ_eq_map,
            Nat.add_assoc, Nat.add_comm 1]

/-- What the loop of `Update` computes when every bound entry resolves and every
writable entry of the id column reads the integer `n`. -/
theorem updateLoop_eq (idc : String) (val : Record) (n : Int) (fm : FieldMap)
    (acc : UpdateAcc) (h : Resolves val fm idc)
    (hid : ∀ e ∈ fm, e.2.ReadOnly = false → e.1 = idc → val.fieldInt e.2.GoName = .ok n) :
    updateLoop idc val fm acc = .ok
      { sqlFields := acc.sqlFields ++ (settable fm idc).map (fun e => e.1 ++ " = ?")
        newValues := acc.newValues ++ (settable fm idc).map (boundValue val)
        id := bif fm.any (fun e => !e.2.ReadOnly && decide (e.1 = idc)) then n
              else acc.id } := by
  induction fm generalizing acc with
  | nil => simp [updateLoop, settable]
  | cons e rest ih =>
    have hrest := resolves_tail h
    have hid1 : ∀ x ∈ rest, x.2.ReadOnly = false → x.1 = idc →
        val.fieldInt x.2.GoName = .ok n :=
      fun x hx => hid x (List.mem_cons_of_mem _ hx)
    rw [updateLoop, updateStep]
    by_cases hro : e.2.ReadOnly = true
    · simp only [hro, if_true]
      rw [ih _ hrest hid1]
      simp [settable_cons, hro, List.any_cons]
    · by_cases hc : e.1 = idc
      · have hn := hid e (List.mem_cons_self _ _) (by simpa using hro) hc
        simp only [hro, hc, if_true, Bool.false_eq_true, if_false]
        rw [← hc, hn]
        simp only []
        rw [hc, ih _ hrest hid1]
        simp [settable_cons, hc, hro]
      · have hsome := resolves_head h hro hc
        cases hf : val.fieldByName e.2.GoName with
        | none => simp [hf] at hsome
        | some f =>
          simp only [hro, hc, if_false, Record.fieldInterface, hf, Bool.false_eq_true]
          rw [ih _ hrest hid1]
          simp [settable_cons, hro, hc, List.any_cons, boundValue, hf]

/-- With unique column names, a column has one descriptor. -/
theorem fieldMap_unique {fm : FieldMap} (h : (fm.map Prod.fst).Nodup) {k : String}
    {a b : FieldMeta} (ha : (k, a) ∈ fm) (hb : (k, b) ∈ fm) : a = b := by
  induction fm with
  | nil => simp at ha
  | cons e rest ih =>
    rw [List.map_cons, List.nodup_cons] at h
    rcases List.mem_cons.mp ha with ha1 | ha1 <;> rcases List.mem_cons.mp hb with hb1 | hb1
    · rw [← ha1] at hb1
      exact (Prod.mk.inj hb1).2.symm
    · exfalso
      apply h.1
      rw [← ha1]
      exact List.mem_map.mpr ⟨(k, b), hb1, rfl⟩
    · exfalso
      apply h.1
      rw [← hb1]
      exact List.mem_map.mpr ⟨(k, a), ha1, rfl⟩
    · exact ih h.2 ha1 hb1

/-- The call `Insert` makes when the metadata resolves and every bound entry
names a field. -/
theorem insert_calls (cfg : Config) (sqlToGoFields : Resolver) (db : DbIsh)
    (table idc : String) (val : Record) (fm : FieldMap)
    (hres : sqlToGoFields val.typeName = .ok fm) (hwf : Resolves val fm idc) :
    ∃ ret printed, Insert cfg sqlToGoFields db table idc val = .ok
      { ret := ret
        calls := [(insertQuery table ((settable fm idc).map Prod.fst)
                    ((List.range (settable fm idc).length).map
                      (fun i => cfg.PlaceholderFormat (i + 1))),
                   (settable fm idc).map (boundValue val))]
        printed := printed } := by
  unfold Insert
  rw [hres]
  simp only []
  rw [insertLoop_eq cfg idc val fm InsertAcc.init hwf]
  simp only [InsertAcc.init, List.nil_append, Nat.add_comm 1]
  split
  · exact ⟨_, _, rfl⟩
  · split <;> exact ⟨_, _, rfl⟩

/-- The call `Upsert` makes, with upsert support enabled, when the metadata
resolves and every bound entry names a field. -/
theorem upsert_calls (cfg : Config) (sqlToGoFields : Resolver) (db : DbIsh)
    (table idc : String) (val : Record) (fm : FieldMap) (hen : cfg.EnableUpsert = true)
    (hres : sqlToGoFields val.typeName = .ok fm) (hwf : Resolves val fm idc) :
    ∃ ret printed, Upsert cfg sqlToGoFields db table idc val = .ok
      { ret := ret
        calls := [(upsertQuery table ((settable fm idc).map Prod.fst)
                    ((List.range (settable fm idc).length).map
                      (fun i => cfg.PlaceholderFormat (i + 1)))
                    ((settable fm idc).map (fun e => e.1 ++ " = ?")),
                   (settable fm idc).map (boundValue val) ++
                     (settable fm idc).map (boundValue val))]
        printed := printed } := by
  unfold Upsert
  rw [hres]
  simp only [hen, Bool.not_true, Bool.false_eq_true, if_false]
  rw [upsertLoop_eq cfg idc val fm InsertAcc.init hwf]
  simp only [InsertAcc.init, List.nil_append, Nat.add_comm 1]
  split
  · exact ⟨_, _, rfl⟩
  · split <;> exact ⟨_, _, rfl⟩

/-! ### Update -/

/-- The statement of `Update` for a writable id column: when the metadata, with
unique column names, maps the id column to a descriptor that is not read-only
and whose field is a signed integer holding `n ≠ 0`, `Update` executes exactly
one statement, `UPDATE <table> SET `
followed by one clause `<column> = ?` per non-read-only non-id column joined by
`, `, followed by ` WHERE <idColumn> = ?`; the bind list holds the values of
those columns in clause order followed by the id value as its last element, so
its length is the number of clauses plus one. -/
theorem update_statement_shape (sqlToGoFields : Resolver) (db : DbIsh)
    (table idc : String) (val : Record) (fm : FieldMap) (desc : FieldMeta) (f : Field)
    (n : Int)
    (hres : sqlToGoFields val.typeName = .ok fm)
    (hkeys : (fm.map Prod.fst).Nodup)
    (hmem : (idc, desc) ∈ fm) (hro : desc.ReadOnly = false)
    (hfield : val.fieldByName desc.GoName = some f)
    (hty : f.ty.isSignedInt = true) (hval : f.val = .int n) (hn : n ≠ 0)
    (hwf : Resolves val fm idc) :
    ∃ clauses binds q,
      clauses = (settable fm idc).map (fun e => e.1 ++ " = ?") ∧
      binds = (settable fm idc).map (boundValue val) ++ [Value.int n] ∧
      q = "UPDATE " ++ table ++ " SET " ++ ", ".intercalate clauses ++
            " WHERE " ++ idc ++ " = ?" ∧
      Update sqlToGoFields db table idc val = .ok
        { ret := execError (db.exec q binds), calls := [(q, binds)], printed := [] } ∧
      binds.length = clauses.length + 1 ∧
      binds.getLast? = some (Value.int n) := by
  refine ⟨_, _, _, rfl, rfl, rfl, ?_, ?_, ?_⟩
  · have hint : val.fieldInt desc.GoName = .ok n := by
      unfold Record.fieldInt
      rw [hfield]
      simp only [hty, hval]
    have hid : ∀ e ∈ fm, e.2.ReadOnly = false → e.1 = idc →
        val.fieldInt e.2.GoName = .ok n := by
      intro e he _ hc
      have hd : e.2 = desc := by
        apply fieldMap_unique hkeys (k := idc) _ hmem
        rw [← hc]
        exact he
      rw [hd]
      exact hint
    have hany : fm.any (fun e => !e.2.ReadOnly && decide (e.1 = idc)) = true := by
      rw [List.any_eq_true]
      exact ⟨(idc, desc), hmem, by simp [hro]⟩
    unfold Update
    rw [hres]
    simp only []
    rw [updateLoop_eq idc val n fm _ hwf hid]
    simp only [hany, cond_true, hn, if_false, List.nil_append, updateQuery, joinComma]
    cases db.exec _ _ <;> rfl
  · simp
  · simp

/-- Example of the statement of `Update`: a writable id column holding 7. -/
theorem update_statement_shape_witness :
    ∃ clauses binds q,
      clauses = (settable memberFields "id").map (fun e => e.1 ++ " = ?") ∧
      binds = (settable memberFields "id").map (boundValue (person "Member" 7 "Ann" .nil)) ++
        [Value.int 7] ∧
      q = "UPDATE " ++ "t" ++ " SET " ++ ", ".intercalate clauses ++
            " WHERE " ++ "id" ++ " = ?" ∧
      Update exampleResolver acceptingDb "t" "id" (person "Member" 7 "Ann" .nil) = .ok
        { ret := execError (acceptingDb.exec q binds), calls := [(q, binds)], printed := [] } ∧
      binds.length = clauses.length + 1 ∧
      binds.getLast? = some (Value.int 7) :=
  update_statement_shape exampleResolver acceptingDb "t" "id" (person "Member" 7 "Ann" .nil)
    memberFields { GoName := "Id", ReadOnly := false, Unix := false }
    ⟨"Id", .int64, .int 7⟩ 7 rfl (by decide) (by decide) rfl rfl rfl rfl (by decide)
    (by decide)

/-- C1, at the failing input: the example type marks its id column read-only; for
a record of it whose id field holds 5, `Update` skips the id entry before it
reads the id, so it returns the error it documents for an unset or zero key and
executes no statement. -/
theorem update_readonly_id_no_statement :
    (person "Person" 5 "Ann" .nil).fieldInt "Id" = .ok 5 ∧
    Update exampleResolver acceptingDb "t" "id" (person "Person" 5 "Ann" .nil) = .ok
      { ret := some "id is 0 or not set, cannot update", calls := [], printed := [] } :=
  ⟨rfl, rfl⟩

/-- C2: when every writable metadata entry of the id column names a signed
integer field holding zero, `Update` returns the id-missing error and executes
no statement, whatever the other fields hold. -/
theorem update_zero_id_fails (sqlToGoFields : Resolver) (db : DbIsh)
    (table idc : String) (val : Record) (fm : FieldMap)
    (hres : sqlToGoFields val.typeName = .ok fm)
    (hzero : ∀ e ∈ fm, e.2.ReadOnly = false → e.1 = idc →
      ∃ f, val.fieldByName e.2.GoName = some f ∧ f.ty.isSignedInt = true ∧ f.val = .int 0)
    (hwf : Resolves val fm idc) :
    Update sqlToGoFields db table idc val = .ok
      { ret := some (idc ++ " is 0 or not set, cannot update"), calls := [], printed := [] } := by
  have hid : ∀ e ∈ fm, e.2.ReadOnly = false → e.1 = idc →
      val.fieldInt e.2.GoName = .ok 0 := by
    intro e he h1 h2
    obtain ⟨f, hf, hty, hval⟩ := hzero e he h1 h2
    unfold Record.fieldInt
    rw [hf]
    simp only [hty, hval]
  unfold Update
  rw [hres]
  simp only []
  rw [updateLoop_eq idc val 0 fm _ hwf hid]
  simp [idMissing]

/-- Witness for C2: a writable id column holding zero. -/
theorem update_zero_id_fails_witness :
    Update exampleResolver acceptingDb "t" "id" (person "Member" 0 "Ann" (.ptr (.int 30))) = .ok
      { ret := some ("id" ++ " is 0 or not set, cannot update"), calls := [], printed := [] } :=
  update_zero_id_fails exampleResolver acceptingDb "t" "id"
    (person "Member" 0 "Ann" (.ptr (.int 30))) memberFields rfl (by decide) (by decide)

/-! ### Insert -/

/-- C3: the one statement `Insert` executes lists exactly the non-read-only
columns other than the id column, so the id column is not among them, and each
bind value is the value of an entry whose column is not the id column; nothing
is assumed about the id field's value or about the id column being read-only. -/
theorem insert_excludes_id (cfg : Config) (sqlToGoFields : Resolver) (db : DbIsh)
    (table idc : String) (val : Record) (fm : FieldMap)
    (hres : sqlToGoFields val.typeName = .ok fm) (hwf : Resolves val fm idc) :
    ∃ cols placeholders binds ret printed,
      Insert cfg sqlToGoFields db table idc val = .ok
        { ret := ret, calls := [(insertQuery table cols placeholders, binds)],
          printed := printed } ∧
      cols = (settable fm idc).map Prod.fst ∧
      idc ∉ cols ∧
      binds = (settable fm idc).map (boundValue val) ∧
      (∀ e ∈ settable fm idc, e.1 ≠ idc) ∧
      (∀ e, e ∈ settable fm idc ↔ e ∈ fm ∧ e.2.ReadOnly = false ∧ e.1 ≠ idc) := by
  obtain ⟨ret, printed, h⟩ := insert_calls cfg sqlToGoFields db table idc val fm hres hwf
  refine ⟨_, _, _, ret, printed, h, rfl, ?_, rfl, ?_, ?_⟩
  · intro hin
    obtain ⟨e, he, hfst⟩ := List.mem_map.mp hin
    exact (mem_settable.mp he).2.2 hfst
  · intro e he
    exact (mem_settable.mp he).2.2
  · intro e
    exact mem_settable

/-- Witness for C3: a writable id column whose field holds 9. -/
theorem insert_excludes_id_witness :
    ∃ cols placeholders binds ret printed,
      Insert Config.default exampleResolver acceptingDb "t" "id"
          (person "Member" 9 "Ann" .nil) = .ok
        { ret := ret, calls := [(insertQuery "t" cols placeholders, binds)],
          printed := printed } ∧
      cols = (settable memberFields "id").map Prod.fst ∧
      "id" ∉ cols ∧
      binds = (settable memberFields "id").map (boundValue (person "Member" 9 "Ann" .nil)) ∧
      (∀ e ∈ settable memberFields "id", e.1 ≠ "id") ∧
      (∀ e, e ∈ settable memberFields "id" ↔
        e ∈ memberFields ∧ e.2.ReadOnly = false ∧ e.1 ≠ "id") :=
  insert_excludes_id Config.default exampleResolver acceptingDb "t" "id"
    (person "Member" 9 "Ann" .nil) memberFields rfl (by decide)

/-- C4: for every placeholder formatter, the statement `Insert` executes is
`INSERT INTO <table> (c1, ..., cn) VALUES (p1, ..., pn)` over the non-read-only
non-id columns; columns, placeholders and bind values all have length `n`, the
placeholder at 0-based position `i` is the formatter applied to `i + 1`, and the
bind value there is the value of the field of the column there. With the default
formatter every placeholder is `?`, and the record `{Name: "Ann", Age: nil}` of
the example type yields `INSERT INTO t (name, age) VALUES (?, ?)` with bind
values `["Ann", nil]`. -/
theorem insert_statement_shape (cfg : Config) (sqlToGoFields : Resolver) (db : DbIsh)
    (table idc : String) (val : Record) (fm : FieldMap)
    (hres : sqlToGoFields val.typeName = .ok fm) (hwf : Resolves val fm idc) :
    (∃ cols placeholders binds q ret printed,
      Insert cfg sqlToGoFields db table idc val = .ok
        { ret := ret, calls := [(q, binds)], printed := printed } ∧
      q = "INSERT INTO " ++ table ++ " (" ++ ", ".intercalate cols ++ ") VALUES (" ++
            ", ".intercalate placeholders ++ ")" ∧
      cols = (settable fm idc).map Prod.fst ∧
      cols.length = (settable fm idc).length ∧
      placeholders.length = (settable fm idc).length ∧
      binds.length = (settable fm idc).length ∧
      (∀ i, i < (settable fm idc).length →
        placeholders[i]? = some (cfg.PlaceholderFormat (i + 1)) ∧
        binds[i]? = ((settable fm idc)[i]?).map (boundValue val)) ∧
      (cfg.PlaceholderFormat = Config.default.PlaceholderFormat →
        placeholders = List.replicate (settable fm idc).length "?")) ∧
    Insert Config.default exampleResolver acceptingDb "t" "id" (person "Person" 0 "Ann" .nil) =
      .ok { ret := (41, none)
            calls := [("INSERT INTO t (name, age) VALUES (?, ?)", [.str "Ann", .nil])]
            printed := [] } := by
  refine ⟨?_, rfl⟩
  obtain ⟨ret, printed, h⟩ := insert_calls cfg sqlToGoFields db table idc val fm hres hwf
  refine ⟨_, _, _, _, ret, printed, h, rfl, rfl, ?_, ?_, ?_, ?_, ?_⟩
  · simp
  · simp
  · simp
  · intro i hi
    constructor
    · simp [List.getElem?_map, List.getElem?_range hi]
    · simp [List.getElem?_map]
  · intro hfmt
    rw [hfmt]
    apply List.ext_getElem
    · simp
    · intro i h1 h2
      simp [Config.default]

/-- Witness for C4: a positional formatter on the example type. -/
theorem insert_statement_shape_witness :
    (∃ cols placeholders binds q ret printed,
      Insert { Config.default with PlaceholderFormat := fun i => "$" ++ toString i }
          exampleResolver acceptingDb "t" "id" (person "Person" 0 "Ann" .nil) = .ok
        { ret := ret, calls := [(q, binds)], printed := printed } ∧
      q = "INSERT INTO " ++ "t" ++ " (" ++ ", ".intercalate cols ++ ") VALUES (" ++
            ", ".intercalate placeholders ++ ")" ∧
      cols = (settable personFields "id").map Prod.fst ∧
      cols.length = (settable personFields "id").length ∧
      placeholders.length = (settable personFields "id").length ∧
      binds.length = (settable personFields "id").length ∧
      (∀ i, i < (settable personFields "id").length →
        placeholders[i]? = some ((fun i => "$" ++ toString i) (i + 1)) ∧
        binds[i]? = ((settable personFields "id")[i]?).map
          (boundValue (person "Person" 0 "Ann" .nil))) ∧
      ((fun i => "$" ++ toString i) = Config.default.PlaceholderFormat →
        placeholders = List.replicate (settable personFields "id").length "?")) ∧
    Insert Config.default exampleResolver acceptingDb "t" "id" (person "Person" 0 "Ann" .nil) =
      .ok { ret := (41, none)
            calls := [("INSERT INTO t (name, age) VALUES (?, ?)", [.str "Ann", .nil])]
            printed := [] } :=
  insert_statement_shape { Config.default with PlaceholderFormat := fun i => "$" ++ toString i }
    exampleResolver acceptingDb "t" "id" (person "Person" 0 "Ann" .nil) personFields rfl
    (by decide)

/-! ### Upsert -/

/-- C5, as amended: with upsert support enabled, `Insert` and `Upsert` each
execute one statement for the same record and id column, each call ranging over
the field map in its own order (`fm1` and `fm2`, rearrangements of one
another). The bind list of `Upsert` has twice the length of the bind list of
`Insert`, its element `i` equals its element `n + i` for every `i` below the
`Insert` length `n`, so it is its first `n` elements concatenated with
themselves, and those first `n` elements are a rearrangement of the `Insert`
list; they are the `Insert` list itself when the two calls visit the bound
entries in the same order. -/
theorem upsert_binds_any_order (cfg : Config) (res1 res2 : Resolver) (db : DbIsh)
    (table idc : String) (val : Record) (fm1 fm2 : FieldMap) (hen : cfg.EnableUpsert = true)
    (hres1 : res1 val.typeName = .ok fm1) (hres2 : res2 val.typeName = .ok fm2)
    (hperm : fm2.Perm fm1) (hwf : Resolves val fm1 idc) :
    ∃ qi bi ri pi qu bu ru pu,
      Insert cfg res1 db table idc val = .ok
        { ret := ri, calls := [(qi, bi)], printed := pi } ∧
      Upsert cfg res2 db table idc val = .ok
        { ret := ru, calls := [(qu, bu)], printed := pu } ∧
      bu.length = 2 * bi.length ∧
      (∀ i, i < bi.length → bu[i]? = bu[bi.length + i]?) ∧
      bu = bu.take bi.length ++ bu.take bi.length ∧
      (bu.take bi.length).Perm bi ∧
      (settable fm2 idc = settable fm1 idc → bu = bi ++ bi) := by
  have hsp : (settable fm2 idc).Perm (settable fm1 idc) := hperm.filter _
  have hwf2 : Resolves val fm2 idc := fun e he => hwf e (hsp.mem_iff.mp he)
  have hlen : ((settable fm2 idc).map (boundValue val)).length =
      ((settable fm1 idc).map (boundValue val)).length := by
    simp only [List.length_map]
    exact hsp.length_eq
  obtain ⟨ri, pi, hi⟩ := insert_calls cfg res1 db table idc val fm1 hres1 hwf
  obtain ⟨ru, pu, hu⟩ := upsert_calls cfg res2 db table idc val fm2 hen hres2 hwf2
  refine ⟨_, _, ri, pi, _, _, ru, pu, hi, hu, ?_, ?_, ?_, ?_, ?_⟩
  · rw [List.length_append, hlen]
    omega
  · intro i hlt
    rw [← hlen] at hlt ⊢
    rw [List.getElem?_append_left hlt, List.getElem?_append_right (Nat.le_add_right _ _)]
    simp
  · rw [← hlen, List.take_left' rfl]
  · rw [← hlen, List.take_left' rfl]
    exact hsp.map _
  · intro hsame
    rw [hsame]

/-- Witness for C5: `Insert` visits the example type's columns as `name, age`,
`Upsert` visits them as `age, name`. -/
theorem upsert_binds_any_order_witness :
    ∃ qi bi ri pi qu bu ru pu,
      Insert { Config.default with EnableUpsert := true } exampleResolver acceptingDb "t" "id"
          (person "Person" 0 "Ann" .nil) = .ok
        { ret := ri, calls := [(qi, bi)], printed := pi } ∧
      Upsert { Config.default with EnableUpsert := true } exampleResolverRev acceptingDb "t"
          "id" (person "Person" 0 "Ann" .nil) = .ok
        { ret := ru, calls := [(qu, bu)], printed := pu } ∧
      bu.length = 2 * bi.length ∧
      (∀ i, i < bi.length → bu[i]? = bu[bi.length + i]?) ∧
      bu = bu.take bi.length ++ bu.take bi.length ∧
      (bu.take bi.length).Perm bi ∧
      (settable personFields.reverse "id" = settable personFields "id" → bu = bi ++ bi) :=
  upsert_binds_any_order { Config.default with EnableUpsert := true } exampleResolver
    exampleResolverRev acceptingDb "t" "id" (person "Person" 0 "Ann" .nil) personFields
    personFields.reverse rfl rfl rfl (List.reverse_perm personFields) (by decide)

/-- C5, counterexample: `Insert` visits the columns of the example type as
`name, age` and binds `"Ann", nil`; `Upsert`, ranging over the same map as
`age, name`, binds `nil, "Ann", nil, "Ann"`, whose first two elements are not
the `Insert` list. -/
theorem upsert_first_half_differs :
    Insert { Config.default with EnableUpsert := true } exampleResolver acceptingDb "t" "id"
        (person "Person" 0 "Ann" .nil) =
      .ok { ret := (41, none)
            calls := [("INSERT INTO t (name, age) VALUES (?, ?)", [.str "Ann", .nil])]
            printed := [] } ∧
    Upsert { Config.default with EnableUpsert := true } exampleResolverRev acceptingDb "t" "id"
        (person "Person" 0 "Ann" .nil) =
      .ok { ret := (41, none)
            calls := [("INSERT INTO t (age, name) VALUES (?, ?) " ++
                        "ON DUPLICATE KEY UPDATE age = ?, name = ?",
                       [.nil, .str "Ann", .nil, .str "Ann"])]
            printed := [] } ∧
    [Value.nil, Value.str "Ann", Value.nil, Value.str "Ann"].take 2 ≠
      [Value.str "Ann", Value.nil] :=
  ⟨rfl, rfl, by decide⟩

/-- C6: with upsert support disabled, `Upsert` is `Insert`: the same executed
statement and bind list, the same generated id and error, for every database,
table, id column and record. -/
theorem upsert_disabled_is_insert (cfg : Config) (sqlToGoFields : Resolver) (db : DbIsh)
    (table idc : String) (val : Record) (hdis : cfg.EnableUpsert = false) :
    Upsert cfg sqlToGoFields db table idc val = Insert cfg sqlToGoFields db table idc val := by
  unfold Upsert
  simp [hdis]

/-- Witness for C6: the initial configuration has upsert support disabled. -/
theorem upsert_disabled_is_insert_witness :
    Upsert Config.default exampleResolver acceptingDb "t" "id" (person "Person" 0 "Ann" .nil) =
      Insert Config.default exampleResolver acceptingDb "t" "id" (person "Person" 0 "Ann" .nil) :=
  upsert_disabled_is_insert Config.default exampleResolver acceptingDb "t" "id"
    (person "Person" 0 "Ann" .nil) rfl

/-! ### The generated id -/

/-- What `Insert` returns once the statement has executed: the error of
`LastInsertId` never reaches the caller. -/
theorem insert_ret_after_exec (cfg : Config) (sqlToGoFields : Resolver) (db : DbIsh)
    (table idc : String) (val : Record) (fm : FieldMap) (res : SqlResult)
    (hres : sqlToGoFields val.typeName = .ok fm) (hwf : Resolves val fm idc)
    (hexec : ∀ q binds, db.exec q binds = .ok res) :
    ∃ calls printed, Insert cfg sqlToGoFields db table idc val = .ok
      { ret := (if (res.lastInsertIdErr.isSome && cfg.NoLastInsertId) = true then 0
                else res.lastInsertId, none)
        calls := calls, printed := printed } := by
  unfold Insert
  rw [hres]
  simp only []
  rw [insertLoop_eq cfg idc val fm InsertAcc.init hwf]
  simp only [hexec]
  split <;> exact ⟨_, _, rfl⟩

/-- C7, at the failing input: the statement executes, `LastInsertId` fails and
the tolerance flag is off, yet `Insert` returns a nil error; under the same
outcome with the flag on it returns zero and a nil error, and when the backend
reports id 41 it returns 41. -/
theorem insert_swallows_id_error :
    Insert Config.default exampleResolver noIdDb "t" "id" (person "Person" 0 "Ann" .nil) =
      .ok { ret := (0, none)
            calls := [("INSERT INTO t (name, age) VALUES (?, ?)", [.str "Ann", .nil])]
            printed := [] } ∧
    Insert { Config.default with NoLastInsertId := true } exampleResolver noIdDb "t" "id"
        (person "Person" 0 "Ann" .nil) =
      .ok { ret := (0, none)
            calls := [("INSERT INTO t (name, age) VALUES (?, ?)", [.str "Ann", .nil])]
            printed := [] } ∧
    (Insert Config.default exampleResolver acceptingDb "t" "id"
        (person "Person" 0 "Ann" .nil)).map (fun r => r.ret) = .ok (41, none) :=
  ⟨rfl, rfl, rfl⟩

/-- C8, at the failing input: with upsert support enabled, the statement
executed, `LastInsertId` failing and the tolerance flag off, `Upsert` returns the
error of `LastInsertId` while `Insert` returns a nil error. -/
theorem upsert_insert_id_rule_differ :
    (Upsert { Config.default with EnableUpsert := true } exampleResolver noIdDb "t" "id"
        (person "Person" 0 "Ann" .nil)).map (fun r => r.ret) =
      .ok (0, some "LastInsertId is not supported") ∧
    (Insert { Config.default with EnableUpsert := true } exampleResolver noIdDb "t" "id"
        (person "Person" 0 "Ann" .nil)).map (fun r => r.ret) = .ok (0, none) :=
  ⟨rfl, rfl⟩

/-! ### Scan -/

/-- C9, at the failing input: `Left` and `Right` both map column `x`; scanning a
row whose `x` is 7 into a `Left` holding 1 and then a `Right` holding 2 leaves
the earlier argument at 1 and stores 7 in the later one. -/
theorem scan_shared_column_last_wins :
    Scan basicLib sharedColumnResolver (oneRow ["x"] [.int 7]) [.ref 0, .ref 1]
        [sharedColumnRecord "Left" 1, sharedColumnRecord "Right" 2] =
      .ok { ret := none
            heap := [sharedColumnRecord "Left" 1, sharedColumnRecord "Right" 7]
            printed := [] } := by
  rfl

/-! #### Frame lemmas for the heap -/

theorem find_setFieldVal_ne (g g' : String) (v : Value) (fs : List Field) (h : g' ≠ g) :
    (setFieldVal g' v fs).find? (fun f => decide (f.name = g)) =
      fs.find? (fun f => decide (f.name = g)) := by
  induction fs with
  | nil => rfl
  | cons f rest ih =>
    unfold setFieldVal
    by_cases h1 : f.name = g'
    · simp [h1, List.find?_cons, h]
    · simp only [h1, if_false, List.find?_cons, ih]

theorem heapField_heapSet_ne (heap : List Record) (a a' : Nat) (g g' : String) (v : Value)
    (h : a' ≠ a ∨ g' ≠ g) :
    heapField (heapSet heap a' g' v) a g = heapField heap a g := by
  unfold heapSet
  cases hr : heap[a']? with
  | none => rfl
  | some r =>
    simp only []
    unfold heapField
    by_cases ha : a' = a
    · subst ha
      have hg : g' ≠ g := by
        rcases h with h | h
        · exact absurd rfl h
        · exact h
      have hlt : a' < heap.length := by
        rcases List.getElem?_eq_some_iff.mp hr with ⟨hlt, _⟩
        exact hlt
      rw [List.getElem?_set_self hlt, hr]
      simp only [Record.fieldByName]
      exact find_setFieldVal_ne g g' v r.fields hg
    · rw [List.getElem?_set_ne ha]

theorem assignTarget_heapField (lib : SqlLib) (t : Target) (src : SqlValue) (mem mem1 : Mem)
    (a : Nat) (g : String) (ht : t ≠ Target.field a g)
    (hok : assignTarget lib t src mem = .ok mem1) :
    heapField mem1.heap a g = heapField mem.heap a g := by
  cases t with
  | discard =>
    simp only [assignTarget, Except.ok.injEq] at hok
    rw [← hok]
  | holder h =>
    simp only [assignTarget] at hok
    split at hok
    · simp only [Except.ok.injEq] at hok
      rw [← hok]
    · split at hok
      · simp only [Except.ok.injEq] at hok
        rw [← hok]
      · cases hok
  | field addr goName =>
    simp only [assignTarget] at hok
    split at hok
    · simp only [Except.ok.injEq] at hok
      rw [← hok]
    · split at hok
      · simp only [Except.ok.injEq] at hok
        rw [← hok]
        apply heapField_heapSet_ne
        by_contra hcon
        push_neg at hcon
        apply ht
        rw [hcon.1, hcon.2]
      · cases hok

theorem assignColumns_heapField (lib : SqlLib) (a : Nat) (g : String) (ts : List Target)
    (srcs : List SqlValue) (mem : Mem) (hts : ∀ t ∈ ts, t ≠ Target.field a g) :
    heapField (assignColumns lib ts srcs mem).2.heap a g = heapField mem.heap a g := by
  induction ts generalizing srcs mem with
  | nil => simp [assignColumns]
  | cons t rest ih =>
    cases srcs with
    | nil => simp [assignColumns]
    | cons src srcs1 =>
      simp only [assignColumns]
      cases hok : assignTarget lib t src mem with
      | error er => rfl
      | ok mem1 =>
        simp only []
        rw [ih srcs1 mem1 (fun x hx => hts x (List.mem_cons_of_mem _ hx))]
        exact assignTarget_heapField lib t src mem mem1 a g (hts t (List.mem_cons_self _ _)) hok

/-! #### Holders that only receive nil stay invalid -/

theorem holder_scan_null (lib : SqlLib) (old new : Holder)
    (h : old.scan lib SqlValue.null = .ok new) : new.valid = false := by
  cases old <;> simp only [Holder.scan, Except.ok.injEq] at h <;> rw [← h] <;> rfl

theorem assignTarget_holderInvalid (lib : SqlLib) (t : Target) (src : SqlValue)
    (mem mem1 : Mem) (h : Nat) (hinv : HolderInvalid mem.holders h)
    (hsrc : t = Target.holder h → src = SqlValue.null)
    (hok : assignTarget lib t src mem = .ok mem1) : HolderInvalid mem1.holders h := by
  cases t with
  | discard =>
    simp only [assignTarget, Except.ok.injEq] at hok
    rw [← hok]
    exact hinv
  | field addr goName =>
    simp only [assignTarget] at hok
    split at hok
    · simp only [Except.ok.injEq] at hok
      rw [← hok]
      exact hinv
    · split at hok
      · simp only [Except.ok.injEq] at hok
        rw [← hok]
        exact hinv
      · cases hok
  | holder h1 =>
    simp only [assignTarget] at hok
    split at hok
    · simp only [Except.ok.injEq] at hok
      rw [← hok]
      exact hinv
    · rename_i old hold
      split at hok
      · rename_i new hnew
        simp only [Except.ok.injEq] at hok
        rw [← hok]
        intro hd hget
        simp only [] at hget
        by_cases heq : h1 = h
        · subst heq
          rw [hsrc rfl] at hnew
          have hlt : h1 < mem.holders.length := by
            rcases List.getElem?_eq_some_iff.mp hold with ⟨hlt, _⟩
            exact hlt
          rw [List.getElem?_set_self hlt] at hget
          cases hget
          exact holder_scan_null lib old new hnew
        · rw [List.getElem?_set_ne heq] at hget
          exact hinv hd hget
      · cases hok

theorem assignColumns_holderInvalid (lib : SqlLib) (h : Nat) (ts : List Target)
    (srcs : List SqlValue) (mem : Mem) (hinv : HolderInvalid mem.holders h)
    (hsrc : ∀ p ∈ ts.zip srcs, p.1 = Target.holder h → p.2 = SqlValue.null) :
    HolderInvalid (assignColumns lib ts srcs mem).2.holders h := by
  induction ts generalizing srcs mem with
  | nil => simpa [assignColumns] using hinv
  | cons t rest ih =>
    cases srcs with
    | nil => simpa [assignColumns] using hinv
    | cons src srcs1 =>
      simp only [assignColumns]
      cases hok : assignTarget lib t src mem with
      | error er => exact hinv
      | ok mem1 =>
        simp only []
        apply ih srcs1 mem1
        · exact assignTarget_holderInvalid lib t src mem mem1 h hinv
            (hsrc (t, src) (by simp)) hok
        · intro p hp
          exact hsrc p (by simp [hp])

/-! #### The write-back loops touch only fields whose holder is valid -/

theorem remapInts_heapField (holders : List Holder) (a : Nat) (g : String)
    (remap : List (FieldRef × Nat)) (heap : List Record)
    (h : ∀ p ∈ remap, p.1 = (a, g) → HolderInvalid holders p.2) :
    heapField (remapInts holders remap heap) a g = heapField heap a g := by
  induction remap generalizing heap with
  | nil => rfl
  | cons p rest ih =>
    obtain ⟨fr, hid⟩ := p
    have hrest : ∀ p ∈ rest, p.1 = (a, g) → HolderInvalid holders p.2 :=
      fun x hx => h x (List.mem_cons_of_mem _ hx)
    have hne : ∀ n, holders[hid]? = some (Holder.nullInt64 n true) → fr.1 ≠ a ∨ fr.2 ≠ g := by
      intro n hget
      by_contra hcon
      push_neg at hcon
      have := h (fr, hid) (List.mem_cons_self _ _) (Prod.ext hcon.1 hcon.2) _ hget
      simp [Holder.valid] at this
    unfold remapInts
    split
    · rename_i n hget
      split <;> rw [ih _ hrest] <;> exact heapField_heapSet_ne _ _ _ _ _ _ (hne n hget)
    · exact ih _ hrest

theorem remapFloats_heapField (lib : SqlLib) (holders : List Holder) (a : Nat) (g : String)
    (remap : List (FieldRef × Nat)) (heap : List Record)
    (h : ∀ p ∈ remap, p.1 = (a, g) → HolderInvalid holders p.2) :
    heapField (remapFloats lib holders remap heap) a g = heapField heap a g := by
  induction remap generalizing heap with
  | nil => rfl
  | cons p rest ih =>
    obtain ⟨fr, hid⟩ := p
    have hrest : ∀ p ∈ rest, p.1 = (a, g) → HolderInvalid holders p.2 :=
      fun x hx => h x (List.mem_cons_of_mem _ hx)
    have hne : ∀ x, holders[hid]? = some (Holder.nullFloat64 x true) → fr.1 ≠ a ∨ fr.2 ≠ g := by
      intro x hget
      by_contra hcon
      push_neg at hcon
      have := h (fr, hid) (List.mem_cons_self _ _) (Prod.ext hcon.1 hcon.2) _ hget
      simp [Holder.valid] at this
    unfold remapFloats
    split
    · rename_i x hget
      split <;> rw [ih _ hrest] <;> exact heapField_heapSet_ne _ _ _ _ _ _ (hne x hget)
    · exact ih _ hrest

theorem remapBools_heapField (holders : List Holder) (a : Nat) (g : String)
    (remap : List (FieldRef × Nat)) (heap : List Record)
    (h : ∀ p ∈ remap, p.1 = (a, g) → HolderInvalid holders p.2) :
    heapField (remapBools holders remap heap) a g = heapField heap a g := by
  induction remap generalizing heap with
  | nil => rfl
  | cons p rest ih =>
    obtain ⟨fr, hid⟩ := p
    have hrest : ∀ p ∈ rest, p.1 = (a, g) → HolderInvalid holders p.2 :=
      fun x hx => h x (List.mem_cons_of_mem _ hx)
    have hne : ∀ b, holders[hid]? = some (Holder.nullBool b true) → fr.1 ≠ a ∨ fr.2 ≠ g := by
      intro b hget
      by_contra hcon
      push_neg at hcon
      have := h (fr, hid) (List.mem_cons_self _ _) (Prod.ext hcon.1 hcon.2) _ hget
      simp [Holder.valid] at this
    unfold remapBools
    split
    · rename_i b hget
      rw [ih _ hrest]
      exact heapField_heapSet_ne _ _ _ _ _ _ (hne b hget)
    · exact ih _ hrest

theorem remapStrings_heapField (holders : List Holder) (a : Nat) (g : String)
    (remap : List (FieldRef × Nat)) (heap : List Record)
    (h : ∀ p ∈ remap, p.1 = (a, g) → HolderInvalid holders p.2) :
    heapField (remapStrings holders remap heap) a g = heapField heap a g := by
  induction remap generalizing heap with
  | nil => rfl
  | cons p rest ih =>
    obtain ⟨fr, hid⟩ := p
    have hrest : ∀ p ∈ rest, p.1 = (a, g) → HolderInvalid holders p.2 :=
      fun x hx => h x (List.mem_cons_of_mem _ hx)
    have hne : ∀ t, holders[hid]? = some (Holder.nullString t true) → fr.1 ≠ a ∨ fr.2 ≠ g := by
      intro t hget
      by_contra hcon
      push_neg at hcon
      have := h (fr, hid) (List.mem_cons_self _ _) (Prod.ext hcon.1 hcon.2) _ hget
      simp [Holder.valid] at this
    unfold remapStrings
    split
    · rename_i t hget
      rw [ih _ hrest]
      exact heapField_heapSet_ne _ _ _ _ _ _ (hne t hget)
    · exact ih _ hrest

/-! #### The invariant of the argument loop -/

theorem mem_mapSet {α β : Type} [DecidableEq α] {k : α} {v : β} {m : List (α × β)}
    {x : α × β} (h : x ∈ mapSet k v m) : x = (k, v) ∨ x ∈ m := by
  unfold mapSet at h
  rcases List.mem_cons.mp h with h1 | h1
  · exact Or.inl h1
  · exact Or.inr (List.mem_filter.mp h1).1

theorem mapGet_mem {α β : Type} [DecidableEq α] {k : α} {v : β} {m : List (α × β)}
    (h : mapGet k m = some v) : (k, v) ∈ m := by
  induction m with
  | nil => simp [mapGet] at h
  | cons p rest ih =>
    unfold mapGet at h
    split at h
    · rename_i hk
      simp only [Option.some.injEq] at h
      rw [← hk, ← h]
      exact List.mem_cons_self _ _
    · exact List.mem_cons_of_mem _ (ih h)

/-- Registering a fresh holder for field `fr0` under key `c` keeps the invariant. -/
theorem regInv_holder {origin : FieldRef → String → Prop} {a : Nat} {g : String}
    {acc acc1 : ScanAcc} (hd0 : Holder) (fr0 : FieldRef) (c : String)
    (hinv : RegInv origin a g acc)
    (hholders : acc1.holders = acc.holders ++ [hd0]) (hvalid : hd0.valid = false)
    (hwbm : acc1.writeBackMap = mapSet c (Target.holder acc.holders.length) acc.writeBackMap)
    (hremap : ∀ p ∈ acc1.allRemap, p = (fr0, acc.holders.length) ∨ p ∈ acc.allRemap)
    (horigin : origin fr0 c) : RegInv origin a g acc1 := by
  constructor
  · intro p hp
    rw [hholders, List.length_append, List.length_singleton]
    rcases hremap p hp with h1 | h1
    · rw [h1]
      exact Nat.lt_succ_self _
    · exact Nat.lt_succ_of_lt (hinv.remap_lt p h1)
  · intro k h hk
    rw [hholders, List.length_append, List.length_singleton]
    rw [hwbm] at hk
    rcases mem_mapSet hk with h1 | h1
    · cases h1
      exact Nat.lt_succ_self _
    · exact Nat.lt_succ_of_lt (hinv.wbm_lt k h h1)
  · intro fr h k hfr hk
    rw [hwbm] at hk
    rcases hremap _ hfr with h1 | h1
    · cases h1
      rcases mem_mapSet hk with h2 | h2
      · cases h2
        exact horigin
      · exact absurd (hinv.wbm_lt k _ h2) (Nat.lt_irrefl _)
    · rcases mem_mapSet hk with h2 | h2
      · cases h2
        exact absurd (hinv.remap_lt _ h1) (Nat.lt_irrefl _)
      · exact hinv.paired fr h k h1 h2
  · intro hd hmem
    rw [hholders] at hmem
    rcases List.mem_append.mp hmem with h1 | h1
    · exact hinv.invalid hd h1
    · rw [List.mem_singleton.mp h1]
      exact hvalid
  · intro k hk
    rw [hwbm] at hk
    rcases mem_mapSet hk with h1 | h1
    · cases h1
    · exact hinv.no_direct k h1

theorem scanField_inv {origin : FieldRef → String → Prop} {a : Nat} {g : String}
    (addr : Nat) (val : Record) (acc acc1 : ScanAcc) (e : String × FieldMeta)
    (hinv : RegInv origin a g acc) (horigin : origin (addr, e.2.GoName) e.1)
    (hty : addr = a → e.2.GoName = g →
      ∃ f k, val.fieldByName g = some f ∧ f.ty.nullKind = some k)
    (hok : scanField addr val acc e = .ok acc1) : RegInv origin a g acc1 := by
  unfold scanField at hok
  split at hok
  · cases hok
  · rename_i field hfield
    split at hok <;> simp only [Except.ok.injEq] at hok <;> subst hok
    · refine regInv_holder (Holder.nullInt64 0 false) (addr, e.2.GoName) e.1 hinv rfl rfl rfl
        ?_ horigin
      intro p hp
      simp only [ScanAcc.allRemap, List.mem_append] at hp ⊢
      rcases hp with ((hp | hp) | hp) | hp
      · rcases mem_mapSet hp with h1 | h1
        · exact Or.inl h1
        · exact Or.inr (Or.inl (Or.inl (Or.inl h1)))
      · exact Or.inr (Or.inl (Or.inl (Or.inr hp)))
      · exact Or.inr (Or.inl (Or.inr hp))
      · exact Or.inr (Or.inr hp)
    · refine regInv_holder (Holder.nullFloat64 0 false) (addr, e.2.GoName) e.1 hinv rfl rfl rfl
        ?_ horigin
      intro p hp
      simp only [ScanAcc.allRemap, List.mem_append] at hp ⊢
      rcases hp with ((hp | hp) | hp) | hp
      · exact Or.inr (Or.inl (Or.inl (Or.inl hp)))
      · rcases mem_mapSet hp with h1 | h1
        · exact Or.inl h1
        · exact Or.inr (Or.inl (Or.inl (Or.inr h1)))
      · exact Or.inr (Or.inl (Or.inr hp))
      · exact Or.inr (Or.inr hp)
    · refine regInv_holder (Holder.nullBool false false) (addr, e.2.GoName) e.1 hinv rfl rfl rfl
        ?_ horigin
      intro p hp
      simp only [ScanAcc.allRemap, List.mem_append] at hp ⊢
      rcases hp with ((hp | hp) | hp) | hp
      · exact Or.inr (Or.inl (Or.inl (Or.inl hp)))
      · exact Or.inr (Or.inl (Or.inl (Or.inr hp)))
      · rcases mem_mapSet hp with h1 | h1
        · exact Or.inl h1
        · exact Or.inr (Or.inl (Or.inr h1))
      · exact Or.inr (Or.inr hp)
    · refine regInv_holder (Holder.nullString "" false) (addr, e.2.GoName) e.1 hinv rfl rfl rfl
        ?_ horigin
      intro p hp
      simp only [ScanAcc.allRemap, List.mem_append] at hp ⊢
      rcases hp with ((hp | hp) | hp) | hp
      · exact Or.inr (Or.inl (Or.inl (Or.inl hp)))
      · exact Or.inr (Or.inl (Or.inl (Or.inr hp)))
      · exact Or.inr (Or.inl (Or.inr hp))
      · rcases mem_mapSet hp with h1 | h1
        · exact Or.inl h1
        · exact Or.inr (Or.inr h1)
    · rename_i hkind
      constructor
      · exact hinv.remap_lt
      · intro k h hk
        rcases mem_mapSet hk with h1 | h1
        · cases h1
        · exact hinv.wbm_lt k h h1
      · intro fr h k hfr hk
        rcases mem_mapSet hk with h1 | h1
        · cases h1
        · exact hinv.paired fr h k hfr h1
      · exact hinv.invalid
      · intro k hk
        rcases mem_mapSet hk with h1 | h1
        · simp only [Prod.mk.injEq, Target.field.injEq] at h1
          obtain ⟨f, kind, hf, hk2⟩ := hty h1.2.1.symm h1.2.2.symm
          rw [h1.2.2, hfield] at hf
          cases hf
          rw [hk2] at hkind
          cases hkind
        · exact hinv.no_direct k h1

theorem scanFields_inv {origin : FieldRef → String → Prop} {a : Nat} {g : String}
    (addr : Nat) (val : Record) (fm : FieldMap) (acc acc1 : ScanAcc)
    (hinv : RegInv origin a g acc)
    (horigin : ∀ e ∈ fm, origin (addr, e.2.GoName) e.1)
    (hty : addr = a → ∃ f k, val.fieldByName g = some f ∧ f.ty.nullKind = some k)
    (hok : scanFields addr val fm acc = .ok acc1) : RegInv origin a g acc1 := by
  induction fm generalizing acc with
  | nil =>
    simp only [scanFields, Except.ok.injEq] at hok
    rw [← hok]
    exact hinv
  | cons e rest ih =>
    simp only [scanFields] at hok
    split at hok
    · rename_i acc2 hstep
      exact ih acc2
        (scanField_inv addr val acc acc2 e hinv (horigin e (List.mem_cons_self _ _))
          (fun h1 _ => hty h1) hstep)
        (fun x hx => horigin x (List.mem_cons_of_mem _ hx)) hok
    · cases hok

theorem regInv_pfx {origin : FieldRef → String → Prop} {a : Nat} {g : String}
    {acc : ScanAcc} (s : String) (hinv : RegInv origin a g acc) :
    RegInv origin a g { acc with pfx := s } :=
  ⟨hinv.remap_lt, hinv.wbm_lt, hinv.paired, hinv.invalid, hinv.no_direct⟩

theorem scanArgs_inv {origin : FieldRef → String → Prop} {a : Nat} {g : String}
    (sqlToGoFields : Resolver) (heap : List Record) (rest : List Arg) (acc acc1 : ScanAcc)
    (hinv : RegInv origin a g acc)
    (horigin : ∀ addr, Arg.ref addr ∈ rest → ∀ r fm, heap[addr]? = some r →
      sqlToGoFields r.typeName = .ok fm → ∀ e ∈ fm, origin (addr, e.2.GoName) e.1)
    (hty : ∃ f k, heapField heap a g = some f ∧ f.ty.nullKind = some k)
    (hok : scanArgs sqlToGoFields heap rest acc = .ok (.ok acc1)) :
    RegInv origin a g acc1 := by
  induction rest generalizing acc with
  | nil =>
    simp only [scanArgs, Except.ok.injEq] at hok
    rw [← hok]
    exact hinv
  | cons x xs ih =>
    have hxs : ∀ addr, Arg.ref addr ∈ xs → ∀ r fm, heap[addr]? = some r →
        sqlToGoFields r.typeName = .ok fm → ∀ e ∈ fm, origin (addr, e.2.GoName) e.1 :=
      fun addr hmem => horigin addr (List.mem_cons_of_mem _ hmem)
    cases x with
    | str s =>
      simp only [scanArgs] at hok
      exact ih _ (regInv_pfx s hinv) hxs hok
    | ref addr =>
      simp only [scanArgs] at hok
      split at hok
      · cases hok
      · rename_i val hval
        split at hok
        · cases hok
        · rename_i fm hfm
          split at hok
          · cases hok
          · rename_i acc2 hfields
            refine ih _ (regInv_pfx "" ?_) hxs hok
            refine scanFields_inv addr val fm acc acc2 hinv
              (horigin addr (List.mem_cons_self _ _) val fm hval hfm) ?_ hfields
            intro haddr
            obtain ⟨f, k, hf, hk⟩ := hty
            refine ⟨f, k, ?_, hk⟩
            unfold heapField at hf
            rw [← haddr, hval] at hf
            exact hf

theorem regInv_init (origin : FieldRef → String → Prop) (a : Nat) (g : String) :
    RegInv origin a g ScanAcc.init := by
  constructor <;> simp [ScanAcc.init, ScanAcc.allRemap]

/-! #### `rows.Scan` -/

theorem rowsScan_heapField (lib : SqlLib) (rows : Rows) (dest : List Target) (mem : Mem)
    (a : Nat) (g : String) (hdest : ∀ t ∈ dest, t ≠ Target.field a g) :
    heapField (rows.scan lib dest mem).2.heap a g = heapField mem.heap a g := by
  unfold Rows.scan
  split
  · rfl
  · split
    · rfl
    · split
      · rfl
      · exact assignColumns_heapField lib a g dest _ mem hdest

theorem rowsScan_holderInvalid (lib : SqlLib) (rows : Rows) (dest : List Target) (mem : Mem)
    (h : Nat) (hinv : HolderInvalid mem.holders h)
    (hsrc : ∀ row, rows.current = some row →
      ∀ p ∈ dest.zip row, p.1 = Target.holder h → p.2 = SqlValue.null) :
    HolderInvalid (rows.scan lib dest mem).2.holders h := by
  unfold Rows.scan
  split
  · exact hinv
  · split
    · exact hinv
    · rename_i row hrow
      split
      · exact hinv
      · exact assignColumns_holderInvalid lib h dest row mem hinv (hsrc row hrow)

theorem rows_getColumns_ok {rows : Rows} {cols : List String}
    (h : rows.getColumns = .ok cols) : rows.columns = .ok cols := by
  unfold Rows.getColumns at h
  split at h
  · cases h
  · exact h

/-! #### `Scan` returns -/

theorem scanField_ok (addr : Nat) (val : Record) (acc : ScanAcc) (e : String × FieldMeta)
    (h : (val.fieldByName e.2.GoName).isSome = true) :
    ∃ acc1, scanField addr val acc e = .ok acc1 := by
  unfold scanField
  cases hf : val.fieldByName e.2.GoName with
  | none => simp [hf] at h
  | some field =>
    simp only []
    split <;> exact ⟨_, rfl⟩

theorem scanFields_ok (addr : Nat) (val : Record) (fm : FieldMap) (acc : ScanAcc)
    (h : ∀ e ∈ fm, (val.fieldByName e.2.GoName).isSome = true) :
    ∃ acc1, scanFields addr val fm acc = .ok acc1 := by
  induction fm generalizing acc with
  | nil => exact ⟨acc, rfl⟩
  | cons e rest ih =>
    obtain ⟨acc2, h2⟩ := scanField_ok addr val acc e (h e (List.mem_cons_self _ _))
    simp only [scanFields, h2]
    exact ih acc2 (fun x hx => h x (List.mem_cons_of_mem _ hx))

theorem scanArgs_ok (sqlToGoFields : Resolver) (heap : List Record) (args : List Arg)
    (acc : ScanAcc)
    (h : ∀ addr, Arg.ref addr ∈ args → ∃ r, heap[addr]? = some r ∧
      ∀ fm, sqlToGoFields r.typeName = .ok fm →
        ∀ e ∈ fm, (r.fieldByName e.2.GoName).isSome = true) :
    ∃ res, scanArgs sqlToGoFields heap args acc = .ok res := by
  induction args generalizing acc with
  | nil => exact ⟨_, rfl⟩
  | cons x xs ih =>
    have hxs : ∀ addr, Arg.ref addr ∈ xs → ∃ r, heap[addr]? = some r ∧
        ∀ fm, sqlToGoFields r.typeName = .ok fm →
          ∀ e ∈ fm, (r.fieldByName e.2.GoName).isSome = true :=
      fun addr hmem => h addr (List.mem_cons_of_mem _ hmem)
    cases x with
    | str s =>
      simp only [scanArgs]
      exact ih _ hxs
    | ref addr =>
      obtain ⟨r, hr, hfields⟩ := h addr (List.mem_cons_self _ _)
      simp only [scanArgs, hr]
      cases hfm : sqlToGoFields r.typeName with
      | error er => exact ⟨_, rfl⟩
      | ok fm =>
        obtain ⟨acc2, h2⟩ := scanFields_ok addr r fm acc (hfields fm hfm)
        simp only [h2]
        exact ih _ hxs

/-- `Scan` returns, with or without an error, whenever every struct argument
points into the heap and every entry of its field map names a field of it. -/
theorem scan_returns (lib : SqlLib) (sqlToGoFields : Resolver) (rows : Rows)
    (args : List Arg) (heap : List Record)
    (h : ∀ addr, Arg.ref addr ∈ args → ∃ r, heap[addr]? = some r ∧
      ∀ fm, sqlToGoFields r.typeName = .ok fm →
        ∀ e ∈ fm, (r.fieldByName e.2.GoName).isSome = true) :
    ∃ run, Scan lib sqlToGoFields rows args heap = .ok run := by
  obtain ⟨res, hres⟩ := scanArgs_ok sqlToGoFields heap args ScanAcc.init h
  unfold Scan
  rw [hres]
  cases res with
  | error er => exact ⟨_, rfl⟩
  | ok acc =>
    simp only []
    split
    · exact ⟨_, rfl⟩
    · split <;> exact ⟨_, rfl⟩

/-- The remap entries of a field of holder type keep an invalid holder through
`rows.Scan` when every result column registered for that field is nil. -/
theorem remap_holder_invalid (lib : SqlLib) (sqlToGoFields : Resolver) (rows : Rows)
    (args : List Arg) (heap : List Record) (a : Nat) (g : String) (acc : ScanAcc)
    (cols : List String)
    (hinv : RegInv (ColumnOf sqlToGoFields heap args) a g acc)
    (hnull : ∀ row, rows.current = some row → ∀ (i : Nat) (c : String), cols[i]? = some c →
      ColumnOf sqlToGoFields heap args (a, g) c → row[i]? = some SqlValue.null)
    (p : FieldRef × Nat) (hp : p ∈ acc.allRemap) (hfr : p.1 = (a, g)) :
    HolderInvalid
      (rows.scan lib (writeBackTargets acc.writeBackMap cols)
        { heap := heap, holders := acc.holders }).2.holders p.2 := by
  apply rowsScan_holderInvalid
  · intro hd hget
    exact hinv.invalid hd (List.mem_iff_getElem?.mpr ⟨_, hget⟩)
  · intro row hrow q hq hholder
    obtain ⟨i, hi⟩ := List.mem_iff_getElem?.mp hq
    obtain ⟨h1, h2⟩ := List.getElem?_zip_eq_some.mp hi
    simp only [writeBackTargets, List.getElem?_map] at h1
    cases hc : cols[i]? with
    | none => simp [hc] at h1
    | some c =>
      simp only [hc, Option.map_some', Option.some.injEq] at h1
      cases hget : mapGet c acc.writeBackMap with
      | none =>
        simp only [hget] at h1
        rw [← h1] at hholder
        cases hholder
      | some t =>
        simp only [hget] at h1
        have hmem : (c, Target.holder p.2) ∈ acc.writeBackMap := by
          rw [← hholder, ← h1]
          exact mapGet_mem hget
        have hcol := hinv.paired p.1 p.2 c hp hmem
        rw [hfr] at hcol
        have := hnull row hrow i c hc hcol
        rw [h2] at this
        exact Option.some.inj this

/-- C10, as amended: a field of type pointer to an 8/16/32/64-bit integer, a
32/64-bit float, a boolean or a string (the types `Scan` gives a holder,
`nullKind`; a pointer to a plain `int` is not among them) is, after every
returning call of `Scan`, exactly what it was before the call (same value, nil
or not) when every result column that the metadata of a struct argument maps to
that field is SQL null in the row. -/
theorem scan_null_leaves_optional_field (lib : SqlLib) (sqlToGoFields : Resolver)
    (rows : Rows) (args : List Arg) (heap : List Record) (a : Nat) (g : String)
    (f : Field) (k : NullKind) (run : ScanRun)
    (hfield : heapField heap a g = some f) (hkind : f.ty.nullKind = some k)
    (hnull : ∀ cols row, rows.columns = .ok cols → rows.current = some row →
      ∀ (i : Nat) (c : String), cols[i]? = some c →
        ColumnOf sqlToGoFields heap args (a, g) c → row[i]? = some SqlValue.null)
    (hrun : Scan lib sqlToGoFields rows args heap = .ok run) :
    heapField run.heap a g = some f := by
  unfold Scan at hrun
  split at hrun
  · cases hrun
  · simp only [Except.ok.injEq] at hrun
    rw [← hrun]
    exact hfield
  · rename_i acc hargs
    have hinv : RegInv (ColumnOf sqlToGoFields heap args) a g acc := by
      refine scanArgs_inv sqlToGoFields heap args ScanAcc.init acc (regInv_init _ a g) ?_
        ⟨f, k, hfield, hkind⟩ hargs
      intro addr hmem r fm hr hfm e he
      exact ⟨hmem, r, fm, e.2, hr, hfm, he, rfl⟩
    split at hrun
    · simp only [Except.ok.injEq] at hrun
      rw [← hrun]
      exact hfield
    · rename_i cols hcols
      have hdest : ∀ t ∈ writeBackTargets acc.writeBackMap cols, t ≠ Target.field a g := by
        intro t ht heq
        simp only [writeBackTargets, List.mem_map] at ht
        obtain ⟨c, _, hc⟩ := ht
        cases hget : mapGet c acc.writeBackMap with
        | none =>
          simp only [hget] at hc
          rw [← hc] at heq
          cases heq
        | some t1 =>
          simp only [hget] at hc
          apply hinv.no_direct c
          rw [← heq, ← hc]
          exact mapGet_mem hget
      have hheap := rowsScan_heapField lib rows (writeBackTargets acc.writeBackMap cols)
        { heap := heap, holders := acc.holders } a g hdest
      have hhold : ∀ p ∈ acc.allRemap, p.1 = (a, g) →
          HolderInvalid
            (rows.scan lib (writeBackTargets acc.writeBackMap cols)
              { heap := heap, holders := acc.holders }).2.holders p.2 :=
        fun p hp hfr => remap_holder_invalid lib sqlToGoFields rows args heap a g acc cols
          hinv (hnull cols · (rows_getColumns_ok hcols)) p hp hfr
      simp only [] at hrun
      split at hrun
      · rename_i er mem hscan
        simp only [Except.ok.injEq] at hrun
        rw [← hrun]
        simp only [hscan] at hheap
        rw [hheap]
        exact hfield
      · rename_i mem hscan
        simp only [Except.ok.injEq] at hrun
        rw [← hrun]
        simp only [hscan] at hheap hhold
        simp only []
        rw [remapStrings_heapField, remapBools_heapField, remapFloats_heapField,
          remapInts_heapField, hheap]
        · exact hfield
        · exact fun p hp => hhold p (by simp [ScanAcc.allRemap, hp])
        · exact fun p hp => hhold p (by simp [ScanAcc.allRemap, hp])
        · exact fun p hp => hhold p (by simp [ScanAcc.allRemap, hp])
        · exact fun p hp => hhold p (by simp [ScanAcc.allRemap, hp])

/-- In the row `name = "Bob", age = NULL` every column of the example type that
maps to the field `Age` is nil. -/
theorem age_null_in_row :
    ∀ cols row, (oneRow ["name", "age"] [.str "Bob", .null]).columns = .ok cols →
      (oneRow ["name", "age"] [.str "Bob", .null]).current = some row →
      ∀ (i : Nat) (c : String), cols[i]? = some c →
        ColumnOf exampleResolver [person "Person" 3 "Ann" (.ptr (.int 30))] [.ref 0]
          (0, "Age") c →
        row[i]? = some SqlValue.null := by
  intro cols row hcols hrow i c hc hcol
  simp only [oneRow, Except.ok.injEq, Option.some.injEq] at hcols hrow
  subst hcols
  subst hrow
  obtain ⟨_, r, fm, desc, hr, hfm, hmem, hname⟩ := hcol
  simp only [List.getElem?_cons_zero, Option.some.injEq] at hr
  subst hr
  have hfm1 : fm = personFields := by
    have : exampleResolver "Person" = .ok personFields := rfl
    simp only [person] at hfm
    rw [this] at hfm
    exact (Except.ok.inj hfm).symm
  subst hfm1
  match i with
  | 0 =>
    simp only [List.getElem?_cons_zero, Option.some.injEq] at hc
    subst hc
    simp [personFields] at hmem
    subst hmem
    simp at hname
  | 1 => rfl
  | n + 2 => simp at hc

/-- Witness for C10: `Age` points to 30, the row's `age` is SQL null; after the
scan `Name` is `Bob` and `Age` still points to 30. -/
theorem scan_null_leaves_optional_field_witness :
    Scan basicLib exampleResolver (oneRow ["name", "age"] [.str "Bob", .null]) [.ref 0]
        [person "Person" 3 "Ann" (.ptr (.int 30))] =
      .ok { ret := none, heap := [person "Person" 3 "Bob" (.ptr (.int 30))], printed := [] } ∧
    heapField [person "Person" 3 "Bob" (.ptr (.int 30))] 0 "Age" =
      some ⟨"Age", .ptr .int32, .ptr (.int 30)⟩ :=
  ⟨rfl,
   scan_null_leaves_optional_field basicLib exampleResolver
     (oneRow ["name", "age"] [.str "Bob", .null]) [.ref 0]
     [person "Person" 3 "Ann" (.ptr (.int 30))] 0 "Age" ⟨"Age", .ptr .int32, .ptr (.int 30)⟩
     NullKind.int
     { ret := none, heap := [person "Person" 3 "Bob" (.ptr (.int 30))], printed := [] }
     rfl rfl age_null_in_row rfl⟩

/-- C10, counterexample: the field `N *int` of a `Tally` points to 5 and the
row's column `n` is SQL null. The element kind `reflect.Int` is not in the
switch of scan.go 56-88, so the address of the field itself is handed to
`rows.Scan`, which stores a nil pointer for SQL null: after `Scan` the field is
nil, not what it was. -/
theorem scan_null_resets_int_pointer :
    (GoType.ptr .int).nullKind = none ∧
    heapField [tally (.ptr (.int 5))] 0 "N" = some ⟨"N", .ptr .int, .ptr (.int 5)⟩ ∧
    Scan basicLib tallyResolver (oneRow ["n"] [.null]) [.ref 0] [tally (.ptr (.int 5))] =
      .ok { ret := none, heap := [tally .nil], printed := [] } ∧
    heapField [tally .nil] 0 "N" = some ⟨"N", .ptr .int, .nil⟩ :=
  ⟨rfl, rfl, rfl, rfl⟩

/-! ### The id column of `Update`, once more -/

/-- C19: when every metadata entry of the id column is read-only, which covers
an id column that is no column of the metadata at all, `Update` returns the
id-missing error and executes no statement, whatever the id field holds. -/
theorem update_readonly_id_fails (sqlToGoFields : Resolver) (db : DbIsh)
    (table idc : String) (val : Record) (fm : FieldMap)
    (hres : sqlToGoFields val.typeName = .ok fm)
    (hro : ∀ e ∈ fm, e.1 = idc → e.2.ReadOnly = true)
    (hwf : Resolves val fm idc) :
    Update sqlToGoFields db table idc val = .ok
      { ret := some (idc ++ " is 0 or not set, cannot update"), calls := [], printed := [] } := by
  have hid : ∀ e ∈ fm, e.2.ReadOnly = false → e.1 = idc →
      val.fieldInt e.2.GoName = .ok 0 := by
    intro e he h1 h2
    rw [hro e he h2] at h1
    cases h1
  unfold Update
  rw [hres]
  simp only []
  rw [updateLoop_eq idc val 0 fm _ hwf hid]
  simp [idMissing]

/-- Witness for C19: the example type, whose id column is read-only, with id 5;
and the same record updated under an id column the metadata does not have. -/
theorem update_readonly_id_fails_witness :
    Update exampleResolver acceptingDb "t" "id" (person "Person" 5 "Ann" .nil) = .ok
      { ret := some ("id" ++ " is 0 or not set, cannot update"), calls := [], printed := [] } ∧
    Update exampleResolver acceptingDb "t" "key" (person "Person" 5 "Ann" .nil) = .ok
      { ret := some ("key" ++ " is 0 or not set, cannot update"), calls := [], printed := [] } :=
  ⟨update_readonly_id_fails exampleResolver acceptingDb "t" "id" (person "Person" 5 "Ann" .nil)
     personFields rfl (by decide) (by decide),
   update_readonly_id_fails exampleResolver acceptingDb "t" "key" (person "Person" 5 "Ann" .nil)
     personFields rfl (by decide) (by decide)⟩

/-! ### The time coercion -/

theorem bindValue_eq_specBind (desc : FieldMeta) (v : Value) :
    bindValue desc v = specBind desc.Unix v := by
  unfold bindValue specBind
  cases hu : desc.Unix <;> cases v with
  | ptr w => cases w <;> simp [heldTime]
  | _ => simp [heldTime]

/-- The values the loop of `Update` collects, whatever it reads as the id. -/
theorem updateLoop_values (idc : String) (val : Record) (fm : FieldMap)
    (acc acc1 : UpdateAcc) (h : Resolves val fm idc)
    (hok : updateLoop idc val fm acc = .ok acc1) :
    acc1.newValues = acc.newValues ++ (settable fm idc).map (boundValue val) := by
  induction fm generalizing acc with
  | nil =>
    simp only [updateLoop, Except.ok.injEq] at hok
    rw [← hok]
    simp [settable]
  | cons e rest ih =>
    have hrest := resolves_tail h
    rw [updateLoop, updateStep] at hok
    by_cases hro : e.2.ReadOnly = true
    · simp only [hro, if_true] at hok
      rw [ih _ hrest hok]
      simp [settable_cons, hro]
    · by_cases hc : e.1 = idc
      · simp only [hro, hc, if_true, Bool.false_eq_true, if_false] at hok
        split at hok
        · rename_i acc2 hstep
          split at hstep
          · simp only [Except.ok.injEq] at hstep
            rw [ih _ hrest hok, ← hstep]
            simp [settable_cons, hc]
          · cases hstep
        · cases hok
      · have hsome := resolves_head h hro hc
        cases hf : val.fieldByName e.2.GoName with
        | none => simp [hf] at hsome
        | some f =>
          simp only [hro, hc, if_false, Record.fieldInterface, hf, Bool.false_eq_true] at hok
          rw [ih _ hrest hok]
          simp [settable_cons, hro, hc, boundValue, hf]

/-- C17: in `Update`, `Insert` and `Upsert` alike the value bound for a
non-read-only non-id field is the Unix seconds of the time it holds, directly or
through a non-nil pointer, when its descriptor has the unix-time flag, and the
field's own value in every other case, in particular for a nil optional time and
for a time under a descriptor without the flag. -/
theorem bind_value_time_coercion (cfg : Config) (sqlToGoFields : Resolver) (db : DbIsh)
    (table idc : String) (val : Record) (fm : FieldMap)
    (hres : sqlToGoFields val.typeName = .ok fm) (hwf : Resolves val fm idc) :
    (∀ e ∈ settable fm idc, ∃ f, val.fieldByName e.2.GoName = some f ∧
      boundValue val e = specBind e.2.Unix f.val) ∧
    (∀ run q binds, Update sqlToGoFields db table idc val = .ok run → (q, binds) ∈ run.calls →
      ∃ id, binds = (settable fm idc).map (boundValue val) ++ [Value.int id]) ∧
    (∃ ret printed q, Insert cfg sqlToGoFields db table idc val = .ok
      { ret := ret, calls := [(q, (settable fm idc).map (boundValue val))],
        printed := printed }) ∧
    (cfg.EnableUpsert = true →
      ∃ ret printed q, Upsert cfg sqlToGoFields db table idc val = .ok
        { ret := ret
          calls := [(q, (settable fm idc).map (boundValue val) ++
                        (settable fm idc).map (boundValue val))]
          printed := printed }) ∧
    (∀ sec nsec, specBind true (.time sec nsec) = .int sec ∧
      specBind true (.ptr (.time sec nsec)) = .int sec ∧
      specBind false (.time sec nsec) = .time sec nsec ∧
      specBind false (.ptr (.time sec nsec)) = .ptr (.time sec nsec)) ∧
    (∀ unix, specBind unix .nil = .nil) ∧
    (∀ unix v, heldTime v = none → specBind unix v = v) := by
  refine ⟨?_, ?_, ?_, ?_, ?_, ?_, ?_⟩
  · intro e he
    have hsome := hwf e he
    cases hf : val.fieldByName e.2.GoName with
    | none => simp [hf] at hsome
    | some f =>
      refine ⟨f, rfl, ?_⟩
      simp only [boundValue, hf]
      exact bindValue_eq_specBind e.2 f.val
  · intro run q binds hrun hmem
    unfold Update at hrun
    rw [hres] at hrun
    simp only [] at hrun
    split at hrun
    · cases hrun
    · rename_i acc hloop
      have hvals := updateLoop_values idc val fm _ acc hwf hloop
      simp only [List.nil_append] at hvals
      split at hrun
      · simp only [Except.ok.injEq] at hrun
        rw [← hrun] at hmem
        simp at hmem
      · refine ⟨acc.id, ?_⟩
        split at hrun <;>
        · simp only [Except.ok.injEq] at hrun
          rw [← hrun] at hmem
          simp only [List.mem_singleton, Prod.mk.injEq] at hmem
          rw [hmem.2, hvals]
  · obtain ⟨ret, printed, h⟩ := insert_calls cfg sqlToGoFields db table idc val fm hres hwf
    exact ⟨ret, printed, _, h⟩
  · intro hen
    obtain ⟨ret, printed, h⟩ := upsert_calls cfg sqlToGoFields db table idc val fm hen hres hwf
    exact ⟨ret, printed, _, h⟩
  · intro sec nsec
    exact ⟨rfl, rfl, rfl, rfl⟩
  · intro unix
    cases unix <;> rfl
  · intro unix v hv
    unfold specBind
    rw [hv]
    cases unix <;> rfl

/-- Witness for C17: an `Event` with a time under the flag, a time without it
and a nil optional time under it. -/
theorem bind_value_time_coercion_witness :
    (settable eventFields "id").map
        (boundValue (event 4 (.time 1700000000 5) (.time 1700000001 0) .nil)) =
      [.int 1700000000, .time 1700000001 0, .nil] ∧
    ((∀ e ∈ settable eventFields "id", ∃ f,
        (event 4 (.time 1700000000 5) (.time 1700000001 0) .nil).fieldByName e.2.GoName =
          some f ∧
        boundValue (event 4 (.time 1700000000 5) (.time 1700000001 0) .nil) e =
          specBind e.2.Unix f.val) ∧
    (∀ run q binds, Update eventResolver acceptingDb "t" "id"
        (event 4 (.time 1700000000 5) (.time 1700000001 0) .nil) = .ok run →
      (q, binds) ∈ run.calls →
      ∃ id, binds = (settable eventFields "id").map
        (boundValue (event 4 (.time 1700000000 5) (.time 1700000001 0) .nil)) ++
          [Value.int id]) ∧
    (∃ ret printed q, Insert Config.default eventResolver acceptingDb "t" "id"
        (event 4 (.time 1700000000 5) (.time 1700000001 0) .nil) = .ok
      { ret := ret
        calls := [(q, (settable eventFields "id").map
          (boundValue (event 4 (.time 1700000000 5) (.time 1700000001 0) .nil)))]
        printed := printed }) ∧
    (Config.default.EnableUpsert = true →
      ∃ ret printed q, Upsert Config.default eventResolver acceptingDb "t" "id"
          (event 4 (.time 1700000000 5) (.time 1700000001 0) .nil) = .ok
        { ret := ret
          calls := [(q, (settable eventFields "id").map
              (boundValue (event 4 (.time 1700000000 5) (.time 1700000001 0) .nil)) ++
            (settable eventFields "id").map
              (boundValue (event 4 (.time 1700000000 5) (.time 1700000001 0) .nil)))]
          printed := printed }) ∧
    (∀ sec nsec, specBind true (.time sec nsec) = .int sec ∧
      specBind true (.ptr (.time sec nsec)) = .int sec ∧
      specBind false (.time sec nsec) = .time sec nsec ∧
      specBind false (.ptr (.time sec nsec)) = .ptr (.time sec nsec)) ∧
    (∀ unix, specBind unix .nil = .nil) ∧
    (∀ unix v, heldTime v = none → specBind unix v = v)) :=
  ⟨rfl,
   bind_value_time_coercion Config.default eventResolver acceptingDb "t" "id"
     (event 4 (.time 1700000000 5) (.time 1700000001 0) .nil) eventFields rfl (by decide)⟩

/-! ### ScanAll -/

/-- `Scan` does not look at the rows still to come. -/
theorem scan_pending_irrelevant (lib : SqlLib) (sqlToGoFields : Resolver) (rows : Rows)
    (pending : List (List SqlValue)) (args : List Arg) (heap : List Record) :
    Scan lib sqlToGoFields { rows with pending := pending } args heap =
      Scan lib sqlToGoFields rows args heap := rfl

/-- One turn of the loop of `ScanAll`, driven by `rows.Next()`. -/
theorem scanAllRows_next (lib : SqlLib) (sqlToGoFields : Resolver) (elemType : StructType)
    (rows : Rows) (items : List Record) (hopen : rows.closed = false) :
    scanAllRows lib sqlToGoFields elemType rows.columns rows.pending items =
      match rows.next with
      | (false, rows1) =>
        { ret := .ok none, dest := .toStructSlice elemType items, rows := rows1, printed := [] }
      | (true, rows1) =>
        match Scan lib sqlToGoFields rows1 [Arg.ref 0] [elemType.zero] with
        | .error p =>
          { ret := .error p, dest := .toStructSlice elemType items, rows := rows1,
            printed := [] }
        | .ok run =>
          match run.ret with
          | some er =>
            { ret := .ok (some er), dest := .toStructSlice elemType items, rows := rows1,
              printed := run.printed }
          | none =>
            scanAllRows lib sqlToGoFields elemType rows1.columns rows1.pending
              (items ++ [run.heap.head?.getD elemType.zero]) := by
  obtain ⟨columns, current, pending, closed⟩ := rows
  simp only [] at hopen
  subst hopen
  cases pending with
  | nil => rfl
  | cons row rest => rfl

/-- The loop of `ScanAll` over rows that scan successfully appends their structs
and goes on with the rest. -/
theorem scanAllRows_append (lib : SqlLib) (sqlToGoFields : Resolver) (elemType : StructType)
    (columns : Except Error (List String)) (pre rest : List (List SqlValue))
    (items : List Record)
    (hok : ∀ row ∈ pre, ScansOk lib sqlToGoFields elemType columns row) :
    scanAllRows lib sqlToGoFields elemType columns (pre ++ rest) items =
      scanAllRows lib sqlToGoFields elemType columns rest
        (items ++ pre.map (scannedElem lib sqlToGoFields elemType columns)) := by
  induction pre generalizing items with
  | nil => simp
  | cons row more ih =>
    obtain ⟨run, hrun, hret⟩ := hok row (List.mem_cons_self _ _)
    have hrun1 : Scan lib sqlToGoFields
        { columns := columns, current := some row, pending := more ++ rest, closed := false }
        [Arg.ref 0] [elemType.zero] = .ok run := hrun
    have helem : scannedElem lib sqlToGoFields elemType columns row =
        run.heap.head?.getD elemType.zero := by
      simp only [scannedElem, hrun]
    rw [List.cons_append, scanAllRows]
    simp only [hrun1, hret]
    rw [ih _ (fun r hr => hok r (List.mem_cons_of_mem _ hr)), List.map_cons, helem]
    simp

/-- C13: when every row the cursor yields scans successfully, `ScanAll` on a
slice of structs returns no error and leaves the slice as its initial contents
followed by one element per row, in cursor order, the element of the `i`-th row
being what `Scan` makes of a fresh zero-valued struct on that row with no
prefix; an empty slice ends with exactly as many elements as rows, and a cursor
without rows leaves the slice as it was. -/
theorem scanAll_appends_rows (lib : SqlLib) (sqlToGoFields : Resolver) (rows : Rows)
    (elemType : StructType) (items : List Record)
    (hok : ∀ row ∈ rows.remaining, ScansOk lib sqlToGoFields elemType rows.columns row) :
    (ScanAll lib sqlToGoFields rows (.toStructSlice elemType items)).ret = .ok none ∧
    (ScanAll lib sqlToGoFields rows (.toStructSlice elemType items)).dest =
      .toStructSlice elemType
        (items ++ rows.remaining.map (scannedElem lib sqlToGoFields elemType rows.columns)) ∧
    (items ++ rows.remaining.map (scannedElem lib sqlToGoFields elemType rows.columns)).length =
      items.length + rows.remaining.length ∧
    (∀ i, i < rows.remaining.length →
      (items ++ rows.remaining.map
          (scannedElem lib sqlToGoFields elemType rows.columns))[items.length + i]? =
        (rows.remaining[i]?).map (scannedElem lib sqlToGoFields elemType rows.columns)) ∧
    (items = [] →
      (rows.remaining.map (scannedElem lib sqlToGoFields elemType rows.columns)).length =
        rows.remaining.length) ∧
    (rows.remaining = [] →
      (ScanAll lib sqlToGoFields rows (.toStructSlice elemType items)).dest =
        .toStructSlice elemType items) := by
  have hrun : (ScanAll lib sqlToGoFields rows (.toStructSlice elemType items)).ret = .ok none ∧
      (ScanAll lib sqlToGoFields rows (.toStructSlice elemType items)).dest =
        .toStructSlice elemType
          (items ++ rows.remaining.map
            (scannedElem lib sqlToGoFields elemType rows.columns)) := by
    unfold ScanAll scanAllBody
    by_cases hclosed : rows.closed = true
    · simp [Rows.remaining, hclosed]
    · have hrem : rows.remaining = rows.pending := by simp [Rows.remaining, hclosed]
      rw [hrem] at hok ⊢
      have happ := scanAllRows_append lib sqlToGoFields elemType rows.columns rows.pending []
        items hok
      rw [List.append_nil] at happ
      simp only [hclosed, Bool.false_eq_true, if_false, happ, scanAllRows]
      refine ⟨?_, ?_⟩ <;> trivial
  refine ⟨hrun.1, hrun.2, ?_, ?_, ?_, ?_⟩
  · simp
  · intro i hi
    rw [List.getElem?_append_right (Nat.le_add_right _ _)]
    simp
  · intro _
    simp
  · intro hnil
    rw [hrun.2, hnil]
    simp

/-- Witness for C13: two rows into an empty slice of the example type. -/
theorem scanAll_appends_rows_witness :
    (ScanAll basicLib exampleResolver
        (cursor ["name", "age"] [[.str "Ann", .null], [.str "Bob", .int 41]])
        (.toStructSlice personType [])).ret = .ok none ∧
    (ScanAll basicLib exampleResolver
        (cursor ["name", "age"] [[.str "Ann", .null], [.str "Bob", .int 41]])
        (.toStructSlice personType [])).dest =
      .toStructSlice personType
        [person "Person" 0 "Ann" .nil, person "Person" 0 "Bob" (.ptr (.int 41))] :=
  ⟨(scanAll_appends_rows basicLib exampleResolver
      (cursor ["name", "age"] [[.str "Ann", .null], [.str "Bob", .int 41]]) personType []
      (by
        intro row hrow
        simp only [Rows.remaining, cursor, Bool.false_eq_true, if_false, List.mem_cons,
          List.mem_singleton, List.not_mem_nil, or_false] at hrow
        rcases hrow with h | h <;> subst h <;> exact ⟨_, rfl, rfl⟩)).1,
   rfl⟩

/-- C14: when the rows before the `k`-th scan successfully and `Scan` fails on
the `k`-th with error `e`, `ScanAll` returns `e`, leaves the rows after the
`k`-th unread, and leaves the slice as its initial contents followed by the
elements of the rows before the `k`-th: these are kept, and the failing row
adds none. -/
theorem scanAll_stops_at_first_failure (lib : SqlLib) (sqlToGoFields : Resolver)
    (rows : Rows) (elemType : StructType) (items : List Record)
    (pre post : List (List SqlValue)) (row : List SqlValue) (run : ScanRun) (e : Error)
    (hrem : rows.remaining = pre ++ row :: post)
    (hpre : ∀ r ∈ pre, ScansOk lib sqlToGoFields elemType rows.columns r)
    (hrow : scanOne lib sqlToGoFields elemType rows.columns row = .ok run)
    (hret : run.ret = some e) :
    (ScanAll lib sqlToGoFields rows (.toStructSlice elemType items)).ret = .ok (some e) ∧
    (ScanAll lib sqlToGoFields rows (.toStructSlice elemType items)).dest =
      .toStructSlice elemType
        (items ++ pre.map (scannedElem lib sqlToGoFields elemType rows.columns)) ∧
    (ScanAll lib sqlToGoFields rows (.toStructSlice elemType items)).rows.pending = post ∧
    (ScanAll lib sqlToGoFields rows (.toStructSlice elemType items)).rows.current =
      some row := by
  have hopen : rows.closed = false := by
    cases hc : rows.closed with
    | false => rfl
    | true => simp [Rows.remaining, hc] at hrem
  have hpend : rows.pending = pre ++ row :: post := by
    simpa [Rows.remaining, hopen] using hrem
  have hrow1 : Scan lib sqlToGoFields
      { columns := rows.columns, current := some row, pending := post, closed := false }
      [Arg.ref 0] [elemType.zero] = .ok run := hrow
  unfold ScanAll scanAllBody
  simp only [hopen, Bool.false_eq_true, if_false, hpend]
  rw [scanAllRows_append lib sqlToGoFields elemType rows.columns pre (row :: post) items hpre,
    scanAllRows]
  simp only [hrow1, hret]
  refine ⟨?_, ?_, ?_, ?_⟩ <;> trivial

/-- Witness for C14: the second of three rows holds text where `age` needs an
integer. -/
theorem scanAll_stops_at_first_failure_witness :
    (ScanAll basicLib exampleResolver
        (cursor ["name", "age"]
          [[.str "Ann", .null], [.str "Bob", .str "old"], [.str "Cy", .int 7]])
        (.toStructSlice personType [])).ret = .ok (some "sql: converting to int64 failed") ∧
    (ScanAll basicLib exampleResolver
        (cursor ["name", "age"]
          [[.str "Ann", .null], [.str "Bob", .str "old"], [.str "Cy", .int 7]])
        (.toStructSlice personType [])).dest =
      .toStructSlice personType
        ([] ++ [[.str "Ann", .null]].map
          (scannedElem basicLib exampleResolver personType (.ok ["name", "age"]))) ∧
    (ScanAll basicLib exampleResolver
        (cursor ["name", "age"]
          [[.str "Ann", .null], [.str "Bob", .str "old"], [.str "Cy", .int 7]])
        (.toStructSlice personType [])).rows.pending = [[.str "Cy", .int 7]] ∧
    (ScanAll basicLib exampleResolver
        (cursor ["name", "age"]
          [[.str "Ann", .null], [.str "Bob", .str "old"], [.str "Cy", .int 7]])
        (.toStructSlice personType [])).rows.current = some [.str "Bob", .str "old"] :=
  scanAll_stops_at_first_failure basicLib exampleResolver
    (cursor ["name", "age"]
      [[.str "Ann", .null], [.str "Bob", .str "old"], [.str "Cy", .int 7]])
    personType [] [[.str "Ann", .null]] [[.str "Cy", .int 7]] [.str "Bob", .str "old"]
    { ret := some "sql: converting to int64 failed"
      heap := [person "Person" 0 "Bob" .nil], printed := [["name", "age"]] }
    "sql: converting to int64 failed" rfl
    (by
      intro r hr
      rw [List.mem_singleton.mp hr]
      exact ⟨_, rfl, rfl⟩)
    rfl rfl

/-- What the loop of `ScanAll` returns is a nil error, or what `Scan` returned
or panicked with on one of the rows. -/
theorem scanAllRows_ret (lib : SqlLib) (sqlToGoFields : Resolver) (elemType : StructType)
    (columns : Except Error (List String)) (pending : List (List SqlValue))
    (items : List Record) :
    (scanAllRows lib sqlToGoFields elemType columns pending items).ret = .ok none ∨
    ∃ row ∈ pending,
      (scanAllRows lib sqlToGoFields elemType columns pending items).ret =
        (scanOne lib sqlToGoFields elemType columns row).map (fun r => r.ret) := by
  induction pending generalizing items with
  | nil => exact Or.inl rfl
  | cons row rest ih =>
    have hscan : Scan lib sqlToGoFields
        { columns := columns, current := some row, pending := rest, closed := false }
        [Arg.ref 0] [elemType.zero] = scanOne lib sqlToGoFields elemType columns row := rfl
    rw [scanAllRows]
    simp only [hscan]
    cases hone : scanOne lib sqlToGoFields elemType columns row with
    | error p =>
      refine Or.inr ⟨row, List.mem_cons_self _ _, ?_⟩
      rw [hone]
      rfl
    | ok run =>
      simp only []
      cases hret : run.ret with
      | some er =>
        refine Or.inr ⟨row, List.mem_cons_self _ _, ?_⟩
        rw [hone]
        simp [Except.map, hret]
      | none =>
        simp only []
        rcases ih (items ++ [run.heap.head?.getD elemType.zero]) with h | ⟨r, hr, h⟩
        · exact Or.inl h
        · exact Or.inr ⟨r, List.mem_cons_of_mem _ hr, h⟩

/-- C15: for a destination that is a pointer, `ScanAll` returns a precondition
error exactly when the pointer is nil or points to no slice (the not-a-slice
error) or points to a slice whose elements are no structs (the
slice-of-structs error); it then reads no row and leaves the destination as it
was. For a pointer to a slice of structs it returns a nil error or what `Scan`
returned or panicked with on one of the rows. -/
theorem scanAll_precondition (lib : SqlLib) (sqlToGoFields : Resolver) (rows : Rows) :
    (∀ dest, (dest = SliceArg.nilPointer ∨ ∃ v, dest = SliceArg.toNonSlice v) →
      (ScanAll lib sqlToGoFields rows dest).ret = .ok (some notASlice) ∧
      (ScanAll lib sqlToGoFields rows dest).dest = dest ∧
      (ScanAll lib sqlToGoFields rows dest).rows.pending = rows.pending ∧
      (ScanAll lib sqlToGoFields rows dest).rows.current = rows.current) ∧
    (∀ kind items,
      (ScanAll lib sqlToGoFields rows (.toSlice kind items)).ret = .ok (some notStructs) ∧
      (ScanAll lib sqlToGoFields rows (.toSlice kind items)).dest = .toSlice kind items ∧
      (ScanAll lib sqlToGoFields rows (.toSlice kind items)).rows.pending = rows.pending ∧
      (ScanAll lib sqlToGoFields rows (.toSlice kind items)).rows.current = rows.current) ∧
    (∀ elemType items,
      (ScanAll lib sqlToGoFields rows (.toStructSlice elemType items)).ret = .ok none ∨
      ∃ row ∈ rows.remaining,
        (ScanAll lib sqlToGoFields rows (.toStructSlice elemType items)).ret =
          (scanOne lib sqlToGoFields elemType rows.columns row).map (fun r => r.ret)) := by
  refine ⟨?_, ?_, ?_⟩
  · intro dest hdest
    rcases hdest with h | ⟨v, h⟩ <;> subst h <;> exact ⟨rfl, rfl, rfl, rfl⟩
  · intro kind items
    exact ⟨rfl, rfl, rfl, rfl⟩
  · intro elemType items
    unfold ScanAll scanAllBody
    by_cases hclosed : rows.closed = true
    · simp [hclosed]
    · have hrem : rows.remaining = rows.pending := by simp [Rows.remaining, hclosed]
      simp only [hclosed, Bool.false_eq_true, if_false, hrem]
      exact scanAllRows_ret lib sqlToGoFields elemType rows.columns rows.pending items

/-- C16: whatever the destination and the rows, and whether `ScanAll` returns a
nil error, a precondition error or the error of a `Scan`, or panics, the
cursor is closed afterwards. -/
theorem scanAll_closes_cursor (lib : SqlLib) (sqlToGoFields : Resolver) (rows : Rows)
    (dest : SliceArg) :
    (ScanAll lib sqlToGoFields rows dest).rows.closed = true ∧
    (∀ e, (ScanAll lib sqlToGoFields rows dest).ret = .ok e →
      (ScanAll lib sqlToGoFields rows dest).rows.closed = true) := by
  exact ⟨rfl, fun _ _ => rfl⟩

/-! ### The keys of the write-back table -/

theorem scanField_pfx (addr : Nat) (val : Record) (acc acc1 : ScanAcc)
    (e : String × FieldMeta) (hok : scanField addr val acc e = .ok acc1) :
    acc1.pfx = acc.pfx := by
  unfold scanField at hok
  split at hok
  · cases hok
  · split at hok <;> simp only [Except.ok.injEq] at hok <;> rw [← hok]

theorem scanFields_pfx (addr : Nat) (val : Record) (fm : FieldMap) (acc acc1 : ScanAcc)
    (hok : scanFields addr val fm acc = .ok acc1) : acc1.pfx = acc.pfx := by
  induction fm generalizing acc with
  | nil =>
    simp only [scanFields, Except.ok.injEq] at hok
    rw [hok]
  | cons e rest ih =>
    simp only [scanFields] at hok
    split at hok
    · rename_i acc2 hstep
      rw [ih acc2 hok, scanField_pfx addr val acc acc2 e hstep]
    · cases hok

theorem scanFields_append (addr : Nat) (val : Record) (fm1 fm2 : FieldMap)
    (acc acc2 : ScanAcc) (hok : scanFields addr val (fm1 ++ fm2) acc = .ok acc2) :
    ∃ acc1, scanFields addr val fm1 acc = .ok acc1 ∧ scanFields addr val fm2 acc1 = .ok acc2 := by
  induction fm1 generalizing acc with
  | nil => exact ⟨acc, rfl, hok⟩
  | cons e rest ih =>
    simp only [List.cons_append, scanFields] at hok ⊢
    split at hok
    · rename_i acc3 hstep
      exact ih acc3 hok
    · cases hok

theorem scanArgs_append (sqlToGoFields : Resolver) (heap : List Record) (xs ys : List Arg)
    (acc final : ScanAcc)
    (hok : scanArgs sqlToGoFields heap (xs ++ ys) acc = .ok (.ok final)) :
    ∃ mid, scanArgs sqlToGoFields heap xs acc = .ok (.ok mid) ∧
      scanArgs sqlToGoFields heap ys mid = .ok (.ok final) := by
  induction xs generalizing acc with
  | nil => exact ⟨acc, rfl, hok⟩
  | cons x rest ih =>
    cases x with
    | str s =>
      simp only [List.cons_append, scanArgs] at hok ⊢
      exact ih _ hok
    | ref addr =>
      simp only [List.cons_append, scanArgs] at hok ⊢
      split at hok
      · cases hok
      · rename_i val hval
        split at hok
        · cases hok
        · rename_i fm hfm
          split at hok
          · cases hok
          · exact ih _ hok

theorem scanArgs_pfx (sqlToGoFields : Resolver) (heap : List Record) (xs : List Arg)
    (acc mid : ScanAcc) (hok : scanArgs sqlToGoFields heap xs acc = .ok (.ok mid)) :
    mid.pfx = pfxAfter acc.pfx xs := by
  induction xs generalizing acc with
  | nil =>
    simp only [scanArgs, Except.ok.injEq] at hok
    rw [← hok]
    rfl
  | cons x rest ih =>
    cases x with
    | str s =>
      simp only [scanArgs] at hok
      rw [ih _ hok]
      rfl
    | ref addr =>
      simp only [scanArgs] at hok
      split at hok
      · cases hok
      · split at hok
        · cases hok
        · split at hok
          · cases hok
          · rw [ih _ hok]
            rfl

theorem pfxAfter_getLast (p : String) (xs : List Arg) :
    pfxAfter p xs =
      match xs.getLast? with
      | some (.str s) => s
      | some (.ref _) => ""
      | none => p := by
  induction xs generalizing p with
  | nil => rfl
  | cons x rest ih =>
    cases rest with
    | nil => cases x <;> rfl
    | cons y more =>
      have hlast : (x :: y :: more).getLast? = (y :: more).getLast? := by
        simp [List.getLast?_cons_cons]
      have hne : (y :: more).getLast? ≠ none := by simp
      rw [hlast]
      cases x with
      | str s =>
        show pfxAfter s (y :: more) = _
        rw [ih s]
        cases hl : (y :: more).getLast? with
        | none => exact absurd hl hne
        | some z => cases z <;> rfl
      | ref a =>
        show pfxAfter "" (y :: more) = _
        rw [ih ""]
        cases hl : (y :: more).getLast? with
        | none => exact absurd hl hne
        | some z => cases z <;> rfl

theorem pfxAfter_empty (xs : List Arg) : pfxAfter "" xs = precedingPrefix xs := by
  rw [pfxAfter_getLast, precedingPrefix]
  cases xs.getLast? with
  | none => rfl
  | some x => cases x <;> rfl

theorem mapGet_mapSet_self {α β : Type} [DecidableEq α] (k : α) (v : β) (m : List (α × β)) :
    mapGet k (mapSet k v m) = some v := by
  simp [mapSet, mapGet]

/-- C12, as amended: when the argument loop of `Scan` gets through its
arguments, the entry for column `c` of a struct argument is registered, at its
turn, under the key `p ++ c` with the address of its field when the field's
type takes no holder (every non-optional scalar, and every pointer whose
element is not an 8/16/32/64-bit integer, a 32/64-bit float, a boolean or a
string, such as a pointer to a plain `int`), and under `c` alone with a fresh
holder when the field is a pointer to an 8/16/32/64-bit integer, a 32/64-bit
float, a boolean or a string; `p` is the string
argument placed immediately before the struct argument, and the empty string
when the argument before it is another struct or there is none. A string
argument changes nothing but the active prefix. -/
theorem scan_registration_keys (sqlToGoFields : Resolver) (heap : List Record)
    (before after : List Arg) (addr : Nat) (val : Record) (fm fm1 fm2 : FieldMap)
    (e : String × FieldMeta) (f : Field)
    (hargs : ∃ final, scanArgs sqlToGoFields heap (before ++ Arg.ref addr :: after)
      ScanAcc.init = .ok (.ok final))
    (hval : heap[addr]? = some val) (hfm : sqlToGoFields val.typeName = .ok fm)
    (hsplit : fm = fm1 ++ e :: fm2) (hf : val.fieldByName e.2.GoName = some f) :
    (∃ s0 s1 s2,
      scanArgs sqlToGoFields heap before ScanAcc.init = .ok (.ok s0) ∧
      scanFields addr val fm1 s0 = .ok s1 ∧
      scanField addr val s1 e = .ok s2 ∧
      s1.pfx = precedingPrefix before ∧
      (f.ty.nullKind = none →
        s2.writeBackMap =
          mapSet (precedingPrefix before ++ e.1) (Target.field addr e.2.GoName)
            s1.writeBackMap ∧
        mapGet (precedingPrefix before ++ e.1) s2.writeBackMap =
          some (Target.field addr e.2.GoName)) ∧
      (f.ty.nullKind ≠ none →
        s2.writeBackMap = mapSet e.1 (Target.holder s1.holders.length) s1.writeBackMap ∧
        mapGet e.1 s2.writeBackMap = some (Target.holder s1.holders.length))) ∧
    (∀ s rest acc,
      scanArgs sqlToGoFields heap (Arg.str s :: rest) acc =
        scanArgs sqlToGoFields heap rest { acc with pfx := s }) := by
  refine ⟨?_, fun _ _ _ => rfl⟩
  obtain ⟨final, hfinal⟩ := hargs
  obtain ⟨s0, hs0, hrest⟩ := scanArgs_append sqlToGoFields heap before _ _ final hfinal
  have hpfx0 : s0.pfx = precedingPrefix before := by
    rw [scanArgs_pfx sqlToGoFields heap before _ s0 hs0]
    exact pfxAfter_empty before
  simp only [scanArgs, hval, hfm] at hrest
  split at hrest
  · cases hrest
  · rename_i sF hsF
    rw [hsplit] at hsF
    obtain ⟨s1, hs1, hstep⟩ := scanFields_append addr val fm1 (e :: fm2) s0 sF hsF
    simp only [scanFields] at hstep
    split at hstep
    · rename_i s2 hs2
      have hpfx1 : s1.pfx = precedingPrefix before := by
        rw [scanFields_pfx addr val fm1 s0 s1 hs1, hpfx0]
      refine ⟨s0, s1, s2, hs0, hs1, hs2, hpfx1, ?_, ?_⟩
      · intro hkind
        have hwb : s2.writeBackMap =
            mapSet (precedingPrefix before ++ e.1) (Target.field addr e.2.GoName)
              s1.writeBackMap := by
          simp only [scanField, hf, hkind, Except.ok.injEq] at hs2
          rw [← hs2, hpfx1]
        exact ⟨hwb, by rw [hwb, mapGet_mapSet_self]⟩
      · intro hkind
        have hwb : s2.writeBackMap =
            mapSet e.1 (Target.holder s1.holders.length) s1.writeBackMap := by
          simp only [scanField, hf] at hs2
          split at hs2 <;> simp only [Except.ok.injEq] at hs2
          · rw [← hs2]
          · rw [← hs2]
          · rw [← hs2]
          · rw [← hs2]
          · rename_i hnone
            exact absurd hnone hkind
        exact ⟨hwb, by rw [hwb, mapGet_mapSet_self]⟩
    · cases hstep

/-- Witness for C12: in `Scan(rows, "p_", &a, &b)` on two structs of the example
type, `Name string` of the first is registered under `p_name` with the address
of the field, and `Age *int32` of the same struct, with the prefix `p_` still
active, under `age` alone with the first holder. -/
theorem scan_registration_keys_witness :
    (∃ s1 s2,
      scanField 0 (person "Person" 0 "" .nil) s1
          ("name", { GoName := "Name", ReadOnly := false, Unix := false }) = .ok s2 ∧
      s1.pfx = "p_" ∧
      mapGet "p_name" s2.writeBackMap = some (Target.field 0 "Name") ∧
      mapGet "name" s2.writeBackMap = none) ∧
    (∃ s1 s2,
      scanField 0 (person "Person" 0 "" .nil) s1
          ("age", { GoName := "Age", ReadOnly := false, Unix := false }) = .ok s2 ∧
      s1.pfx = "p_" ∧
      mapGet "age" s2.writeBackMap = some (Target.holder 0) ∧
      mapGet "p_age" s2.writeBackMap = none) := by
  constructor
  · obtain ⟨⟨s0, s1, s2, h0, h1, h2, hp, hd, _⟩, _⟩ :=
      scan_registration_keys exampleResolver
        [person "Person" 0 "" .nil, person "Person" 0 "" .nil] [.str "p_"] [.ref 1] 0
        (person "Person" 0 "" .nil) personFields
        [("id", { GoName := "Id", ReadOnly := true, Unix := false })]
        [("age", { GoName := "Age", ReadOnly := false, Unix := false })]
        ("name", { GoName := "Name", ReadOnly := false, Unix := false })
        ⟨"Name", .string, .str ""⟩ ⟨_, rfl⟩ rfl rfl rfl rfl
    refine ⟨s1, s2, h2, hp, (hd rfl).2, ?_⟩
    cases h0
    cases h1
    cases h2
    rfl
  · obtain ⟨⟨s0, s1, s2, h0, h1, h2, hp, _, hh⟩, _⟩ :=
      scan_registration_keys exampleResolver
        [person "Person" 0 "" .nil, person "Person" 0 "" .nil] [.str "p_"] [.ref 1] 0
        (person "Person" 0 "" .nil) personFields
        [("id", { GoName := "Id", ReadOnly := true, Unix := false }),
         ("name", { GoName := "Name", ReadOnly := false, Unix := false })]
        []
        ("age", { GoName := "Age", ReadOnly := false, Unix := false })
        ⟨"Age", .ptr .int32, .nil⟩ ⟨_, rfl⟩ rfl rfl rfl rfl
    have hreg := (hh (by decide)).2
    refine ⟨s1, s2, h2, hp, ?_, ?_⟩
    · cases h0
      cases h1
      exact hreg
    · cases h0
      cases h1
      cases h2
      rfl

/-- C12, counterexample: in `Scan(rows, "p_", &t)` the optional integer field
`N *int` of a `Tally` is registered under `p_n`, prefix included, with the
address of the field, and nothing is registered under `n`: a row whose column
`n` is SQL null leaves the field alone, a row whose column `p_n` is SQL null
resets it to nil. -/
theorem scan_int_pointer_registered_with_prefix :
    scanArgs tallyResolver [tally (.ptr (.int 5))] [.str "p_", .ref 0] ScanAcc.init =
      .ok (.ok { ScanAcc.init with writeBackMap := [("p_n", Target.field 0 "N")] }) ∧
    mapGet "n" [("p_n", Target.field 0 "N")] = none ∧
    Scan basicLib tallyResolver (oneRow ["n"] [.null]) [.str "p_", .ref 0]
        [tally (.ptr (.int 5))] =
      .ok { ret := none, heap := [tally (.ptr (.int 5))], printed := [] } ∧
    Scan basicLib tallyResolver (oneRow ["p_n"] [.null]) [.str "p_", .ref 0]
        [tally (.ptr (.int 5))] =
      .ok { ret := none, heap := [tally .nil], printed := [] } :=
  ⟨rfl, rfl, rfl, rfl⟩

/-! ### Columns without a target, fields without a column -/

theorem scanField_holders_invalid (addr : Nat) (val : Record) (acc acc1 : ScanAcc)
    (e : String × FieldMeta) (hinv : ∀ hd ∈ acc.holders, hd.valid = false)
    (hok : scanField addr val acc e = .ok acc1) : ∀ hd ∈ acc1.holders, hd.valid = false := by
  unfold scanField at hok
  split at hok
  · cases hok
  · split at hok <;> simp only [Except.ok.injEq] at hok <;> rw [← hok] <;> intro hd hmem
    · rcases List.mem_append.mp hmem with h | h
      · exact hinv hd h
      · rw [List.mem_singleton.mp h]; rfl
    · rcases List.mem_append.mp hmem with h | h
      · exact hinv hd h
      · rw [List.mem_singleton.mp h]; rfl
    · rcases List.mem_append.mp hmem with h | h
      · exact hinv hd h
      · rw [List.mem_singleton.mp h]; rfl
    · rcases List.mem_append.mp hmem with h | h
      · exact hinv hd h
      · rw [List.mem_singleton.mp h]; rfl
    · exact hinv hd hmem

theorem scanFields_holders_invalid (addr : Nat) (val : Record) (fm : FieldMap)
    (acc acc1 : ScanAcc) (hinv : ∀ hd ∈ acc.holders, hd.valid = false)
    (hok : scanFields addr val fm acc = .ok acc1) : ∀ hd ∈ acc1.holders, hd.valid = false := by
  induction fm generalizing acc with
  | nil =>
    simp only [scanFields, Except.ok.injEq] at hok
    rw [← hok]
    exact hinv
  | cons e rest ih =>
    simp only [scanFields] at hok
    split at hok
    · rename_i acc2 hstep
      exact ih acc2 (scanField_holders_invalid addr val acc acc2 e hinv hstep) hok
    · cases hok

/-- After the argument loop every holder is still invalid. -/
theorem scanArgs_holders_invalid (sqlToGoFields : Resolver) (heap : List Record)
    (args : List Arg) (acc acc1 : ScanAcc) (hinv : ∀ hd ∈ acc.holders, hd.valid = false)
    (hok : scanArgs sqlToGoFields heap args acc = .ok (.ok acc1)) :
    ∀ hd ∈ acc1.holders, hd.valid = false := by
  induction args generalizing acc with
  | nil =>
    simp only [scanArgs, Except.ok.injEq] at hok
    rw [← hok]
    exact hinv
  | cons x xs ih =>
    cases x with
    | str s =>
      simp only [scanArgs] at hok
      exact ih { acc with pfx := s } hinv hok
    | ref addr =>
      simp only [scanArgs] at hok
      split at hok
      · cases hok
      · split at hok
        · cases hok
        · split at hok
          · cases hok
          · rename_i val _ _ fm _ _ acc2 hfields
            exact ih { acc2 with pfx := "" }
              (scanFields_holders_invalid addr val fm acc acc2 hinv hfields) hok

/-- A column without a registered target is skipped by the column loop of
`rows.Scan`. -/
theorem assignColumns_filter (lib : SqlLib) (wbm : List (String × Target))
    (cr : List (String × SqlValue)) (mem : Mem) :
    assignColumns lib (writeBackTargets wbm (cr.map Prod.fst)) (cr.map Prod.snd) mem =
      assignColumns lib
        (writeBackTargets wbm ((cr.filter (fun p => (mapGet p.1 wbm).isSome)).map Prod.fst))
        ((cr.filter (fun p => (mapGet p.1 wbm).isSome)).map Prod.snd) mem := by
  induction cr generalizing mem with
  | nil => rfl
  | cons p rest ih =>
    cases hget : mapGet p.1 wbm with
    | none =>
      simp only [List.filter_cons, hget, Option.isSome_none, Bool.false_eq_true, if_false]
      rw [← ih mem]
      simp only [List.map_cons, writeBackTargets, hget, assignColumns, assignTarget]
    | some t =>
      simp only [List.filter_cons, hget, Option.isSome_some, if_true, List.map_cons,
        writeBackTargets, assignColumns]
      cases assignTarget lib t p.2 mem with
      | error er => rfl
      | ok mem1 =>
        simp only []
        exact ih mem1

/-- Result columns without a registered target can be left out of the row:
`Scan` returns the same error and leaves the same heap. -/
theorem scan_filter_columns (lib : SqlLib) (sqlToGoFields : Resolver) (args : List Arg)
    (heap : List Record) (acc : ScanAcc)
    (hargs : scanArgs sqlToGoFields heap args ScanAcc.init = .ok (.ok acc))
    (cr : List (String × SqlValue)) :
    (Scan lib sqlToGoFields (oneRow (cr.map Prod.fst) (cr.map Prod.snd)) args heap).map
        (fun r => (r.ret, r.heap)) =
      (Scan lib sqlToGoFields
          (oneRow ((cr.filter (fun p => (mapGet p.1 acc.writeBackMap).isSome)).map Prod.fst)
            ((cr.filter (fun p => (mapGet p.1 acc.writeBackMap).isSome)).map Prod.snd))
          args heap).map (fun r => (r.ret, r.heap)) := by
  have hscan : ∀ (cr1 : List (String × SqlValue)),
      (oneRow (cr1.map Prod.fst) (cr1.map Prod.snd)).scan lib
          (writeBackTargets acc.writeBackMap (cr1.map Prod.fst))
          { heap := heap, holders := acc.holders } =
        assignColumns lib (writeBackTargets acc.writeBackMap (cr1.map Prod.fst))
          (cr1.map Prod.snd) { heap := heap, holders := acc.holders } := by
    intro cr1
    simp [Rows.scan, oneRow, writeBackTargets]
  unfold Scan
  simp only [hargs]
  have hcols : ∀ (cols : List String) (row : List SqlValue),
      (oneRow cols row).getColumns = .ok cols := fun _ _ => rfl
  simp only [hcols, hscan]
  rw [← assignColumns_filter lib acc.writeBackMap cr { heap := heap, holders := acc.holders }]
  cases hres : assignColumns lib (writeBackTargets acc.writeBackMap (cr.map Prod.fst))
      (cr.map Prod.snd) { heap := heap, holders := acc.holders } with
  | mk er mem =>
    cases er with
    | some e => rfl
    | none => rfl

/-- A field is left as it was when no result column has its address, or the
holder registered for it, as target. -/
theorem scan_field_without_column (lib : SqlLib) (sqlToGoFields : Resolver) (rows : Rows)
    (args : List Arg) (heap : List Record) (acc : ScanAcc) (run : ScanRun) (a : Nat)
    (g : String)
    (hargs : scanArgs sqlToGoFields heap args ScanAcc.init = .ok (.ok acc))
    (hrun : Scan lib sqlToGoFields rows args heap = .ok run)
    (hcols : ∀ cols, rows.getColumns = .ok cols → ∀ k ∈ cols,
      mapGet k acc.writeBackMap ≠ some (Target.field a g) ∧
      ∀ h, ((a, g), h) ∈ acc.allRemap → mapGet k acc.writeBackMap ≠ some (Target.holder h)) :
    heapField run.heap a g = heapField heap a g := by
  unfold Scan at hrun
  simp only [hargs] at hrun
  split at hrun
  · simp only [Except.ok.injEq] at hrun
    rw [← hrun]
  · rename_i cols hc
    have hk := hcols cols hc
    have htarget : ∀ t ∈ writeBackTargets acc.writeBackMap cols,
        t = Target.discard ∨ ∃ k ∈ cols, mapGet k acc.writeBackMap = some t := by
      intro t ht
      simp only [writeBackTargets, List.mem_map] at ht
      obtain ⟨c, hcmem, hct⟩ := ht
      cases hget : mapGet c acc.writeBackMap with
      | none =>
        simp only [hget] at hct
        exact Or.inl hct.symm
      | some t1 =>
        simp only [hget] at hct
        exact Or.inr ⟨c, hcmem, by rw [← hct, hget]⟩
    have hdest : ∀ t ∈ writeBackTargets acc.writeBackMap cols, t ≠ Target.field a g := by
      intro t ht heq
      rcases htarget t ht with h | ⟨k, hkmem, hget⟩
      · rw [h] at heq
        cases heq
      · exact (hk k hkmem).1 (by rw [hget, heq])
    have hheap := rowsScan_heapField lib rows (writeBackTargets acc.writeBackMap cols)
      { heap := heap, holders := acc.holders } a g hdest
    have hhold : ∀ p ∈ acc.allRemap, p.1 = (a, g) →
        HolderInvalid
          (rows.scan lib (writeBackTargets acc.writeBackMap cols)
            { heap := heap, holders := acc.holders }).2.holders p.2 := by
      intro p hp hfr
      apply rowsScan_holderInvalid
      · intro hd hget
        exact scanArgs_holders_invalid sqlToGoFields heap args ScanAcc.init acc
          (by simp [ScanAcc.init]) hargs hd (List.mem_iff_getElem?.mpr ⟨_, hget⟩)
      · intro row _ q hq hholder
        exfalso
        have hq1 : q.1 ∈ writeBackTargets acc.writeBackMap cols := (List.of_mem_zip hq).1
        rcases htarget q.1 hq1 with h | ⟨k, hkmem, hget⟩
        · rw [hholder] at h
          cases h
        · refine (hk k hkmem).2 p.2 ?_ (by rw [hget, hholder])
          rw [← hfr]
          exact hp
    split at hrun
    · rename_i er mem hscan
      simp only [Except.ok.injEq] at hrun
      rw [← hrun]
      simp only [hscan] at hheap
      exact hheap
    · rename_i mem hscan
      simp only [Except.ok.injEq] at hrun
      rw [← hrun]
      simp only [hscan] at hheap hhold
      simp only []
      rw [remapStrings_heapField, remapBools_heapField, remapFloats_heapField,
        remapInts_heapField, hheap]
      · exact fun p hp => hhold p (by simp [ScanAcc.allRemap, hp])
      · exact fun p hp => hhold p (by simp [ScanAcc.allRemap, hp])
      · exact fun p hp => hhold p (by simp [ScanAcc.allRemap, hp])
      · exact fun p hp => hhold p (by simp [ScanAcc.allRemap, hp])

/-- C18: once the argument loop has built its write-back table, the target list
has one entry per result column, in result order, the entry of a column being
the target registered under its name if there is one and a throwaway holder
otherwise; assigning to a throwaway holder never fails and changes nothing, so
leaving the columns without a target out of the row changes neither the error
`Scan` returns nor the heap it leaves; and a field such that no result column
has its address or its holder as target keeps its value. -/
theorem scan_column_mismatch (lib : SqlLib) (sqlToGoFields : Resolver) (args : List Arg)
    (heap : List Record) (acc : ScanAcc)
    (hargs : scanArgs sqlToGoFields heap args ScanAcc.init = .ok (.ok acc)) :
    (∀ cols : List String,
      (writeBackTargets acc.writeBackMap cols).length = cols.length ∧
      ∀ (i : Nat) (c : String), cols[i]? = some c →
        (writeBackTargets acc.writeBackMap cols)[i]? =
          some (match mapGet c acc.writeBackMap with
                | some target => target
                | none => Target.discard)) ∧
    (∀ src mem, assignTarget lib Target.discard src mem = .ok mem) ∧
    (∀ cr : List (String × SqlValue),
      (Scan lib sqlToGoFields (oneRow (cr.map Prod.fst) (cr.map Prod.snd)) args heap).map
          (fun r => (r.ret, r.heap)) =
        (Scan lib sqlToGoFields
            (oneRow
              ((cr.filter (fun p => (mapGet p.1 acc.writeBackMap).isSome)).map Prod.fst)
              ((cr.filter (fun p => (mapGet p.1 acc.writeBackMap).isSome)).map Prod.snd))
            args heap).map (fun r => (r.ret, r.heap))) ∧
    (∀ (rows : Rows) (run : ScanRun) (a : Nat) (g : String),
      Scan lib sqlToGoFields rows args heap = .ok run →
      (∀ cols, rows.getColumns = .ok cols → ∀ k ∈ cols,
        mapGet k acc.writeBackMap ≠ some (Target.field a g) ∧
        ∀ h, ((a, g), h) ∈ acc.allRemap →
          mapGet k acc.writeBackMap ≠ some (Target.holder h)) →
      heapField run.heap a g = heapField heap a g) := by
  refine ⟨?_, ?_, ?_, ?_⟩
  · intro cols
    refine ⟨by simp [writeBackTargets], ?_⟩
    intro i c hc
    simp [writeBackTargets, List.getElem?_map, hc]
  · intro src mem
    rfl
  · exact scan_filter_columns lib sqlToGoFields args heap acc hargs
  · intro rows run a g hrun hcols
    exact scan_field_without_column lib sqlToGoFields rows args heap acc run a g hargs hrun hcols

/-- Witness for C18: the row has a column `zzz` no field maps to and lacks the
columns `id` and `age`; `Scan` returns no error, stores `name` and leaves `Id`
and `Age` as they were. -/
theorem scan_column_mismatch_witness :
    (writeBackTargets personAcc.writeBackMap ["zzz", "name"]).length = 2 ∧
    (writeBackTargets personAcc.writeBackMap ["zzz", "name"])[0]? = some Target.discard ∧
    Scan basicLib exampleResolver (oneRow ["zzz", "name"] [.int 1, .str "Bob"]) [.ref 0]
        [person "Person" 3 "Ann" (.ptr (.int 30))] =
      .ok { ret := none, heap := [person "Person" 3 "Bob" (.ptr (.int 30))], printed := [] } :=
  ⟨((scan_column_mismatch basicLib exampleResolver [.ref 0]
        [person "Person" 3 "Ann" (.ptr (.int 30))] personAcc rfl).1 ["zzz", "name"]).1,
   rfl, rfl⟩

/-! ### One struct argument, no prefix: what the argument loop registers -/

theorem mapGet_filter_ne {α β : Type} [DecidableEq α] {k k1 : α} (m : List (α × β))
    (h : k ≠ k1) : mapGet k (m.filter (fun p => decide (p.1 ≠ k1))) = mapGet k m := by
  induction m with
  | nil => rfl
  | cons p rest ih =>
    rw [List.filter_cons]
    by_cases hp : p.1 = k1
    · have hpk : ¬ p.1 = k := fun h1 => h (h1.symm.trans hp)
      have hd : decide (p.1 ≠ k1) = false := by simp [hp]
      rw [hd]
      simp only [Bool.false_eq_true, if_false, mapGet, hpk]
      exact ih
    · have hd : decide (p.1 ≠ k1) = true := by simp [hp]
      rw [hd]
      simp only [if_true, mapGet]
      rw [ih]

theorem mapGet_mapSet_ne {α β : Type} [DecidableEq α] {k k1 : α} (v : β) (m : List (α × β))
    (h : k ≠ k1) : mapGet k (mapSet k1 v m) = mapGet k m := by
  have hne : ¬ k1 = k := fun h1 => h h1.symm
  simp only [mapSet, mapGet, hne, if_false]
  exact mapGet_filter_ne m h

theorem mapSet_keys_nodup {α β : Type} [DecidableEq α] (k : α) (v : β) (m : List (α × β))
    (h : (m.map Prod.fst).Nodup) : ((mapSet k v m).map Prod.fst).Nodup := by
  simp only [mapSet, List.map_cons, List.nodup_cons]
  constructor
  · intro hmem
    obtain ⟨p, hp, hpk⟩ := List.mem_map.mp hmem
    have := (List.mem_filter.mp hp).2
    simp [hpk] at this
  · exact (List.filter_sublist _).map Prod.fst |>.nodup h

/-- The step of the inner loop for a field of a holder family. -/
theorem scanField_holder (addr : Nat) (val : Record) (acc : ScanAcc)
    (e : String × FieldMeta) (f : Field) (k : NullKind)
    (hf : val.fieldByName e.2.GoName = some f) (hk : f.ty.nullKind = some k) :
    ∃ acc1, scanField addr val acc e = .ok acc1 ∧ acc1.pfx = acc.pfx ∧
      acc1.holders = acc.holders ++ [Holder.fresh k] ∧
      acc1.writeBackMap = mapSet e.1 (Target.holder acc.holders.length) acc.writeBackMap ∧
      acc1.remapOf k = mapSet (addr, e.2.GoName) acc.holders.length (acc.remapOf k) ∧
      ∀ k1, k1 ≠ k → acc1.remapOf k1 = acc.remapOf k1 := by
  unfold scanField
  rw [hf]
  simp only [hk]
  cases k <;> refine ⟨_, rfl, rfl, rfl, rfl, rfl, ?_⟩ <;> intro k1 hk1 <;> cases k1 <;>
    first
      | rfl
      | exact absurd rfl hk1

/-- The step of the inner loop for a field of any other type. -/
theorem scanField_direct (addr : Nat) (val : Record) (acc : ScanAcc)
    (e : String × FieldMeta) (f : Field)
    (hf : val.fieldByName e.2.GoName = some f) (hk : f.ty.nullKind = none) :
    scanField addr val acc e = .ok
      { acc with
        writeBackMap :=
          mapSet (acc.pfx ++ e.1) (Target.field addr e.2.GoName) acc.writeBackMap } := by
  unfold scanField
  rw [hf]
  simp only [hk]

theorem registered_of_eq {a : Nat} {val : Record} {acc acc1 : ScanAcc}
    {e : String × FieldMeta} (hreg : Registered a val acc e)
    (hwbm : mapGet e.1 acc1.writeBackMap = mapGet e.1 acc.writeBackMap)
    (hremap : ∀ k, mapGet (a, e.2.GoName) (acc1.remapOf k) =
      mapGet (a, e.2.GoName) (acc.remapOf k))
    (hholders : ∀ (h : Nat) (hd : Holder), acc.holders[h]? = some hd →
      acc1.holders[h]? = some hd) :
    Registered a val acc1 e := by
  obtain ⟨f, hf, hmatch⟩ := hreg
  refine ⟨f, hf, ?_⟩
  cases hk : f.ty.nullKind with
  | none =>
    simp only [hk] at hmatch ⊢
    rw [hwbm]
    exact hmatch
  | some k =>
    simp only [hk] at hmatch ⊢
    obtain ⟨h, h1, h2, h3⟩ := hmatch
    exact ⟨h, by rw [hwbm]; exact h1, by rw [hremap]; exact h2, hholders h _ h3⟩

theorem getElem?_append_some {α : Type} (l1 l2 : List α) (h : Nat) (x : α)
    (hx : l1[h]? = some x) : (l1 ++ l2)[h]? = some x := by
  have hlt : h < l1.length := by
    rcases List.getElem?_eq_some_iff.mp hx with ⟨hlt, _⟩
    exact hlt
  rw [List.getElem?_append_left hlt]
  exact hx

/-- One step of the inner loop keeps the single-struct invariant. -/
theorem scanField_oneInv (a : Nat) (val : Record) (done : FieldMap) (acc : ScanAcc)
    (e : String × FieldMeta) (hinv : OneInv a val done acc) (hpfx : acc.pfx = "")
    (hkey : ∀ d ∈ done, d.1 ≠ e.1) (hname : ∀ d ∈ done, d.2.GoName ≠ e.2.GoName)
    (hres : (val.fieldByName e.2.GoName).isSome = true) :
    ∃ acc1, scanField a val acc e = .ok acc1 ∧ OneInv a val (done ++ [e]) acc1 ∧
      acc1.pfx = "" := by
  cases hf : val.fieldByName e.2.GoName with
  | none => simp [hf] at hres
  | some f =>
    cases hk : f.ty.nullKind with
    | none =>
      refine ⟨_, scanField_direct a val acc e f hf hk, ?_, hpfx⟩
      rw [hpfx, String.empty_append]
      constructor
      · intro d hd
        rcases List.mem_append.mp hd with hd1 | hd1
        · refine registered_of_eq (hinv.reg d hd1) ?_ ?_ ?_
          · exact mapGet_mapSet_ne _ _ (hkey d hd1)
          · intro k
            cases k <;> rfl
          · exact fun _ _ hh => hh
        · rw [List.mem_singleton.mp hd1]
          refine ⟨f, hf, ?_⟩
          simp only [hk]
          exact mapGet_mapSet_self _ _ _
      · intro k t hget
        by_cases hke : k = e.1
        · exact ⟨e, by simp, hke.symm⟩
        · simp only [] at hget
          rw [mapGet_mapSet_ne _ _ hke] at hget
          obtain ⟨d, hd, hdk⟩ := hinv.keys k t hget
          exact ⟨d, List.mem_append_left _ hd, hdk⟩
      · intro k fr h hmem
        have hmem1 : (fr, h) ∈ acc.remapOf k := by
          cases k <;> exact hmem
        obtain ⟨d, hd, f1, h1, h2, h3⟩ := hinv.remap_origin k fr h hmem1
        exact ⟨d, List.mem_append_left _ hd, f1, h1, h2, h3⟩
      · intro k
        have := hinv.remap_nodup k
        cases k <;> exact this
      · intro k h hget
        by_cases hke : k = e.1
        · simp only [] at hget
          rw [hke, mapGet_mapSet_self] at hget
          cases hget
        · simp only [] at hget
          rw [mapGet_mapSet_ne _ _ hke] at hget
          exact hinv.wbm_lt k h hget
      · intro k1 k2 h h1 h2
        simp only [] at h1 h2
        by_cases hk1 : k1 = e.1
        · rw [hk1, mapGet_mapSet_self] at h1
          cases h1
        · by_cases hk2 : k2 = e.1
          · rw [hk2, mapGet_mapSet_self] at h2
            cases h2
          · rw [mapGet_mapSet_ne _ _ hk1] at h1
            rw [mapGet_mapSet_ne _ _ hk2] at h2
            exact hinv.holder_inj k1 k2 h h1 h2
      · exact hinv.fresh
    | some k =>
      obtain ⟨acc1, hstep, hp1, hholders, hwbm, hremap, hother⟩ :=
        scanField_holder a val acc e f k hf hk
      refine ⟨acc1, hstep, ?_, by rw [hp1, hpfx]⟩
      constructor
      · intro d hd
        rcases List.mem_append.mp hd with hd1 | hd1
        · refine registered_of_eq (hinv.reg d hd1) ?_ ?_ ?_
          · rw [hwbm]
            exact mapGet_mapSet_ne _ _ (hkey d hd1)
          · intro k1
            by_cases hk1 : k1 = k
            · rw [hk1, hremap]
              apply mapGet_mapSet_ne
              intro hcon
              exact hname d hd1 (Prod.mk.inj hcon).2
            · rw [hother k1 hk1]
          · intro h hd2 hh
            rw [hholders]
            exact getElem?_append_some _ _ h hd2 hh
        · rw [List.mem_singleton.mp hd1]
          refine ⟨f, hf, ?_⟩
          simp only [hk]
          refine ⟨acc.holders.length, ?_, ?_, ?_⟩
          · rw [hwbm]
            exact mapGet_mapSet_self _ _ _
          · rw [hremap]
            exact mapGet_mapSet_self _ _ _
          · rw [hholders]
            simp
      · intro k1 t hget
        by_cases hke : k1 = e.1
        · exact ⟨e, by simp, hke.symm⟩
        · rw [hwbm, mapGet_mapSet_ne _ _ hke] at hget
          obtain ⟨d, hd, hdk⟩ := hinv.keys k1 t hget
          exact ⟨d, List.mem_append_left _ hd, hdk⟩
      · intro k1 fr h hmem
        by_cases hk1 : k1 = k
        · rw [hk1, hremap] at hmem
          rcases mem_mapSet hmem with h1 | h1
          · refine ⟨e, by simp, f, (Prod.mk.inj h1).1, hf, ?_⟩
            rw [hk1]
            exact hk
          · obtain ⟨d, hd, f1, h2, h3, h4⟩ := hinv.remap_origin k fr h h1
            refine ⟨d, List.mem_append_left _ hd, f1, h2, h3, ?_⟩
            rw [hk1]
            exact h4
        · rw [hother k1 hk1] at hmem
          obtain ⟨d, hd, f1, h2, h3, h4⟩ := hinv.remap_origin k1 fr h hmem
          exact ⟨d, List.mem_append_left _ hd, f1, h2, h3, h4⟩
      · intro k1
        by_cases hk1 : k1 = k
        · rw [hk1, hremap]
          exact mapSet_keys_nodup _ _ _ (hinv.remap_nodup k)
        · rw [hother k1 hk1]
          exact hinv.remap_nodup k1
      · intro k1 h hget
        rw [hholders, List.length_append, List.length_singleton]
        by_cases hke : k1 = e.1
        · rw [hwbm, hke, mapGet_mapSet_self] at hget
          cases hget
          exact Nat.lt_succ_self _
        · rw [hwbm, mapGet_mapSet_ne _ _ hke] at hget
          exact Nat.lt_succ_of_lt (hinv.wbm_lt k1 h hget)
      · intro k1 k2 h h1 h2
        rw [hwbm] at h1 h2
        by_cases hk1 : k1 = e.1
        · by_cases hk2 : k2 = e.1
          · rw [hk1, hk2]
          · rw [hk1, mapGet_mapSet_self] at h1
            rw [mapGet_mapSet_ne _ _ hk2] at h2
            cases h1
            exact absurd (hinv.wbm_lt k2 _ h2) (Nat.lt_irrefl _)
        · by_cases hk2 : k2 = e.1
          · rw [hk2, mapGet_mapSet_self] at h2
            rw [mapGet_mapSet_ne _ _ hk1] at h1
            cases h2
            exact absurd (hinv.wbm_lt k1 _ h1) (Nat.lt_irrefl _)
          · rw [mapGet_mapSet_ne _ _ hk1] at h1
            rw [mapGet_mapSet_ne _ _ hk2] at h2
            exact hinv.holder_inj k1 k2 h h1 h2
      · intro h hd hget
        rw [hholders] at hget
        by_cases hlt : h < acc.holders.length
        · rw [List.getElem?_append_left hlt] at hget
          exact hinv.fresh h hd hget
        · rw [List.getElem?_append_right (Nat.le_of_not_lt hlt)] at hget
          have hmem : hd ∈ [Holder.fresh k] := List.mem_iff_getElem?.mpr ⟨_, hget⟩
          exact ⟨k, List.mem_singleton.mp hmem⟩

theorem oneInv_init (a : Nat) (val : Record) : OneInv a val [] ScanAcc.init := by
  constructor
  · intro e he
    cases he
  · intro k t h
    simp [ScanAcc.init, mapGet] at h
  · intro k fr h hmem
    cases k <;> simp [ScanAcc.init, ScanAcc.remapOf] at hmem
  · intro k
    cases k <;> simp [ScanAcc.init, ScanAcc.remapOf]
  · intro k h hget
    simp [ScanAcc.init, mapGet] at hget
  · intro k1 k2 h h1
    simp [ScanAcc.init, mapGet] at h1
  · intro h hd hget
    simp [ScanAcc.init] at hget

/-- The inner loop over a field map with unique column names and unique field
names, with no prefix, registers every entry. -/
theorem scanFields_oneInv (a : Nat) (val : Record) (todo done : FieldMap) (acc : ScanAcc)
    (hinv : OneInv a val done acc) (hpfx : acc.pfx = "")
    (hkeys : ((done ++ todo).map Prod.fst).Nodup)
    (hnames : ((done ++ todo).map (fun e => e.2.GoName)).Nodup)
    (hres : ∀ e ∈ todo, (val.fieldByName e.2.GoName).isSome = true) :
    ∃ acc1, scanFields a val todo acc = .ok acc1 ∧ OneInv a val (done ++ todo) acc1 ∧
      acc1.pfx = "" := by
  induction todo generalizing done acc with
  | nil =>
    rw [List.append_nil]
    exact ⟨acc, rfl, hinv, hpfx⟩
  | cons e rest ih =>
    have hkey : ∀ d ∈ done, d.1 ≠ e.1 := by
      intro d hd heq
      rw [List.map_append, List.nodup_append] at hkeys
      exact hkeys.2.2 (List.mem_map.mpr ⟨d, hd, rfl⟩)
        (List.mem_map.mpr ⟨e, List.mem_cons_self _ _, heq.symm⟩)
    have hname : ∀ d ∈ done, d.2.GoName ≠ e.2.GoName := by
      intro d hd heq
      rw [List.map_append, List.nodup_append] at hnames
      exact hnames.2.2 (List.mem_map.mpr ⟨d, hd, rfl⟩)
        (List.mem_map.mpr ⟨e, List.mem_cons_self _ _, heq.symm⟩)
    obtain ⟨acc1, hstep, hinv1, hpfx1⟩ := scanField_oneInv a val done acc e hinv hpfx hkey hname
      (hres e (List.mem_cons_self _ _))
    have happ : done ++ e :: rest = (done ++ [e]) ++ rest := by simp
    rw [happ] at hkeys hnames ⊢
    obtain ⟨acc2, hloop, hinv2, hpfx2⟩ := ih (done ++ [e]) acc1 hinv1 hpfx1 hkeys hnames
      (fun x hx => hres x (List.mem_cons_of_mem _ hx))
    refine ⟨acc2, ?_, hinv2, hpfx2⟩
    simp only [scanFields, hstep]
    exact hloop

/-- The argument loop of `Scan` on one pointer to a struct registers every entry
of its field map. -/
theorem scanArgs_one (sqlToGoFields : Resolver) (heap : List Record) (a : Nat) (val : Record)
    (fm : FieldMap) (hval : heap[a]? = some val) (hfm : sqlToGoFields val.typeName = .ok fm)
    (hkeys : (fm.map Prod.fst).Nodup) (hnames : (fm.map (fun e => e.2.GoName)).Nodup)
    (hres : ∀ e ∈ fm, (val.fieldByName e.2.GoName).isSome = true) :
    ∃ acc, scanArgs sqlToGoFields heap [Arg.ref a] ScanAcc.init = .ok (.ok acc) ∧
      OneInv a val fm acc := by
  obtain ⟨acc1, hloop, hinv, hpfx⟩ := scanFields_oneInv a val fm [] ScanAcc.init
    (oneInv_init a val) rfl (by simpa using hkeys) (by simpa using hnames) hres
  have heq : ({ acc1 with pfx := "" } : ScanAcc) = acc1 := by
    cases acc1
    simp only [] at hpfx
    subst hpfx
    rfl
  refine ⟨acc1, ?_, by simpa using hinv⟩
  simp only [scanArgs, hval, hfm, hloop, heq]

/-! ### Assignments: what they keep and what they store -/

theorem setFieldVal_shape (g : String) (v : Value) (fs : List Field) :
    (setFieldVal g v fs).map (fun f => (f.name, f.ty)) = fs.map (fun f => (f.name, f.ty)) := by
  induction fs with
  | nil => rfl
  | cons f rest ih =>
    unfold setFieldVal
    split
    · rfl
    · simp only [List.map_cons, ih]

theorem heapSet_shape (heap : List Record) (a : Nat) (g : String) (v : Value) :
    (heapSet heap a g v).map Record.shape = heap.map Record.shape := by
  unfold heapSet
  cases hr : heap[a]? with
  | none => rfl
  | some r =>
    simp only []
    apply List.ext_getElem?
    intro i
    rw [List.getElem?_map, List.getElem?_map]
    by_cases hi : a = i
    · subst hi
      have hlt : a < heap.length := by
        rcases List.getElem?_eq_some_iff.mp hr with ⟨hlt, _⟩
        exact hlt
      rw [List.getElem?_set_self hlt, hr]
      simp only [Option.map_some', Record.shape, setFieldVal_shape]
    · rw [List.getElem?_set_ne hi]

theorem find_setFieldVal_self (g : String) (v : Value) (fs : List Field) (f : Field)
    (h : fs.find? (fun x => decide (x.name = g)) = some f) :
    (setFieldVal g v fs).find? (fun x => decide (x.name = g)) = some { f with val := v } := by
  induction fs with
  | nil => simp at h
  | cons x rest ih =>
    unfold setFieldVal
    by_cases hx : x.name = g
    · simp only [List.find?_cons, hx, decide_True, Option.some.injEq] at h
      subst h
      simp [List.find?_cons, hx]
    · simp only [hx, if_false, List.find?_cons, decide_False]
      simp only [List.find?_cons, hx, decide_False] at h
      exact ih h

theorem heapField_heapSet_self (heap : List Record) (a : Nat) (g : String) (v : Value)
    (f : Field) (h : heapField heap a g = some f) :
    heapField (heapSet heap a g v) a g = some { f with val := v } := by
  unfold heapField at h
  unfold heapSet
  cases hr : heap[a]? with
  | none => simp [hr] at h
  | some r =>
    simp only [hr] at h
    simp only []
    unfold heapField
    have hlt : a < heap.length := by
      rcases List.getElem?_eq_some_iff.mp hr with ⟨hlt, _⟩
      exact hlt
    rw [List.getElem?_set_self hlt]
    simp only [Record.fieldByName] at h ⊢
    exact find_setFieldVal_self g v r.fields f h

theorem fieldType_of_shape (g : String) (l1 l2 : List Field)
    (h : l1.map (fun f => (f.name, f.ty)) = l2.map (fun f => (f.name, f.ty))) :
    (l1.find? (fun x => decide (x.name = g))).map (fun f => f.ty) =
      (l2.find? (fun x => decide (x.name = g))).map (fun f => f.ty) := by
  induction l1 generalizing l2 with
  | nil =>
    cases l2 with
    | nil => rfl
    | cons y ys => simp at h
  | cons x xs ih =>
    cases l2 with
    | nil => simp at h
    | cons y ys =>
      simp only [List.map_cons, List.cons.injEq, Prod.mk.injEq] at h
      obtain ⟨⟨hn, ht⟩, hrest⟩ := h
      by_cases hx : x.name = g
      · have hy : y.name = g := by rw [← hn]; exact hx
        simp [List.find?_cons, hx, hy, ht]
      · have hy : ¬ y.name = g := by rw [← hn]; exact hx
        simp only [List.find?_cons, hx, hy, decide_False]
        exact ih ys hrest

theorem heapFieldType_of_shape (heap1 heap2 : List Record) (a : Nat) (g : String)
    (h : heap1.map Record.shape = heap2.map Record.shape) :
    heapFieldType heap1 a g = heapFieldType heap2 a g := by
  have hget : (heap1[a]?).map Record.shape = (heap2[a]?).map Record.shape := by
    rw [← List.getElem?_map, ← List.getElem?_map, h]
  have hty : ∀ hp : List Record, heapFieldType hp a g =
      (hp[a]?).bind (fun r => (r.fields.find? (fun x => decide (x.name = g))).map
        (fun f => f.ty)) := by
    intro hp
    unfold heapFieldType heapField Record.fieldByName
    cases hp[a]? with
    | none => rfl
    | some r =>
      simp only [Option.some_bind]
      cases r.fields.find? (fun x => decide (x.name = g)) <;> rfl
  rw [hty heap1, hty heap2]
  cases h1 : heap1[a]? with
  | none =>
    cases h2 : heap2[a]? with
    | none => rfl
    | some r2 => simp [h1, h2] at hget
  | some r1 =>
    cases h2 : heap2[a]? with
    | none => simp [h1, h2] at hget
    | some r2 =>
      simp only [h1, h2, Option.map_some', Option.some.injEq, Record.shape,
        Prod.mk.injEq] at hget
      simp only [Option.some_bind]
      exact fieldType_of_shape g r1.fields r2.fields hget.2

theorem holder_scan_kind (lib : SqlLib) (old new : Holder) (src : SqlValue)
    (h : old.scan lib src = .ok new) : new.kind = old.kind := by
  cases old <;> cases src <;> simp only [Holder.scan] at h <;>
    first
      | (cases h; rfl)
      | (simp only [Except.map] at h
         split at h
         · cases h
         · cases h; rfl)

theorem holder_scan_of_kind (lib : SqlLib) (old1 old2 : Holder) (src : SqlValue)
    (h : old1.kind = old2.kind) : old1.scan lib src = old2.scan lib src := by
  cases old1 <;> cases old2 <;> first
    | (cases src <;> rfl)
    | (simp only [Holder.kind] at h; cases h)

theorem assignTarget_shape (lib : SqlLib) (t : Target) (src : SqlValue) (mem mem1 : Mem)
    (hok : assignTarget lib t src mem = .ok mem1) : mem1.shape = mem.shape := by
  cases t with
  | discard =>
    simp only [assignTarget, Except.ok.injEq] at hok
    rw [← hok]
  | holder h =>
    simp only [assignTarget] at hok
    split at hok
    · simp only [Except.ok.injEq] at hok
      rw [← hok]
    · rename_i old hold
      split at hok
      · rename_i new hnew
        simp only [Except.ok.injEq] at hok
        rw [← hok]
        simp only [Mem.shape, Prod.mk.injEq, true_and]
        apply List.ext_getElem?
        intro i
        rw [List.getElem?_map, List.getElem?_map]
        by_cases hi : h = i
        · subst hi
          have hlt : h < mem.holders.length := by
            rcases List.getElem?_eq_some_iff.mp hold with ⟨hlt, _⟩
            exact hlt
          rw [List.getElem?_set_self hlt, hold]
          simp only [Option.map_some', holder_scan_kind lib old new src hnew]
        · rw [List.getElem?_set_ne hi]
      · cases hok
  | field addr goName =>
    simp only [assignTarget] at hok
    split at hok
    · simp only [Except.ok.injEq] at hok
      rw [← hok]
    · split at hok
      · simp only [Except.ok.injEq] at hok
        rw [← hok]
        simp only [Mem.shape, heapSet_shape]
      · cases hok

theorem heapField_of_type {heap : List Record} {a : Nat} {g : String} {ty : GoType}
    (h : heapFieldType heap a g = some ty) : ∃ f, heapField heap a g = some f ∧ f.ty = ty := by
  unfold heapFieldType at h
  cases hf : heapField heap a g with
  | none => simp [hf] at h
  | some f =>
    simp only [hf, Option.some.injEq] at h
    exact ⟨f, rfl, h⟩

/-- Whether an assignment succeeds depends on the types in the memory only. -/
theorem canAssign_shape (lib : SqlLib) (mem mem1 : Mem) (t : Target) (src : SqlValue)
    (hshape : mem1.shape = mem.shape) (h : CanAssign lib mem t src) :
    CanAssign lib mem1 t src := by
  obtain ⟨res, hres⟩ := h
  simp only [Mem.shape, Prod.mk.injEq] at hshape
  cases t with
  | discard => exact ⟨mem1, rfl⟩
  | holder h =>
    unfold CanAssign
    simp only [assignTarget] at hres ⊢
    have hk : (mem1.holders[h]?).map Holder.kind = (mem.holders[h]?).map Holder.kind := by
      rw [← List.getElem?_map, ← List.getElem?_map, hshape.2]
    cases h1 : mem1.holders[h]? with
    | none => exact ⟨_, rfl⟩
    | some old1 =>
      cases h0 : mem.holders[h]? with
      | none => simp [h1, h0] at hk
      | some old =>
        simp only [h1, h0, Option.map_some', Option.some.injEq] at hk
        simp only [h0] at hres
        dsimp only
        rw [holder_scan_of_kind lib old1 old src hk]
        cases hnew : old.scan lib src with
        | ok new => exact ⟨_, rfl⟩
        | error er =>
          rw [hnew] at hres
          cases hres
  | field addr goName =>
    unfold CanAssign
    simp only [assignTarget] at hres ⊢
    have hty := heapFieldType_of_shape mem1.heap mem.heap addr goName hshape.1
    cases h1 : heapField mem1.heap addr goName with
    | none => exact ⟨_, rfl⟩
    | some f1 =>
      have ht1 : heapFieldType mem1.heap addr goName = some f1.ty := by
        simp only [heapFieldType, h1]
      rw [ht1] at hty
      obtain ⟨f0, hf0, hf0ty⟩ := heapField_of_type hty.symm
      simp only [hf0, hf0ty] at hres
      dsimp only
      cases hv : lib.assignField f1.ty src with
      | ok v => exact ⟨_, rfl⟩
      | error er =>
        rw [hv] at hres
        cases hres

/-- When every column's assignment can be made, `rows.Scan` reports no error. -/
theorem assignColumns_ok (lib : SqlLib) (ts : List Target) (srcs : List SqlValue) (mem : Mem)
    (h : ∀ p ∈ ts.zip srcs, CanAssign lib mem p.1 p.2) :
    (assignColumns lib ts srcs mem).1 = none ∧
    (assignColumns lib ts srcs mem).2.shape = mem.shape := by
  induction ts generalizing srcs mem with
  | nil => exact ⟨rfl, rfl⟩
  | cons t rest ih =>
    cases srcs with
    | nil => exact ⟨rfl, rfl⟩
    | cons src more =>
      obtain ⟨mem1, hmem1⟩ := h (t, src) (by simp)
      have hshape := assignTarget_shape lib t src mem mem1 hmem1
      simp only [assignColumns, hmem1]
      have hrest := ih more mem1 (fun p hp =>
        canAssign_shape lib mem mem1 p.1 p.2 hshape (h p (by simp [hp])))
      exact ⟨hrest.1, by rw [hrest.2, hshape]⟩

theorem assignTarget_holder_frame (lib : SqlLib) (t : Target) (src : SqlValue)
    (mem mem1 : Mem) (h : Nat) (ht : t ≠ Target.holder h)
    (hok : assignTarget lib t src mem = .ok mem1) : mem1.holders[h]? = mem.holders[h]? := by
  cases t with
  | discard =>
    simp only [assignTarget, Except.ok.injEq] at hok
    rw [← hok]
  | field addr goName =>
    simp only [assignTarget] at hok
    split at hok
    · simp only [Except.ok.injEq] at hok
      rw [← hok]
    · split at hok
      · simp only [Except.ok.injEq] at hok
        rw [← hok]
      · cases hok
  | holder h1 =>
    have hne : h1 ≠ h := fun hcon => ht (by rw [hcon])
    simp only [assignTarget] at hok
    split at hok
    · simp only [Except.ok.injEq] at hok
      rw [← hok]
    · split at hok
      · simp only [Except.ok.injEq] at hok
        rw [← hok]
        exact List.getElem?_set_ne hne
      · cases hok

theorem assignColumns_holder_frame (lib : SqlLib) (h : Nat) (ts : List Target)
    (srcs : List SqlValue) (mem : Mem) (hts : ∀ t ∈ ts, t ≠ Target.holder h) :
    (assignColumns lib ts srcs mem).2.holders[h]? = mem.holders[h]? := by
  induction ts generalizing srcs mem with
  | nil => simp [assignColumns]
  | cons t rest ih =>
    cases srcs with
    | nil => simp [assignColumns]
    | cons src more =>
      simp only [assignColumns]
      cases hok : assignTarget lib t src mem with
      | error er => rfl
      | ok mem1 =>
        simp only []
        rw [ih more mem1 (fun x hx => hts x (List.mem_cons_of_mem _ hx))]
        exact assignTarget_holder_frame lib t src mem mem1 h (hts t (List.mem_cons_self _ _)) hok

/-- The holder that is the target of exactly one column ends up as its `Scan`
method leaves it on that column's value. -/
theorem assignColumns_holder_at (lib : SqlLib) (h : Nat) (ts : List Target)
    (srcs : List SqlValue) (mem mem1 : Mem) (i : Nat) (src : SqlValue) (old : Holder)
    (hts : ts[i]? = some (Target.holder h)) (hsrc : srcs[i]? = some src)
    (hother : ∀ j, j ≠ i → ts[j]? ≠ some (Target.holder h))
    (hold : mem.holders[h]? = some old)
    (hok : assignColumns lib ts srcs mem = (none, mem1)) :
    ∃ new, old.scan lib src = .ok new ∧ mem1.holders[h]? = some new := by
  induction ts generalizing srcs mem i with
  | nil => simp at hts
  | cons t rest ih =>
    cases srcs with
    | nil => simp at hsrc
    | cons s0 more =>
      simp only [assignColumns] at hok
      cases hstep : assignTarget lib t s0 mem with
      | error er =>
        rw [hstep] at hok
        cases hok
      | ok mem2 =>
        rw [hstep] at hok
        simp only [] at hok
        cases i with
        | zero =>
          simp only [List.getElem?_cons_zero, Option.some.injEq] at hts hsrc
          subst hts
          subst hsrc
          simp only [assignTarget, hold] at hstep
          cases hnew : old.scan lib s0 with
          | error er =>
            rw [hnew] at hstep
            cases hstep
          | ok new =>
            rw [hnew] at hstep
            simp only [Except.ok.injEq] at hstep
            refine ⟨new, rfl, ?_⟩
            have hrest : ∀ t ∈ rest, t ≠ Target.holder h := by
              intro t ht heq
              obtain ⟨j, hj⟩ := List.mem_iff_getElem?.mp ht
              apply hother (j + 1) (Nat.succ_ne_zero j)
              rw [List.getElem?_cons_succ, hj, heq]
            have hfr := assignColumns_holder_frame lib h rest more mem2 hrest
            rw [hok] at hfr
            rw [hfr, ← hstep]
            have hlt : h < mem.holders.length := by
              rcases List.getElem?_eq_some_iff.mp hold with ⟨hlt, _⟩
              exact hlt
            exact List.getElem?_set_self hlt
        | succ i1 =>
          simp only [List.getElem?_cons_succ] at hts hsrc
          have ht0 : t ≠ Target.holder h := by
            intro heq
            apply hother 0 (Nat.succ_ne_zero i1).symm
            rw [List.getElem?_cons_zero, heq]
          have hold2 : mem2.holders[h]? = some old := by
            rw [assignTarget_holder_frame lib t s0 mem mem2 h ht0 hstep]
            exact hold
          refine ih more mem2 i1 hts hsrc ?_ hold2 hok
          intro j hj
          have := hother (j + 1) (fun hcon => hj (Nat.succ_injective hcon))
          rwa [List.getElem?_cons_succ] at this

/-- The field whose address is the target of exactly one column ends up with
the value converted from that column. -/
theorem assignColumns_field_at (lib : SqlLib) (a : Nat) (g : String) (ts : List Target)
    (srcs : List SqlValue) (mem mem1 : Mem) (i : Nat) (src : SqlValue) (f : Field)
    (hts : ts[i]? = some (Target.field a g)) (hsrc : srcs[i]? = some src)
    (hother : ∀ j, j ≠ i → ts[j]? ≠ some (Target.field a g))
    (hf : heapField mem.heap a g = some f)
    (hok : assignColumns lib ts srcs mem = (none, mem1)) :
    ∃ v, lib.assignField f.ty src = .ok v ∧
      heapField mem1.heap a g = some { f with val := v } := by
  induction ts generalizing srcs mem i with
  | nil => simp at hts
  | cons t rest ih =>
    cases srcs with
    | nil => simp at hsrc
    | cons s0 more =>
      simp only [assignColumns] at hok
      cases hstep : assignTarget lib t s0 mem with
      | error er =>
        rw [hstep] at hok
        cases hok
      | ok mem2 =>
        rw [hstep] at hok
        simp only [] at hok
        cases i with
        | zero =>
          simp only [List.getElem?_cons_zero, Option.some.injEq] at hts hsrc
          subst hts
          subst hsrc
          simp only [assignTarget, hf] at hstep
          cases hv : lib.assignField f.ty s0 with
          | error er =>
            rw [hv] at hstep
            cases hstep
          | ok v =>
            rw [hv] at hstep
            simp only [Except.ok.injEq] at hstep
            refine ⟨v, rfl, ?_⟩
            have hrest : ∀ t ∈ rest, t ≠ Target.field a g := by
              intro t ht heq
              obtain ⟨j, hj⟩ := List.mem_iff_getElem?.mp ht
              apply hother (j + 1) (Nat.succ_ne_zero j)
              rw [List.getElem?_cons_succ, hj, heq]
            have hfr := assignColumns_heapField lib a g rest more mem2 hrest
            rw [hok] at hfr
            rw [hfr, ← hstep]
            exact heapField_heapSet_self mem.heap a g v f hf
        | succ i1 =>
          simp only [List.getElem?_cons_succ] at hts hsrc
          have ht0 : t ≠ Target.field a g := by
            intro heq
            apply hother 0 (Nat.succ_ne_zero i1).symm
            rw [List.getElem?_cons_zero, heq]
          have hf2 : heapField mem2.heap a g = some f := by
            rw [assignTarget_heapField lib t s0 mem mem2 a g ht0 hstep]
            exact hf
          refine ih more mem2 i1 hts hsrc ?_ hf2 hok
          intro j hj
          have := hother (j + 1) (fun hcon => hj (Nat.succ_injective hcon))
          rwa [List.getElem?_cons_succ] at this

/-! ### The write-back loops: what they store -/

theorem keys_unique {α β : Type} {m : List (α × β)} (h : (m.map Prod.fst).Nodup) {k : α}
    {v1 v2 : β} (h1 : (k, v1) ∈ m) (h2 : (k, v2) ∈ m) : v1 = v2 := by
  induction m with
  | nil => simp at h1
  | cons e rest ih =>
    rw [List.map_cons, List.nodup_cons] at h
    rcases List.mem_cons.mp h1 with ha | ha <;> rcases List.mem_cons.mp h2 with hb | hb
    · rw [← ha] at hb
      exact (Prod.mk.inj hb).2.symm
    · exfalso
      apply h.1
      rw [← ha]
      exact List.mem_map.mpr ⟨(k, v2), hb, rfl⟩
    · exfalso
      apply h.1
      rw [← hb]
      exact List.mem_map.mpr ⟨(k, v1), ha, rfl⟩
    · exact ih h.2 ha hb

theorem nullKind_int_cases {ty : GoType} (h : ty.nullKind = some NullKind.int) :
    ty = .ptr .int8 ∨ ty = .ptr .int16 ∨ ty = .ptr .int32 ∨ ty = .ptr .int64 := by
  cases ty with
  | ptr elem => cases elem <;> simp [GoType.nullKind] at h ⊢
  | _ => simp [GoType.nullKind] at h

theorem nullKind_float_cases {ty : GoType} (h : ty.nullKind = some NullKind.float) :
    ty = .ptr .float32 ∨ ty = .ptr .float64 := by
  cases ty with
  | ptr elem => cases elem <;> simp [GoType.nullKind] at h ⊢
  | _ => simp [GoType.nullKind] at h

theorem heapFieldType_of_field {heap : List Record} {a : Nat} {g : String} {f : Field}
    (h : heapField heap a g = some f) : heapFieldType heap a g = some f.ty := by
  simp only [heapFieldType, h]

theorem remapInts_at (holders : List Holder) (fr : FieldRef) (h : Nat) (n : Int)
    (remap : List (FieldRef × Nat)) (heap : List Record) (f : Field)
    (hnodup : (remap.map Prod.fst).Nodup) (hmem : (fr, h) ∈ remap)
    (hh : holders[h]? = some (Holder.nullInt64 n true))
    (hf : heapField heap fr.1 fr.2 = some f) (hk : f.ty.nullKind = some NullKind.int) :
    heapField (remapInts holders remap heap) fr.1 fr.2 =
      some { f with val := storedInt f.ty n } := by
  induction remap generalizing heap with
  | nil => simp at hmem
  | cons p rest ih =>
    obtain ⟨fr0, h0⟩ := p
    rw [List.map_cons, List.nodup_cons] at hnodup
    by_cases hfr : fr0 = fr
    · subst hfr
      have hh0 : h0 = h := by
        rcases List.mem_cons.mp hmem with h1 | h1
        · exact (Prod.mk.inj h1).2.symm
        · exact absurd (List.mem_map.mpr ⟨(fr0, h), h1, rfl⟩) hnodup.1
      subst hh0
      have hframe : ∀ heap1, heapField (remapInts holders rest heap1) fr0.1 fr0.2 =
          heapField heap1 fr0.1 fr0.2 := by
        intro heap1
        apply remapInts_heapField
        intro q hq hq1
        exfalso
        apply hnodup.1
        exact List.mem_map.mpr ⟨q, hq, by rw [hq1]⟩
      have hty := heapFieldType_of_field hf
      unfold remapInts
      simp only [hh, hty]
      rcases nullKind_int_cases hk with h8 | h16 | h32 | h64
      · simp only [h8]
        rw [hframe, heapField_heapSet_self heap fr0.1 fr0.2 _ f hf]
        simp [storedInt, h8]
      · simp only [h16]
        rw [hframe, heapField_heapSet_self heap fr0.1 fr0.2 _ f hf]
        simp [storedInt, h16]
      · simp only [h32]
        rw [hframe, heapField_heapSet_self heap fr0.1 fr0.2 _ f hf]
        simp [storedInt, h32]
      · simp only [h64]
        rw [hframe, heapField_heapSet_self heap fr0.1 fr0.2 _ f hf]
        simp [storedInt, h64]
    · have hmem1 : (fr, h) ∈ rest := by
        rcases List.mem_cons.mp hmem with h1 | h1
        · exact absurd (Prod.mk.inj h1).1.symm hfr
        · exact h1
      have hne : fr0.1 ≠ fr.1 ∨ fr0.2 ≠ fr.2 := by
        by_contra hcon
        push_neg at hcon
        exact hfr (Prod.ext hcon.1 hcon.2)
      unfold remapInts
      split
      · split <;> first
          | exact ih _ hnodup.2 hmem1 (by rw [heapField_heapSet_ne _ _ _ _ _ _ hne]; exact hf)
          | exact ih _ hnodup.2 hmem1 hf
      · exact ih _ hnodup.2 hmem1 hf

theorem remapFloats_at (lib : SqlLib) (holders : List Holder) (fr : FieldRef) (h : Nat)
    (x : Nat) (remap : List (FieldRef × Nat)) (heap : List Record) (f : Field)
    (hnodup : (remap.map Prod.fst).Nodup) (hmem : (fr, h) ∈ remap)
    (hh : holders[h]? = some (Holder.nullFloat64 x true))
    (hf : heapField heap fr.1 fr.2 = some f) (hk : f.ty.nullKind = some NullKind.float) :
    heapField (remapFloats lib holders remap heap) fr.1 fr.2 =
      some { f with val := storedFloat lib f.ty x } := by
  induction remap generalizing heap with
  | nil => simp at hmem
  | cons p rest ih =>
    obtain ⟨fr0, h0⟩ := p
    rw [List.map_cons, List.nodup_cons] at hnodup
    by_cases hfr : fr0 = fr
    · subst hfr
      have hh0 : h0 = h := by
        rcases List.mem_cons.mp hmem with h1 | h1
        · exact (Prod.mk.inj h1).2.symm
        · exact absurd (List.mem_map.mpr ⟨(fr0, h), h1, rfl⟩) hnodup.1
      subst hh0
      have hframe : ∀ heap1, heapField (remapFloats lib holders rest heap1) fr0.1 fr0.2 =
          heapField heap1 fr0.1 fr0.2 := by
        intro heap1
        apply remapFloats_heapField
        intro q hq hq1
        exfalso
        apply hnodup.1
        exact List.mem_map.mpr ⟨q, hq, by rw [hq1]⟩
      have hty := heapFieldType_of_field hf
      unfold remapFloats
      simp only [hh, hty]
      rcases nullKind_float_cases hk with h32 | h64
      · simp only [h32]
        rw [hframe, heapField_heapSet_self heap fr0.1 fr0.2 _ f hf]
        simp [storedFloat, h32]
      · simp only [h64]
        rw [hframe, heapField_heapSet_self heap fr0.1 fr0.2 _ f hf]
        simp [storedFloat, h64]
    · have hmem1 : (fr, h) ∈ rest := by
        rcases List.mem_cons.mp hmem with h1 | h1
        · exact absurd (Prod.mk.inj h1).1.symm hfr
        · exact h1
      have hne : fr0.1 ≠ fr.1 ∨ fr0.2 ≠ fr.2 := by
        by_contra hcon
        push_neg at hcon
        exact hfr (Prod.ext hcon.1 hcon.2)
      unfold remapFloats
      split
      · split <;> first
          | exact ih _ hnodup.2 hmem1 (by rw [heapField_heapSet_ne _ _ _ _ _ _ hne]; exact hf)
          | exact ih _ hnodup.2 hmem1 hf
      · exact ih _ hnodup.2 hmem1 hf

theorem remapBools_at (holders : List Holder) (fr : FieldRef) (h : Nat) (b : Bool)
    (remap : List (FieldRef × Nat)) (heap : List Record) (f : Field)
    (hnodup : (remap.map Prod.fst).Nodup) (hmem : (fr, h) ∈ remap)
    (hh : holders[h]? = some (Holder.nullBool b true))
    (hf : heapField heap fr.1 fr.2 = some f) :
    heapField (remapBools holders remap heap) fr.1 fr.2 =
      some { f with val := .ptr (.bool b) } := by
  induction remap generalizing heap with
  | nil => simp at hmem
  | cons p rest ih =>
    obtain ⟨fr0, h0⟩ := p
    rw [List.map_cons, List.nodup_cons] at hnodup
    by_cases hfr : fr0 = fr
    · subst hfr
      have hh0 : h0 = h := by
        rcases List.mem_cons.mp hmem with h1 | h1
        · exact (Prod.mk.inj h1).2.symm
        · exact absurd (List.mem_map.mpr ⟨(fr0, h), h1, rfl⟩) hnodup.1
      subst hh0
      unfold remapBools
      simp only [hh]
      rw [remapBools_heapField, heapField_heapSet_self heap fr0.1 fr0.2 _ f hf]
      intro q hq hq1
      exfalso
      apply hnodup.1
      exact List.mem_map.mpr ⟨q, hq, by rw [hq1]⟩
    · have hmem1 : (fr, h) ∈ rest := by
        rcases List.mem_cons.mp hmem with h1 | h1
        · exact absurd (Prod.mk.inj h1).1.symm hfr
        · exact h1
      have hne : fr0.1 ≠ fr.1 ∨ fr0.2 ≠ fr.2 := by
        by_contra hcon
        push_neg at hcon
        exact hfr (Prod.ext hcon.1 hcon.2)
      unfold remapBools
      split
      · exact ih _ hnodup.2 hmem1 (by rw [heapField_heapSet_ne _ _ _ _ _ _ hne]; exact hf)
      · exact ih _ hnodup.2 hmem1 hf

theorem remapStrings_at (holders : List Holder) (fr : FieldRef) (h : Nat) (t : String)
    (remap : List (FieldRef × Nat)) (heap : List Record) (f : Field)
    (hnodup : (remap.map Prod.fst).Nodup) (hmem : (fr, h) ∈ remap)
    (hh : holders[h]? = some (Holder.nullString t true))
    (hf : heapField heap fr.1 fr.2 = some f) :
    heapField (remapStrings holders remap heap) fr.1 fr.2 =
      some { f with val := .ptr (.str t) } := by
  induction remap generalizing heap with
  | nil => simp at hmem
  | cons p rest ih =>
    obtain ⟨fr0, h0⟩ := p
    rw [List.map_cons, List.nodup_cons] at hnodup
    by_cases hfr : fr0 = fr
    · subst hfr
      have hh0 : h0 = h := by
        rcases List.mem_cons.mp hmem with h1 | h1
        · exact (Prod.mk.inj h1).2.symm
        · exact absurd (List.mem_map.mpr ⟨(fr0, h), h1, rfl⟩) hnodup.1
      subst hh0
      unfold remapStrings
      simp only [hh]
      rw [remapStrings_heapField, heapField_heapSet_self heap fr0.1 fr0.2 _ f hf]
      intro q hq hq1
      exfalso
      apply hnodup.1
      exact List.mem_map.mpr ⟨q, hq, by rw [hq1]⟩
    · have hmem1 : (fr, h) ∈ rest := by
        rcases List.mem_cons.mp hmem with h1 | h1
        · exact absurd (Prod.mk.inj h1).1.symm hfr
        · exact h1
      have hne : fr0.1 ≠ fr.1 ∨ fr0.2 ≠ fr.2 := by
        by_contra hcon
        push_neg at hcon
        exact hfr (Prod.ext hcon.1 hcon.2)
      unfold remapStrings
      split
      · exact ih _ hnodup.2 hmem1 (by rw [heapField_heapSet_ne _ _ _ _ _ _ hne]; exact hf)
      · exact ih _ hnodup.2 hmem1 hf

theorem remapInts_shape (holders : List Holder) (remap : List (FieldRef × Nat))
    (heap : List Record) :
    (remapInts holders remap heap).map Record.shape = heap.map Record.shape := by
  induction remap generalizing heap with
  | nil => rfl
  | cons p rest ih =>
    obtain ⟨fr, h⟩ := p
    unfold remapInts
    split
    · split <;> rw [ih] <;> exact heapSet_shape _ _ _ _
    · exact ih _

theorem remapFloats_shape (lib : SqlLib) (holders : List Holder)
    (remap : List (FieldRef × Nat)) (heap : List Record) :
    (remapFloats lib holders remap heap).map Record.shape = heap.map Record.shape := by
  induction remap generalizing heap with
  | nil => rfl
  | cons p rest ih =>
    obtain ⟨fr, h⟩ := p
    unfold remapFloats
    split
    · split <;> rw [ih] <;> exact heapSet_shape _ _ _ _
    · exact ih _

theorem remapBools_shape (holders : List Holder) (remap : List (FieldRef × Nat))
    (heap : List Record) :
    (remapBools holders remap heap).map Record.shape = heap.map Record.shape := by
  induction remap generalizing heap with
  | nil => rfl
  | cons p rest ih =>
    obtain ⟨fr, h⟩ := p
    unfold remapBools
    split
    · rw [ih]
      exact heapSet_shape _ _ _ _
    · exact ih _

theorem remapStrings_shape (holders : List Holder) (remap : List (FieldRef × Nat))
    (heap : List Record) :
    (remapStrings holders remap heap).map Record.shape = heap.map Record.shape := by
  induction remap generalizing heap with
  | nil => rfl
  | cons p rest ih =>
    obtain ⟨fr, h⟩ := p
    unfold remapStrings
    split
    · rw [ih]
      exact heapSet_shape _ _ _ _
    · exact ih _

theorem remapAll_shape (lib : SqlLib) (holders : List Holder) (acc : ScanAcc)
    (heap : List Record) :
    (remapAll lib holders acc heap).map Record.shape = heap.map Record.shape := by
  unfold remapAll
  rw [remapStrings_shape, remapBools_shape, remapFloats_shape, remapInts_shape]

/-- The write-back loops leave a field alone when every remap entry for it has
an invalid holder. -/
theorem remapAll_frame (lib : SqlLib) (holders : List Holder) (acc : ScanAcc)
    (heap : List Record) (a : Nat) (g : String)
    (h : ∀ k, ∀ p ∈ acc.remapOf k, p.1 = (a, g) → HolderInvalid holders p.2) :
    heapField (remapAll lib holders acc heap) a g = heapField heap a g := by
  have hs : ∀ p ∈ acc.stringRemap, p.1 = (a, g) → HolderInvalid holders p.2 :=
    h NullKind.string
  have hb : ∀ p ∈ acc.boolRemap, p.1 = (a, g) → HolderInvalid holders p.2 := h NullKind.bool
  have hfl : ∀ p ∈ acc.floatRemap, p.1 = (a, g) → HolderInvalid holders p.2 :=
    h NullKind.float
  have hi : ∀ p ∈ acc.intRemap, p.1 = (a, g) → HolderInvalid holders p.2 := h NullKind.int
  unfold remapAll
  rw [remapStrings_heapField _ _ _ _ _ hs, remapBools_heapField _ _ _ _ _ hb,
    remapFloats_heapField _ _ _ _ _ _ hfl, remapInts_heapField _ _ _ _ _ hi]

/-- The write-back loops store in a field of a holder family what its holder
holds. -/
theorem remapAll_at (lib : SqlLib) (holders : List Holder) (acc : ScanAcc)
    (heap : List Record) (a : Nat) (g : String) (f : Field) (k : NullKind) (h : Nat)
    (hd : Holder)
    (hf : heapField heap a g = some f) (hk : f.ty.nullKind = some k)
    (hmem : ((a, g), h) ∈ acc.remapOf k)
    (hnodup : ∀ k1, ((acc.remapOf k1).map Prod.fst).Nodup)
    (hexcl : ∀ k1, k1 ≠ k → ∀ p ∈ acc.remapOf k1, p.1 ≠ (a, g))
    (hh : holders[h]? = some hd) (hkind : hd.kind = k) :
    heapField (remapAll lib holders acc heap) a g =
      some { f with val := storedValue lib f.ty hd f.val } := by
  have hframe : ∀ k1, k1 ≠ k → ∀ p ∈ acc.remapOf k1, p.1 = (a, g) →
      HolderInvalid holders p.2 := fun k1 hk1 p hp hp1 => absurd hp1 (hexcl k1 hk1 p hp)
  have hs : NullKind.string ≠ k → ∀ p ∈ acc.stringRemap, p.1 = (a, g) →
      HolderInvalid holders p.2 := hframe NullKind.string
  have hb : NullKind.bool ≠ k → ∀ p ∈ acc.boolRemap, p.1 = (a, g) →
      HolderInvalid holders p.2 := hframe NullKind.bool
  have hfl : NullKind.float ≠ k → ∀ p ∈ acc.floatRemap, p.1 = (a, g) →
      HolderInvalid holders p.2 := hframe NullKind.float
  have hi : NullKind.int ≠ k → ∀ p ∈ acc.intRemap, p.1 = (a, g) →
      HolderInvalid holders p.2 := hframe NullKind.int
  by_cases hvalid : hd.valid = true
  · unfold remapAll
    cases hd with
    | nullInt64 n v =>
      simp only [Holder.valid] at hvalid
      subst hvalid
      simp only [Holder.kind] at hkind
      subst hkind
      rw [remapStrings_heapField _ _ _ _ _ (hs (by decide)),
        remapBools_heapField _ _ _ _ _ (hb (by decide)),
        remapFloats_heapField _ _ _ _ _ _ (hfl (by decide))]
      exact remapInts_at holders (a, g) h n acc.intRemap heap f (hnodup NullKind.int) hmem hh
        hf hk
    | nullFloat64 x v =>
      simp only [Holder.valid] at hvalid
      subst hvalid
      simp only [Holder.kind] at hkind
      subst hkind
      rw [remapStrings_heapField _ _ _ _ _ (hs (by decide)),
        remapBools_heapField _ _ _ _ _ (hb (by decide))]
      refine remapFloats_at lib holders (a, g) h x acc.floatRemap _ f (hnodup NullKind.float)
        hmem hh ?_ hk
      rw [remapInts_heapField _ _ _ _ _ (hi (by decide))]
      exact hf
    | nullBool b v =>
      simp only [Holder.valid] at hvalid
      subst hvalid
      simp only [Holder.kind] at hkind
      subst hkind
      rw [remapStrings_heapField _ _ _ _ _ (hs (by decide))]
      refine remapBools_at holders (a, g) h b acc.boolRemap _ f (hnodup NullKind.bool)
        hmem hh ?_
      rw [remapFloats_heapField _ _ _ _ _ _ (hfl (by decide)),
        remapInts_heapField _ _ _ _ _ (hi (by decide))]
      exact hf
    | nullString t v =>
      simp only [Holder.valid] at hvalid
      subst hvalid
      simp only [Holder.kind] at hkind
      subst hkind
      refine remapStrings_at holders (a, g) h t acc.stringRemap _ f (hnodup NullKind.string)
        hmem hh ?_
      rw [remapBools_heapField _ _ _ _ _ (hb (by decide)),
        remapFloats_heapField _ _ _ _ _ _ (hfl (by decide)),
        remapInts_heapField _ _ _ _ _ (hi (by decide))]
      exact hf
  · have hinvalid : hd.valid = false := by
      cases hv : hd.valid with
      | false => rfl
      | true => exact absurd hv hvalid
    have hstored : storedValue lib f.ty hd f.val = f.val := by
      cases hd <;> simp only [Holder.valid] at hinvalid <;> subst hinvalid <;> rfl
    rw [hstored, remapAll_frame lib holders acc heap a g, hf]
    intro k1 p hp hp1
    by_cases hk1 : k1 = k
    · subst hk1
      have hp2 : p = ((a, g), p.2) := Prod.ext hp1 rfl
      rw [hp2] at hp
      have := keys_unique (hnodup k1) hp hmem
      intro hd1 hget
      rw [this, hh] at hget
      cases hget
      exact hinvalid
    · exact hframe k1 hk1 p hp hp1

/-! ### One struct argument, no prefix: the whole of `Scan` -/

theorem oneInv_direct_target {a : Nat} {val : Record} {fm : FieldMap} {acc : ScanAcc}
    (hinv : OneInv a val fm acc) {c g : String}
    (h : mapGet c acc.writeBackMap = some (Target.field a g)) :
    ∃ e ∈ fm, e.1 = c ∧ e.2.GoName = g ∧
      ∃ f, val.fieldByName g = some f ∧ f.ty.nullKind = none := by
  obtain ⟨e, he, hek⟩ := hinv.keys c _ h
  obtain ⟨f, hf, hreg⟩ := hinv.reg e he
  cases hk : f.ty.nullKind with
  | none =>
    simp only [hk] at hreg
    rw [hek, h] at hreg
    simp only [Option.some.injEq, Target.field.injEq, true_and] at hreg
    refine ⟨e, he, hek, hreg.symm, f, ?_, hk⟩
    rw [hreg]
    exact hf
  | some k =>
    simp only [hk] at hreg
    obtain ⟨h1, h2, _⟩ := hreg
    rw [hek, h] at h2
    cases h2

theorem oneInv_holder_target {a : Nat} {val : Record} {fm : FieldMap} {acc : ScanAcc}
    (hinv : OneInv a val fm acc) {c : String} {h : Nat}
    (hget : mapGet c acc.writeBackMap = some (Target.holder h)) :
    ∃ e ∈ fm, e.1 = c ∧ ∃ f k, val.fieldByName e.2.GoName = some f ∧
      f.ty.nullKind = some k ∧ ((a, e.2.GoName), h) ∈ acc.remapOf k ∧
      acc.holders[h]? = some (Holder.fresh k) := by
  obtain ⟨e, he, hek⟩ := hinv.keys c _ hget
  obtain ⟨f, hf, hreg⟩ := hinv.reg e he
  cases hk : f.ty.nullKind with
  | none =>
    simp only [hk] at hreg
    rw [hek, hget] at hreg
    cases hreg
  | some k =>
    simp only [hk] at hreg
    obtain ⟨h1, h2, h3, h4⟩ := hreg
    rw [hek, hget] at h2
    simp only [Option.some.injEq, Target.holder.injEq] at h2
    subst h2
    exact ⟨e, he, hek, f, k, hf, hk, mapGet_mem h3, h4⟩

theorem oneInv_remap_excl {a : Nat} {val : Record} {fm : FieldMap} {acc : ScanAcc}
    (hinv : OneInv a val fm acc) {g : String} {f : Field}
    (hf : val.fieldByName g = some f) (k1 : NullKind) (hk1 : f.ty.nullKind ≠ some k1) :
    ∀ p ∈ acc.remapOf k1, p.1 ≠ (a, g) := by
  intro p hp hp1
  obtain ⟨e, _, f1, h1, h2, h3⟩ := hinv.remap_origin k1 p.1 p.2 hp
  rw [hp1] at h1
  have hg : g = e.2.GoName := (Prod.mk.inj h1).2
  rw [← hg, hf] at h2
  cases h2
  exact hk1 h3

theorem writeBackTargets_getElem? (wbm : List (String × Target)) (cols : List String)
    (j : Nat) (c : String) (hc : cols[j]? = some c) :
    (writeBackTargets wbm cols)[j]? =
      some (match mapGet c wbm with
            | some t => t
            | none => Target.discard) := by
  simp [writeBackTargets, List.getElem?_map, hc]

theorem writeBackTargets_mem (wbm : List (String × Target)) (cols : List String) (t : Target)
    (ht : t ∈ writeBackTargets wbm cols) :
    t = Target.discard ∨ ∃ c ∈ cols, mapGet c wbm = some t := by
  simp only [writeBackTargets, List.mem_map] at ht
  obtain ⟨c, hcmem, hct⟩ := ht
  cases hget : mapGet c wbm with
  | none =>
    simp only [hget] at hct
    exact Or.inl hct.symm
  | some t1 =>
    simp only [hget] at hct
    exact Or.inr ⟨c, hcmem, by rw [← hct, hget]⟩

theorem writeBackTargets_index (wbm : List (String × Target)) (cols : List String)
    (j : Nat) (t : Target) (ht : (writeBackTargets wbm cols)[j]? = some t)
    (hnd : t ≠ Target.discard) : ∃ c, cols[j]? = some c ∧ mapGet c wbm = some t := by
  cases hc : cols[j]? with
  | none => simp [writeBackTargets, List.getElem?_map, hc] at ht
  | some c =>
    rw [writeBackTargets_getElem? wbm cols j c hc] at ht
    simp only [Option.some.injEq] at ht
    cases hget : mapGet c wbm with
    | none =>
      simp only [hget] at ht
      exact absurd ht.symm hnd
    | some t1 =>
      simp only [hget] at ht
      exact ⟨c, rfl, by rw [hget, ht]⟩

/-- `Scan` on an open cursor positioned on a row as long as the column list,
after the argument loop has succeeded. -/
theorem scan_after_args (lib : SqlLib) (sqlToGoFields : Resolver) (rows : Rows)
    (args : List Arg) (heap : List Record) (acc : ScanAcc) (cols : List String)
    (row : List SqlValue)
    (hargs : scanArgs sqlToGoFields heap args ScanAcc.init = .ok (.ok acc))
    (hopen : rows.closed = false) (hcols : rows.columns = .ok cols)
    (hcur : rows.current = some row) (hlen : row.length = cols.length) :
    Scan lib sqlToGoFields rows args heap =
      match assignColumns lib (writeBackTargets acc.writeBackMap cols) row
          { heap := heap, holders := acc.holders } with
      | (some er, mem) => .ok { ret := some er, heap := mem.heap, printed := [cols] }
      | (none, mem) =>
        .ok { ret := none, heap := remapAll lib mem.holders acc mem.heap, printed := [] } := by
  have hlen1 : (writeBackTargets acc.writeBackMap cols).length = row.length := by
    simp [writeBackTargets, hlen]
  unfold Scan
  simp only [hargs, Rows.getColumns, hopen, hcols, Rows.scan, hcur, hlen1, Bool.false_eq_true,
    if_false, ne_eq, not_true_eq_false]
  rfl

theorem fresh_kind (k : NullKind) : (Holder.fresh k).kind = k := by
  cases k <;> rfl

theorem fresh_invalid (k : NullKind) : (Holder.fresh k).valid = false := by
  cases k <;> rfl

/-- `Scan` of one row into one struct, with no prefix: when the field map has
unique column names and unique field names that all resolve, the result columns
are distinct, and the library converts every column that has an entry, `Scan`
returns no error, keeps the types of the heap, leaves in the field of every
entry whose column is in the row what `fieldAfter` says, and leaves the field of
every other entry as it was. -/
theorem scan_one (lib : SqlLib) (sqlToGoFields : Resolver) (rows : Rows)
    (heap : List Record) (a : Nat) (val : Record) (fm : FieldMap) (cols : List String)
    (row : List SqlValue)
    (hval : heap[a]? = some val) (hfm : sqlToGoFields val.typeName = .ok fm)
    (hkeys : (fm.map Prod.fst).Nodup) (hnames : (fm.map (fun e => e.2.GoName)).Nodup)
    (hres : ∀ e ∈ fm, (val.fieldByName e.2.GoName).isSome = true)
    (hopen : rows.closed = false) (hcols : rows.columns = .ok cols)
    (hcur : rows.current = some row) (hnodup : cols.Nodup) (hlen : row.length = cols.length)
    (hconv : ∀ (i : Nat) (c : String) (src : SqlValue), cols[i]? = some c →
      row[i]? = some src → ∀ e ∈ fm, e.1 = c → ∀ f, val.fieldByName e.2.GoName = some f →
        Converts lib f.ty src) :
    ∃ run, Scan lib sqlToGoFields rows [Arg.ref a] heap = .ok run ∧ run.ret = none ∧
      run.heap.map Record.shape = heap.map Record.shape ∧
      ∀ e ∈ fm, ∀ f, val.fieldByName e.2.GoName = some f →
        (∀ (i : Nat) (src : SqlValue), cols[i]? = some e.1 → row[i]? = some src →
          heapField run.heap a e.2.GoName = some { f with val := fieldAfter lib f src }) ∧
        (e.1 ∉ cols → heapField run.heap a e.2.GoName = some f) := by
  obtain ⟨acc, hargs, hinv⟩ := scanArgs_one sqlToGoFields heap a val fm hval hfm hkeys hnames
    hres
  have hheapf : ∀ g, heapField heap a g = val.fieldByName g := by
    intro g
    unfold heapField
    rw [hval]
  have hcolinj : ∀ (i j : Nat) (c : String), cols[i]? = some c → cols[j]? = some c → j = i := by
    intro i j c hi hj
    have hlt : j < cols.length := by
      rcases List.getElem?_eq_some_iff.mp hj with ⟨hlt, _⟩
      exact hlt
    exact List.getElem?_inj hlt hnodup (by rw [hi, hj])
  have hcan : ∀ p ∈ (writeBackTargets acc.writeBackMap cols).zip row,
      CanAssign lib { heap := heap, holders := acc.holders } p.1 p.2 := by
    intro p hp
    obtain ⟨j, hj⟩ := List.mem_iff_getElem?.mp hp
    obtain ⟨h1, h2⟩ := List.getElem?_zip_eq_some.mp hj
    by_cases hd : p.1 = Target.discard
    · rw [hd]
      exact ⟨_, rfl⟩
    · obtain ⟨c, hc, hget⟩ := writeBackTargets_index _ _ j p.1 h1 hd
      obtain ⟨e, he, hek⟩ := hinv.keys c _ hget
      obtain ⟨f, hf, hreg⟩ := hinv.reg e he
      have hcv := hconv j c p.2 hc h2 e he hek f hf
      unfold Converts at hcv
      cases hk : f.ty.nullKind with
      | none =>
        simp only [hk] at hreg hcv
        rw [hek, hget] at hreg
        simp only [Option.some.injEq] at hreg
        obtain ⟨v, hv⟩ := hcv
        unfold CanAssign
        rw [hreg]
        simp only [assignTarget, hheapf, hf, hv]
        exact ⟨_, rfl⟩
      | some k =>
        simp only [hk] at hreg hcv
        obtain ⟨h, hwb, _, hfresh⟩ := hreg
        rw [hek, hget] at hwb
        simp only [Option.some.injEq] at hwb
        obtain ⟨hd1, hhd1⟩ := hcv
        unfold CanAssign
        rw [hwb]
        simp only [assignTarget, hfresh, hhd1]
        exact ⟨_, rfl⟩
  obtain ⟨hnone, hshape⟩ := assignColumns_ok lib _ row _ hcan
  have hscan := scan_after_args lib sqlToGoFields rows [Arg.ref a] heap acc cols row hargs hopen
    hcols hcur hlen
  cases hres1 : assignColumns lib (writeBackTargets acc.writeBackMap cols) row
      { heap := heap, holders := acc.holders } with
  | mk er mem1 =>
    rw [hres1] at hnone hshape hscan
    simp only [] at hnone
    subst hnone
    simp only [] at hscan
    simp only [Mem.shape, Prod.mk.injEq] at hshape
    refine ⟨_, hscan, rfl, ?_, ?_⟩
    · simp only []
      rw [remapAll_shape, hshape.1]
    · intro e he f hf
      have hnodirect : ∀ k, f.ty.nullKind = some k →
          ∀ t ∈ writeBackTargets acc.writeBackMap cols, t ≠ Target.field a e.2.GoName := by
        intro k hk t ht heq
        rcases writeBackTargets_mem _ _ t ht with h | ⟨c, _, hget⟩
        · rw [h] at heq
          cases heq
        · rw [heq] at hget
          obtain ⟨_, _, _, _, f1, hf1, hk1⟩ := oneInv_direct_target hinv hget
          rw [hf] at hf1
          cases hf1
          rw [hk] at hk1
          cases hk1
      obtain ⟨f1, hf1, hreg⟩ := hinv.reg e he
      rw [hf] at hf1
      cases hf1
      cases hk : f.ty.nullKind with
      | none =>
        simp only [hk] at hreg
        have hexcl : ∀ k, ∀ p ∈ acc.remapOf k, p.1 = (a, e.2.GoName) →
            HolderInvalid mem1.holders p.2 := by
          intro k p hp hp1
          exact absurd hp1 (oneInv_remap_excl hinv hf k (by rw [hk]; simp) p hp)
        constructor
        · intro i src hci hri
          have hts : (writeBackTargets acc.writeBackMap cols)[i]? =
              some (Target.field a e.2.GoName) := by
            rw [writeBackTargets_getElem? _ _ i e.1 hci, hreg]
          have hother : ∀ j, j ≠ i → (writeBackTargets acc.writeBackMap cols)[j]? ≠
              some (Target.field a e.2.GoName) := by
            intro j hj hcon
            obtain ⟨c, hc, hget⟩ := writeBackTargets_index _ _ j _ hcon (by simp)
            obtain ⟨e1, he1, hek1, hg1, _⟩ := oneInv_direct_target hinv hget
            have hee : e1 = e := List.inj_on_of_nodup_map hnames he1 he hg1
            rw [hee] at hek1
            rw [← hek1] at hc
            exact hj (hcolinj i j e.1 hci hc)
          obtain ⟨v, hv, hfield⟩ := assignColumns_field_at lib a e.2.GoName _ row _ mem1 i src
            f hts hri hother (by rw [hheapf]; exact hf) hres1
          simp only []
          rw [remapAll_frame lib mem1.holders acc mem1.heap a e.2.GoName hexcl, hfield]
          simp only [fieldAfter, hk, hv]
        · intro habsent
          have hno : ∀ t ∈ writeBackTargets acc.writeBackMap cols,
              t ≠ Target.field a e.2.GoName := by
            intro t ht heq
            rcases writeBackTargets_mem _ _ t ht with h | ⟨c, hcmem, hget⟩
            · rw [h] at heq
              cases heq
            · rw [heq] at hget
              obtain ⟨e1, he1, hek1, hg1, _⟩ := oneInv_direct_target hinv hget
              have hee : e1 = e := List.inj_on_of_nodup_map hnames he1 he hg1
              rw [hee] at hek1
              rw [← hek1] at hcmem
              exact habsent hcmem
          have hfr := assignColumns_heapField lib a e.2.GoName _ row
            { heap := heap, holders := acc.holders } hno
          rw [hres1] at hfr
          simp only [] at hfr ⊢
          rw [remapAll_frame lib mem1.holders acc mem1.heap a e.2.GoName hexcl, hfr, hheapf]
          exact hf
      | some k =>
        simp only [hk] at hreg
        obtain ⟨h, hwb, hremap, hfresh⟩ := hreg
        have hfr := assignColumns_heapField lib a e.2.GoName _ row
          { heap := heap, holders := acc.holders } (hnodirect k hk)
        rw [hres1] at hfr
        simp only [] at hfr
        have hfield1 : heapField mem1.heap a e.2.GoName = some f := by
          rw [hfr, hheapf]
          exact hf
        have hexcl : ∀ k1, k1 ≠ k → ∀ p ∈ acc.remapOf k1, p.1 ≠ (a, e.2.GoName) := by
          intro k1 hk1
          apply oneInv_remap_excl hinv hf k1
          rw [hk]
          intro hcon
          exact hk1 (Option.some.inj hcon).symm
        have hholder_cols : ∀ c, mapGet c acc.writeBackMap = some (Target.holder h) →
            c = e.1 := fun c hc => hinv.holder_inj c e.1 h hc hwb
        constructor
        · intro i src hci hri
          have hts : (writeBackTargets acc.writeBackMap cols)[i]? =
              some (Target.holder h) := by
            rw [writeBackTargets_getElem? _ _ i e.1 hci, hwb]
          have hother : ∀ j, j ≠ i → (writeBackTargets acc.writeBackMap cols)[j]? ≠
              some (Target.holder h) := by
            intro j hj hcon
            obtain ⟨c, hc, hget⟩ := writeBackTargets_index _ _ j _ hcon (by simp)
            rw [hholder_cols c hget] at hc
            exact hj (hcolinj i j e.1 hci hc)
          obtain ⟨new, hnew, hholder⟩ := assignColumns_holder_at lib h _ row
            { heap := heap, holders := acc.holders } mem1 i src (Holder.fresh k) hts hri hother
            hfresh hres1
          have hkind : new.kind = k := by
            rw [holder_scan_kind lib _ new src hnew, fresh_kind]
          simp only []
          rw [remapAll_at lib mem1.holders acc mem1.heap a e.2.GoName f k h new hfield1 hk
            (mapGet_mem hremap) hinv.remap_nodup hexcl hholder hkind]
          simp only [fieldAfter, hk, hnew]
        · intro habsent
          have hno : ∀ t ∈ writeBackTargets acc.writeBackMap cols, t ≠ Target.holder h := by
            intro t ht heq
            rcases writeBackTargets_mem _ _ t ht with h1 | ⟨c, hcmem, hget⟩
            · rw [h1] at heq
              cases heq
            · rw [heq] at hget
              rw [hholder_cols c hget] at hcmem
              exact habsent hcmem
          have hhf := assignColumns_holder_frame lib h _ row
            { heap := heap, holders := acc.holders } hno
          rw [hres1] at hhf
          simp only [] at hhf ⊢
          rw [remapAll_frame lib mem1.holders acc mem1.heap a e.2.GoName, hfield1]
          intro k1 p hp hp1
          by_cases hk1 : k1 = k
          · subst hk1
            have hp2 : p = ((a, e.2.GoName), p.2) := Prod.ext hp1 rfl
            rw [hp2] at hp
            have hph := keys_unique (hinv.remap_nodup k1) hp (mapGet_mem hremap)
            intro hd1 hget
            rw [hph, hhf, hfresh] at hget
            cases hget
            exact fresh_invalid k1
          · exact absurd hp1 (hexcl k1 hk1 p hp)

/-! ### Narrowing of optional integers -/

theorem wrapInt_8 (v : Int) :
    (wrapInt 8 v = v ↔ -2 ^ 7 ≤ v ∧ v < 2 ^ 7) ∧ (wrapInt 8 v - v) % 2 ^ 8 = 0 ∧
      -2 ^ 7 ≤ wrapInt 8 v ∧ wrapInt 8 v < 2 ^ 7 := by
  unfold wrapInt
  norm_num
  omega

theorem wrapInt_16 (v : Int) :
    (wrapInt 16 v = v ↔ -2 ^ 15 ≤ v ∧ v < 2 ^ 15) ∧ (wrapInt 16 v - v) % 2 ^ 16 = 0 ∧
      -2 ^ 15 ≤ wrapInt 16 v ∧ wrapInt 16 v < 2 ^ 15 := by
  unfold wrapInt
  norm_num
  omega

theorem wrapInt_32 (v : Int) :
    (wrapInt 32 v = v ↔ -2 ^ 31 ≤ v ∧ v < 2 ^ 31) ∧ (wrapInt 32 v - v) % 2 ^ 32 = 0 ∧
      -2 ^ 31 ≤ wrapInt 32 v ∧ wrapInt 32 v < 2 ^ 31 := by
  unfold wrapInt
  norm_num
  omega

theorem fieldAfter_int (lib : SqlLib) (f : Field) (v : Int)
    (hk : f.ty.nullKind = some NullKind.int) (hlib : lib.assignInt64 (.int v) = .ok v) :
    (Holder.fresh NullKind.int).scan lib (.int v) = .ok (Holder.nullInt64 v true) ∧
    fieldAfter lib f (.int v) = storedInt f.ty v := by
  have hscan : (Holder.fresh NullKind.int).scan lib (.int v) =
      .ok (Holder.nullInt64 v true) := by
    simp only [Holder.fresh, Holder.scan, hlib, Except.map]
  exact ⟨hscan, by simp only [fieldAfter, hk, hscan, storedValue]⟩

/-- C20: `Scan` of one row into one struct with no prefix, where the column of
an optional integer field holds the 64-bit integer `v` and every other column
converts: `Scan` returns no error and the field points to `v` reduced to the
field's width, which for the widths 8, 16 and 32 is congruent to `v` modulo
`2 ^ w`, lies in the signed range, and equals `v` exactly when `v` lies in that
range; for width 64 it is `v`. -/
theorem scan_optional_int_narrows (lib : SqlLib) (sqlToGoFields : Resolver) (rows : Rows)
    (heap : List Record) (a : Nat) (val : Record) (fm : FieldMap) (cols : List String)
    (row : List SqlValue) (e : String × FieldMeta) (f : Field) (i : Nat) (v : Int)
    (hval : heap[a]? = some val) (hfm : sqlToGoFields val.typeName = .ok fm)
    (hkeys : (fm.map Prod.fst).Nodup) (hnames : (fm.map (fun e => e.2.GoName)).Nodup)
    (hres : ∀ e ∈ fm, (val.fieldByName e.2.GoName).isSome = true)
    (hopen : rows.closed = false) (hcols : rows.columns = .ok cols)
    (hcur : rows.current = some row) (hnodup : cols.Nodup) (hlen : row.length = cols.length)
    (he : e ∈ fm) (hf : val.fieldByName e.2.GoName = some f)
    (hk : f.ty.nullKind = some NullKind.int)
    (hi : cols[i]? = some e.1) (hv : row[i]? = some (SqlValue.int v))
    (hlib : lib.assignInt64 (.int v) = .ok v)
    (hconv : ∀ (j : Nat) (c : String) (src : SqlValue), j ≠ i → cols[j]? = some c →
      row[j]? = some src → ∀ e1 ∈ fm, e1.1 = c → ∀ f1,
        val.fieldByName e1.2.GoName = some f1 → Converts lib f1.ty src) :
    ∃ run stored, Scan lib sqlToGoFields rows [Arg.ref a] heap = .ok run ∧ run.ret = none ∧
      heapField run.heap a e.2.GoName = some { f with val := .ptr (.int stored) } ∧
      (f.ty = .ptr .int8 → stored = wrapInt 8 v ∧ (stored = v ↔ -2 ^ 7 ≤ v ∧ v < 2 ^ 7) ∧
        (stored - v) % 2 ^ 8 = 0 ∧ -2 ^ 7 ≤ stored ∧ stored < 2 ^ 7) ∧
      (f.ty = .ptr .int16 → stored = wrapInt 16 v ∧
        (stored = v ↔ -2 ^ 15 ≤ v ∧ v < 2 ^ 15) ∧
        (stored - v) % 2 ^ 16 = 0 ∧ -2 ^ 15 ≤ stored ∧ stored < 2 ^ 15) ∧
      (f.ty = .ptr .int32 → stored = wrapInt 32 v ∧
        (stored = v ↔ -2 ^ 31 ≤ v ∧ v < 2 ^ 31) ∧
        (stored - v) % 2 ^ 32 = 0 ∧ -2 ^ 31 ≤ stored ∧ stored < 2 ^ 31) ∧
      (f.ty = .ptr .int64 → stored = v) := by
  obtain ⟨hscanInt, hafter⟩ := fieldAfter_int lib f v hk hlib
  have hconv1 : ∀ (j : Nat) (c : String) (src : SqlValue), cols[j]? = some c →
      row[j]? = some src → ∀ e1 ∈ fm, e1.1 = c → ∀ f1,
        val.fieldByName e1.2.GoName = some f1 → Converts lib f1.ty src := by
    intro j c src hc hsrc e1 he1 hek f1 hf1
    by_cases hj : j = i
    · subst hj
      rw [hi] at hc
      rw [hv] at hsrc
      cases hc
      cases hsrc
      have hee : e1 = e := List.inj_on_of_nodup_map hkeys he1 he hek
      subst hee
      rw [hf] at hf1
      cases hf1
      unfold Converts
      simp only [hk]
      exact ⟨_, hscanInt⟩
    · exact hconv j c src hj hc hsrc e1 he1 hek f1 hf1
  obtain ⟨run, hrun, hret, _, hfields⟩ := scan_one lib sqlToGoFields rows heap a val fm cols row
    hval hfm hkeys hnames hres hopen hcols hcur hnodup hlen hconv1
  have hfield := (hfields e he f hf).1 i (.int v) hi hv
  rw [hafter] at hfield
  rcases nullKind_int_cases hk with h8 | h16 | h32 | h64
  · refine ⟨run, wrapInt 8 v, hrun, hret, ?_, ?_, ?_, ?_, ?_⟩
    · rw [hfield]
      simp [storedInt, h8]
    · intro _
      exact ⟨rfl, wrapInt_8 v⟩
    · intro h
      rw [h8] at h
      cases h
    · intro h
      rw [h8] at h
      cases h
    · intro h
      rw [h8] at h
      cases h
  · refine ⟨run, wrapInt 16 v, hrun, hret, ?_, ?_, ?_, ?_, ?_⟩
    · rw [hfield]
      simp [storedInt, h16]
    · intro h
      rw [h16] at h
      cases h
    · intro _
      exact ⟨rfl, wrapInt_16 v⟩
    · intro h
      rw [h16] at h
      cases h
    · intro h
      rw [h16] at h
      cases h
  · refine ⟨run, wrapInt 32 v, hrun, hret, ?_, ?_, ?_, ?_, ?_⟩
    · rw [hfield]
      simp [storedInt, h32]
    · intro h
      rw [h32] at h
      cases h
    · intro h
      rw [h32] at h
      cases h
    · intro _
      exact ⟨rfl, wrapInt_32 v⟩
    · intro h
      rw [h32] at h
      cases h
  · refine ⟨run, v, hrun, hret, ?_, ?_, ?_, ?_, ?_⟩
    · rw [hfield]
      simp [storedInt, h64]
    · intro h
      rw [h64] at h
      cases h
    · intro h
      rw [h64] at h
      cases h
    · intro h
      rw [h64] at h
      cases h
    · intro _
      rfl

/-- In the row `name = "Bob", age = 4294967301` of the example type the column
`name` converts. -/
theorem name_converts :
    ∀ (j : Nat) (c : String) (src : SqlValue), j ≠ 1 →
      ["name", "age"][j]? = some c →
      [SqlValue.str "Bob", SqlValue.int 4294967301][j]? = some src →
      ∀ e1 ∈ personFields, e1.1 = c → ∀ f1,
        (person "Person" 3 "Ann" .nil).fieldByName e1.2.GoName = some f1 →
        Converts basicLib f1.ty src := by
  intro j c src hj hc hsrc e1 he1 hek f1 hf1
  match j with
  | 0 =>
    simp only [List.getElem?_cons_zero, Option.some.injEq] at hc hsrc
    subst hc
    subst hsrc
    simp only [personFields, List.mem_cons, List.mem_singleton, List.not_mem_nil,
      or_false] at he1
    rcases he1 with h | h | h <;> subst h <;> simp at hek
    simp only [person, Record.fieldByName, List.find?_cons] at hf1
    simp at hf1
    subst hf1
    exact ⟨_, rfl⟩
  | 1 => exact absurd rfl hj
  | n + 2 => simp at hc

/-- Witness for C20: the column of `Age *int32` holds `2 ^ 32 + 5`; `Scan`
returns no error and `Age` points to 5. -/
theorem scan_optional_int_narrows_witness :
    Scan basicLib exampleResolver (oneRow ["name", "age"] [.str "Bob", .int 4294967301])
        [.ref 0] [person "Person" 3 "Ann" .nil] =
      .ok { ret := none, heap := [person "Person" 3 "Bob" (.ptr (.int 5))], printed := [] } ∧
    ∃ run stored,
      Scan basicLib exampleResolver (oneRow ["name", "age"] [.str "Bob", .int 4294967301])
        [Arg.ref 0] [person "Person" 3 "Ann" .nil] = .ok run ∧ run.ret = none ∧
      heapField run.heap 0 "Age" = some { name := "Age", ty := .ptr .int32,
                                          val := .ptr (.int stored) } ∧
      (GoType.ptr .int32 = .ptr .int8 → stored = wrapInt 8 4294967301 ∧
        (stored = 4294967301 ↔ -2 ^ 7 ≤ (4294967301 : Int) ∧ (4294967301 : Int) < 2 ^ 7) ∧
        (stored - 4294967301) % 2 ^ 8 = 0 ∧ -2 ^ 7 ≤ stored ∧ stored < 2 ^ 7) ∧
      (GoType.ptr .int32 = .ptr .int16 → stored = wrapInt 16 4294967301 ∧
        (stored = 4294967301 ↔ -2 ^ 15 ≤ (4294967301 : Int) ∧ (4294967301 : Int) < 2 ^ 15) ∧
        (stored - 4294967301) % 2 ^ 16 = 0 ∧ -2 ^ 15 ≤ stored ∧ stored < 2 ^ 15) ∧
      (GoType.ptr .int32 = .ptr .int32 → stored = wrapInt 32 4294967301 ∧
        (stored = 4294967301 ↔ -2 ^ 31 ≤ (4294967301 : Int) ∧ (4294967301 : Int) < 2 ^ 31) ∧
        (stored - 4294967301) % 2 ^ 32 = 0 ∧ -2 ^ 31 ≤ stored ∧ stored < 2 ^ 31) ∧
      (GoType.ptr .int32 = .ptr .int64 → stored = 4294967301) :=
  ⟨rfl,
   scan_optional_int_narrows basicLib exampleResolver
     (oneRow ["name", "age"] [.str "Bob", .int 4294967301]) [person "Person" 3 "Ann" .nil] 0
     (person "Person" 3 "Ann" .nil) personFields ["name", "age"]
     [.str "Bob", .int 4294967301]
     ("age", { GoName := "Age", ReadOnly := false, Unix := false })
     ⟨"Age", .ptr .int32, .nil⟩ 1 4294967301
     rfl rfl (by decide) (by decide) (by decide) rfl rfl rfl (by decide) rfl (by decide) rfl
     rfl rfl rfl rfl name_converts⟩

/-! ### The round trip through a row -/

theorem storedInt_fits (ty : GoType) (n : Int) (hk : ty.nullKind = some NullKind.int)
    (h : FitsWidth ty n) : storedInt ty n = .ptr (.int n) := by
  rcases nullKind_int_cases hk with h8 | h16 | h32 | h64
  · subst h8
    simp only [FitsWidth] at h
    simp only [storedInt, (wrapInt_8 n).1.mpr h]
  · subst h16
    simp only [FitsWidth] at h
    simp only [storedInt, (wrapInt_16 n).1.mpr h]
  · subst h32
    simp only [FitsWidth] at h
    simp only [storedInt, (wrapInt_32 n).1.mpr h]
  · subst h64
    rfl

theorem zeroOf_fieldByName (r : Record) (g : String) :
    (zeroOf r).fieldByName g =
      (r.fieldByName g).map (fun f => { f with val := zeroValue f.ty }) := by
  unfold zeroOf StructType.zero Record.fieldByName
  simp only [List.map_map]
  induction r.fields with
  | nil => rfl
  | cons f rest ih =>
    simp only [List.map_cons, List.find?_cons, Function.comp]
    by_cases hf : f.name = g
    · simp [hf]
    · simp only [hf, decide_False]
      exact ih

theorem zeroOf_shape (r : Record) : (zeroOf r).shape = r.shape := by
  unfold zeroOf StructType.zero Record.shape
  simp [List.map_map, Function.comp]

/-- Two field lists of the same names and types are equal when every field of
the second, whose names are distinct, is found under its name in the first. -/
theorem fields_ext (l1 l2 : List Field)
    (hshape : l1.map (fun f => (f.name, f.ty)) = l2.map (fun f => (f.name, f.ty)))
    (hnodup : (l2.map (fun f => f.name)).Nodup)
    (hfind : ∀ f ∈ l2, l1.find? (fun x => decide (x.name = f.name)) = some f) : l1 = l2 := by
  induction l1 generalizing l2 with
  | nil =>
    cases l2 with
    | nil => rfl
    | cons y ys => simp at hshape
  | cons x xs ih =>
    cases l2 with
    | nil => simp at hshape
    | cons y ys =>
      simp only [List.map_cons, List.cons.injEq, Prod.mk.injEq] at hshape
      obtain ⟨⟨hn, _⟩, hrest⟩ := hshape
      rw [List.map_cons, List.nodup_cons] at hnodup
      have hxy : x = y := by
        have := hfind y (List.mem_cons_self _ _)
        simp only [List.find?_cons, hn, decide_True, Option.some.injEq] at this
        exact this
      subst hxy
      congr 1
      apply ih ys hrest hnodup.2
      intro f hf
      have hne : ¬ x.name = f.name := by
        intro hcon
        apply hnodup.1
        rw [hcon]
        exact List.mem_map.mpr ⟨f, hf, rfl⟩
      have := hfind f (List.mem_cons_of_mem _ hf)
      simp only [List.find?_cons, hne, decide_False] at this
      exact this

theorem find_of_mem_nodup (l : List Field) (f : Field) (hf : f ∈ l)
    (hnodup : (l.map (fun x => x.name)).Nodup) :
    l.find? (fun x => decide (x.name = f.name)) = some f := by
  induction l with
  | nil => simp at hf
  | cons x xs ih =>
    rw [List.map_cons, List.nodup_cons] at hnodup
    rcases List.mem_cons.mp hf with hx | hx
    · subst hx
      simp [List.find?_cons]
    · have hne : ¬ x.name = f.name := by
        intro hcon
        apply hnodup.1
        rw [hcon]
        exact List.mem_map.mpr ⟨f, hx, rfl⟩
      simp only [List.find?_cons, hne, decide_False]
      exact ih hx hnodup.2

/-- A field that can make the round trip: the library converts its column
value, and from the zero value `Scan` leaves the original value. -/
theorem roundTrips_after (lib : SqlLib) (f : Field) (h : RoundTrips lib f) :
    Converts lib f.ty (toSql f.val) ∧
    fieldAfter lib { f with val := zeroValue f.ty } (toSql f.val) = f.val := by
  unfold RoundTrips at h
  unfold Converts fieldAfter
  cases hk : f.ty.nullKind with
  | none =>
    rw [hk] at h
    simp only [h]
    exact ⟨⟨_, rfl⟩, trivial⟩
  | some k =>
    rw [hk] at h
    cases k with
    | int =>
      obtain ⟨n, hv, hlib, hfit⟩ := h
      have hscan : (Holder.fresh NullKind.int).scan lib (.int n) =
          .ok (Holder.nullInt64 n true) := by
        simp only [Holder.fresh, Holder.scan, hlib, Except.map]
      simp only [hv, toSql, hscan, storedValue, storedInt_fits f.ty n hk hfit]
      exact ⟨⟨_, rfl⟩, trivial⟩
    | float =>
      obtain ⟨x, hv, hlib, hst⟩ := h
      have hscan : (Holder.fresh NullKind.float).scan lib (.float x) =
          .ok (Holder.nullFloat64 x true) := by
        simp only [Holder.fresh, Holder.scan, hlib, Except.map]
      simp only [hv, toSql, hscan, storedValue, hst]
      exact ⟨⟨_, rfl⟩, trivial⟩
    | bool =>
      obtain ⟨b, hv, hlib⟩ := h
      have hscan : (Holder.fresh NullKind.bool).scan lib (.bool b) =
          .ok (Holder.nullBool b true) := by
        simp only [Holder.fresh, Holder.scan, hlib, Except.map]
      simp only [hv, toSql, hscan, storedValue]
      exact ⟨⟨_, rfl⟩, trivial⟩
    | string =>
      obtain ⟨s, hv, hlib⟩ := h
      have hscan : (Holder.fresh NullKind.string).scan lib (.str s) =
          .ok (Holder.nullString s true) := by
        simp only [Holder.fresh, Holder.scan, hlib, Except.map]
      simp only [hv, toSql, hscan, storedValue]
      exact ⟨⟨_, rfl⟩, trivial⟩

/-- C11: the round trip of `Scan`. A row holds the field values of the struct
`r` under the column names of its field map (in any order, a non-nil optional
field as its pointee, so an optional integer as a 64-bit integer); every field
of `r` is named by the field map and can make the round trip (`RoundTrips`).
Then `Scan` of that row into the zero-valued struct of the type of `r`, with no
prefix, returns no error and leaves a struct equal to `r`. -/
theorem scan_round_trip (lib : SqlLib) (sqlToGoFields : Resolver) (r : Record)
    (fm es : FieldMap)
    (hfm : sqlToGoFields r.typeName = .ok fm)
    (hkeys : (fm.map Prod.fst).Nodup) (hnames : (fm.map (fun e => e.2.GoName)).Nodup)
    (hres : ∀ e ∈ fm, (r.fieldByName e.2.GoName).isSome = true)
    (hcover : ∀ f ∈ r.fields, ∃ e ∈ fm, e.2.GoName = f.name)
    (hfields : (r.fields.map (fun f => f.name)).Nodup)
    (hrt : ∀ f ∈ r.fields, RoundTrips lib f)
    (hperm : es.Perm fm) :
    ∃ run, Scan lib sqlToGoFields (oneRow (es.map Prod.fst) (es.map (columnValue r)))
        [Arg.ref 0] [zeroOf r] = .ok run ∧ run.ret = none ∧ run.heap = [r] := by
  have hzres : ∀ e ∈ fm, ((zeroOf r).fieldByName e.2.GoName).isSome = true := by
    intro e he
    have hsome := hres e he
    rw [zeroOf_fieldByName]
    cases hrf : r.fieldByName e.2.GoName with
    | none => rw [hrf] at hsome; cases hsome
    | some rf => rfl
  have hcolsnodup : (es.map Prod.fst).Nodup := (hperm.map Prod.fst).nodup_iff.mpr hkeys
  have hentry : ∀ (i : Nat) (c : String) (src : SqlValue), (es.map Prod.fst)[i]? = some c →
      (es.map (columnValue r))[i]? = some src → ∀ e ∈ fm, e.1 = c →
        es[i]? = some e ∧ src = columnValue r e := by
    intro i c src hc hs e he hec
    rw [List.getElem?_map] at hc hs
    cases hei : es[i]? with
    | none => rw [hei] at hc; cases hc
    | some e1 =>
      rw [hei] at hc hs
      simp only [Option.map, Option.some.injEq] at hc hs
      have he1 : e1 ∈ fm := hperm.subset (List.getElem?_mem hei)
      have h1 : (c, e1.2) ∈ fm := by rw [← hc]; exact he1
      have h2 : (c, e.2) ∈ fm := by rw [← hec]; exact he
      have h3 : e1.2 = e.2 := keys_unique hkeys h1 h2
      have h4 : e1 = e := Prod.ext (hc.trans hec.symm) h3
      rw [h4] at hs
      exact ⟨by rw [h4], hs.symm⟩
  have hzfield : ∀ e zf, (zeroOf r).fieldByName e = some zf →
      ∃ rf, r.fieldByName e = some rf ∧ rf ∈ r.fields ∧
        zf = { rf with val := zeroValue rf.ty } := by
    intro e zf hzf
    rw [zeroOf_fieldByName] at hzf
    cases hrf : r.fieldByName e with
    | none => rw [hrf] at hzf; cases hzf
    | some rf =>
      rw [hrf] at hzf
      simp only [Option.map, Option.some.injEq] at hzf
      exact ⟨rf, rfl, List.mem_of_find?_eq_some hrf, hzf.symm⟩
  have hconv : ∀ (i : Nat) (c : String) (src : SqlValue), (es.map Prod.fst)[i]? = some c →
      (es.map (columnValue r))[i]? = some src → ∀ e ∈ fm, e.1 = c → ∀ f,
        (zeroOf r).fieldByName e.2.GoName = some f → Converts lib f.ty src := by
    intro i c src hc hs e he hec zf hzf
    obtain ⟨_, hsrc⟩ := hentry i c src hc hs e he hec
    obtain ⟨rf, hrf, hmem, hzeq⟩ := hzfield _ zf hzf
    rw [hsrc, hzeq]
    simp only [columnValue, hrf]
    exact (roundTrips_after lib rf (hrt rf hmem)).1
  obtain ⟨run, hrun, hret, hshape, hafter⟩ :=
    scan_one lib sqlToGoFields (oneRow (es.map Prod.fst) (es.map (columnValue r)))
      [zeroOf r] 0 (zeroOf r) fm (es.map Prod.fst) (es.map (columnValue r))
      rfl hfm hkeys hnames hzres rfl rfl rfl hcolsnodup (by simp) hconv
  refine ⟨run, hrun, hret, ?_⟩
  simp only [List.map_cons, List.map_nil, zeroOf_shape] at hshape
  cases hheap : run.heap with
  | nil => rw [hheap] at hshape; simp at hshape
  | cons r1 more =>
    rw [hheap] at hshape
    simp only [List.map_cons, List.cons.injEq, List.map_eq_nil_iff] at hshape
    obtain ⟨hr1, hmore⟩ := hshape
    subst hmore
    simp only [Record.shape, Prod.mk.injEq] at hr1
    have hfieldsEq : r1.fields = r.fields := by
      apply fields_ext r1.fields r.fields hr1.2 hfields
      intro f hf
      obtain ⟨e, he, heg⟩ := hcover f hf
      have hrf : r.fieldByName e.2.GoName = some f := by
        rw [heg]
        exact find_of_mem_nodup r.fields f hf hfields
      have hzf : (zeroOf r).fieldByName e.2.GoName =
          some { f with val := zeroValue f.ty } := by
        rw [zeroOf_fieldByName, hrf]
        rfl
      obtain ⟨i, hi⟩ := List.getElem?_of_mem (hperm.symm.subset he)
      have hci : (es.map Prod.fst)[i]? = some e.1 := by
        rw [List.getElem?_map, hi]
        rfl
      have hri : (es.map (columnValue r))[i]? = some (columnValue r e) := by
        rw [List.getElem?_map, hi]
        rfl
      have hget := (hafter e he _ hzf).1 i (columnValue r e) hci hri
      have hcv : columnValue r e = toSql f.val := by
        simp only [columnValue, hrf]
      rw [hcv, (roundTrips_after lib f (hrt f hf)).2, hheap] at hget
      simp only [heapField, List.getElem?_cons_zero, Record.fieldByName, heg] at hget
      exact hget
    cases r1 with
    | mk tn fs =>
      cases r with
      | mk tn2 fs2 =>
        simp only at hr1 hfieldsEq
        rw [hr1.1, hfieldsEq]

theorem person_roundTrips :
    ∀ f ∈ (person "Person" 7 "Ann" (.ptr (.int 30))).fields, RoundTrips basicLib f := by
  intro f hf
  simp only [person, List.mem_cons, List.mem_singleton, List.not_mem_nil, or_false] at hf
  rcases hf with hf | hf | hf
  · subst hf
    show basicLib.assignField .int64 (.int 7) = .ok (.int 7)
    rfl
  · subst hf
    show basicLib.assignField .string (.str "Ann") = .ok (.str "Ann")
    rfl
  · subst hf
    show ∃ n, Value.ptr (.int 30) = .ptr (.int n) ∧ basicLib.assignInt64 (.int n) = .ok n ∧
      FitsWidth (.ptr .int32) n
    refine ⟨30, rfl, rfl, ?_⟩
    simp only [FitsWidth]
    norm_num

/-- Example for C11: the row `id = 7, name = "Ann", age = 30` scanned into a
zero `Person` gives `Id = 7`, `Name = "Ann"` and `Age` pointing to 30. -/
theorem scan_round_trip_witness :
    zeroOf (person "Person" 7 "Ann" (.ptr (.int 30))) = person "Person" 0 "" .nil ∧
    personFields.map (columnValue (person "Person" 7 "Ann" (.ptr (.int 30)))) =
      [SqlValue.int 7, SqlValue.str "Ann", SqlValue.int 30] ∧
    ∃ run, Scan basicLib exampleResolver
        (oneRow ["id", "name", "age"] [SqlValue.int 7, SqlValue.str "Ann", SqlValue.int 30])
        [Arg.ref 0] [person "Person" 0 "" .nil] = .ok run ∧ run.ret = none ∧
      run.heap = [person "Person" 7 "Ann" (.ptr (.int 30))] :=
  ⟨rfl, rfl, scan_round_trip basicLib exampleResolver (person "Person" 7 "Ann" (.ptr (.int 30)))
    personFields personFields rfl (by decide) (by decide) (by decide) (by decide) (by decide)
    person_roundTrips (List.Perm.refl _)⟩

end Crud
